import Mathlib

/-!
# video-chat: the session cache (`api/cache/cache.go`)

A shallow embedding of the sharded TTL cache and theorems about its
operations.

Modelling conventions
* `*Session` is `Option Session` (`none` is the nil pointer); a session is an
  opaque handle.
* `error` is `Option Error` (`none` is the nil error).
* `time.Now().UnixNano()` is an explicit argument `now : Int` of every
  operation that reads the clock; a `time.Duration` is an `Int` (nanoseconds).
* `int64` and `int32` arithmetic wraps (`wrapInt64`, `wrapInt32`).
* `farm.Hash64` belongs to an external library and is a parameter
  `Hash64 : String → Nat`, reduced modulo `2^64`.
* `map[uint64]storedValue` is an association list with at most the operations
  the source uses: lookup, assignment and `delete`.
* The locks are not modelled: every operation is one atomic step.
* The goroutine `cacheEvict` is part of a `System`: its local `bucketIdx`,
  whether it is blocked in a send on its own full queue, and the log of the
  `onEvict` calls it has launched. One iteration of its loop is a step
  (`System.tick` at a clock reading, or `System.drain`); a run of the system is
  a sequence of calls of the cache and of such steps.
-/

namespace cache

/-! ## Machine integers -/

/-- Two's complement reading of an integer as an `int64`. -/
def wrapInt64 (x : Int) : Int := (x + 2 ^ 63) % 2 ^ 64 - 2 ^ 63

/-- Two's complement reading of an integer as an `int32`. -/
def wrapInt32 (x : Int) : Int := (x + 2 ^ 31) % 2 ^ 32 - 2 ^ 31

/-- Membership in the range of `int64`. -/
def isInt64 (x : Int) : Prop := -2 ^ 63 ≤ x ∧ x < 2 ^ 63

instance (x : Int) : Decidable (isInt64 x) := by unfold isInt64; infer_instance

/-! ## Constants and errors -/

def DefaultCacheSize : Int := 1000000
def DefaultNumBuckets : Int := 100
def NoExpiration : Int := -1
def DefaultExpiration : Int := 0

/-- An opaque session handle; `*Session` is `Option Session`. -/
abbrev Session := Nat

/-- The error values of the package: the three sentinels and the values
built by `errors.New` inside `Add` and `Replace`. -/
inductive Error where
  | NotFoundError
  | CloseError
  | MaxSizeExceed
  | errorsNew (msg : String)
  deriving DecidableEq, Repr

/-- The text returned by `err.Error()`. -/
def Error.message : Error → String
  | .NotFoundError => "key not found"
  | .CloseError => "cache has been closed"
  | .MaxSizeExceed => "cache max size exceed"
  | .errorsNew msg => msg

/-! ## Data model -/

structure storedValue where
  object : Option Session
  expiration : Int
  deriving DecidableEq, Repr

structure Bucket where
  values : List (Nat × storedValue)
  deriving DecidableEq, Repr

structure evictEvent where
  bucketIdx : Nat
  hash : Nat
  deriving DecidableEq, Repr

/-- A buffered channel of eviction events: the pending events, oldest first,
whether `close` has been called on it, and the bound given to `make`. -/
structure Chan where
  buf : List evictEvent
  closed : Bool
  bound : Int
  deriving DecidableEq, Repr

/-- The cache. The ticker is a real-time device and is left out; `onEvict`
records whether a handler was configured (`false` is the nil handler). -/
structure Cache where
  cacheSize : Int
  numBuckets : Int
  defaultExpiration : Int
  evictionCh : Chan
  size : Int
  closed : Int
  storage : List Bucket
  onEvict : Bool
  deriving DecidableEq, Repr

/-! ## Maps -/

/-- The lookup `m[h]`: the stored value when the key is present. -/
def mapLookup : List (Nat × storedValue) → Nat → Option storedValue
  | [], _ => none
  | (h', v) :: m, h => if h' = h then some v else mapLookup m h

/-- The assignment `m[h] = v`. -/
def mapInsert : List (Nat × storedValue) → Nat → storedValue → List (Nat × storedValue)
  | [], h, v => [(h, v)]
  | (h', v') :: m, h, v => if h' = h then (h, v) :: m else (h', v') :: mapInsert m h v

/-- The removal `delete(m, h)`. -/
def mapDelete : List (Nat × storedValue) → Nat → List (Nat × storedValue)
  | [], _ => []
  | (h', v') :: m, h => if h' = h then mapDelete m h else (h', v') :: mapDelete m h

/-! ## Operations -/

/-- The method `isExpired` of the source, at clock reading `now`. -/
def storedValue.isExpired (item : storedValue) (now : Int) : Bool :=
  decide (item.expiration > 0) && decide (now > item.expiration)

/-- The constructor `New`. `time.NewTicker` panics on a non-positive interval,
which is the `none` result. -/
def New (cacheSize numBuckets defaultExpiration cleanupInterval : Int) (onEvict : Bool) :
    Option Cache :=
  let cacheSize := if cacheSize ≤ 0 then DefaultCacheSize else cacheSize
  let numBuckets := if numBuckets ≤ 0 then DefaultNumBuckets else numBuckets
  if cleanupInterval ≤ 0 then none
  else some
    { cacheSize := cacheSize
      numBuckets := numBuckets
      defaultExpiration := defaultExpiration
      evictionCh := ⟨[], false, cacheSize⟩
      size := 0
      closed := 0
      storage := List.replicate numBuckets.toNat ⟨[]⟩
      onEvict := onEvict }

def Cache.isClosed (c : Cache) : Bool := decide (c.closed ≠ 0)

def Cache.getSize (c : Cache) : Int := c.size

def Cache.incSize (c : Cache) : Cache := { c with size := wrapInt32 (c.size + 1) }

def Cache.decSize (c : Cache) : Cache := { c with size := wrapInt32 (c.size - 1) }

/-- The conversion `uint64(n)` of an `int`. -/
def toUint64 (n : Int) : Nat := (n % 2 ^ 64).toNat

/-- The method `getBucketIdx`: the fingerprint of the key and its shard. -/
def Cache.getBucketIdx (Hash64 : String → Nat) (c : Cache) (key : String) : Nat × Nat :=
  let hash := Hash64 key % 2 ^ 64
  (hash, hash % toUint64 c.numBuckets)

/-- The method `getExpiration` at clock reading `now`. -/
def Cache.getExpiration (c : Cache) (d : Int) (now : Int) : Int :=
  let d := if d = DefaultExpiration then c.defaultExpiration else d
  if d > 0 then wrapInt64 (now + d) else 0

/-- The shard `c.storage[bucketIdx]`. -/
def Cache.bucket (c : Cache) (bucketIdx : Nat) : Bucket :=
  c.storage.getD bucketIdx ⟨[]⟩

/-- The assignment `bucket.values[h] = v` on the shard `bucketIdx`. -/
def Cache.store (c : Cache) (bucketIdx : Nat) (h : Nat) (v : storedValue) : Cache :=
  { c with storage := c.storage.set bucketIdx ⟨mapInsert (c.bucket bucketIdx).values h v⟩ }

/-- The removal `delete(bucket.values, h)` on the shard `bucketIdx`. -/
def Cache.remove (c : Cache) (bucketIdx : Nat) (h : Nat) : Cache :=
  { c with storage := c.storage.set bucketIdx ⟨mapDelete (c.bucket bucketIdx).values h⟩ }

/-- The method `Set`: new state, `previous`, `err`. -/
def Cache.Set (Hash64 : String → Nat) (c : Cache) (key : String) (value : Option Session)
    (d : Int) (now : Int) : Cache × Option Session × Option Error :=
  if c.isClosed then (c, none, some .CloseError)
  else
    let (h, bucketIdx) := c.getBucketIdx Hash64 key
    match mapLookup (c.bucket bucketIdx).values h with
    | some item =>
      let previous := if !item.isExpired now then item.object else none
      (c.store bucketIdx h ⟨value, c.getExpiration d now⟩, previous, none)
    | none =>
      if c.cacheSize = c.getSize then (c, none, some .MaxSizeExceed)
      else (c.incSize.store bucketIdx h ⟨value, c.getExpiration d now⟩, none, none)

/-- The method `Add`: new state, `err`. -/
def Cache.Add (Hash64 : String → Nat) (c : Cache) (key : String) (value : Option Session)
    (d : Int) (now : Int) : Cache × Option Error :=
  if c.isClosed then (c, some .CloseError)
  else if c.cacheSize = c.getSize then (c, some .MaxSizeExceed)
  else
    let (h, bucketIdx) := c.getBucketIdx Hash64 key
    match mapLookup (c.bucket bucketIdx).values h with
    | some item =>
      if !item.isExpired now then
        (c, some (.errorsNew ("item '" ++ key ++ "' already exists")))
      else (c.incSize.store bucketIdx h ⟨value, c.getExpiration d now⟩, none)
    | none => (c.incSize.store bucketIdx h ⟨value, c.getExpiration d now⟩, none)

/-- The method `Replace`: new state, `previous`, `err`. -/
def Cache.Replace (Hash64 : String → Nat) (c : Cache) (key : String) (value : Option Session)
    (d : Int) (now : Int) : Cache × Option Session × Option Error :=
  if c.isClosed then (c, none, some .CloseError)
  else
    let (h, bucketIdx) := c.getBucketIdx Hash64 key
    match mapLookup (c.bucket bucketIdx).values h with
    | some item =>
      if item.isExpired now then
        (c, none, some (.errorsNew ("item '" ++ key ++ "' doesn't exist")))
      else (c.store bucketIdx h ⟨value, c.getExpiration d now⟩, item.object, none)
    | none => (c, none, some (.errorsNew ("item '" ++ key ++ "' doesn't exist")))

/-- The method `Get`: new state, `value`, `err`. -/
def Cache.Get (Hash64 : String → Nat) (c : Cache) (key : String) (now : Int) :
    Cache × Option Session × Option Error :=
  if c.isClosed then (c, none, some .CloseError)
  else
    let (h, bucketIdx) := c.getBucketIdx Hash64 key
    match mapLookup (c.bucket bucketIdx).values h with
    | some item =>
      if item.isExpired now then (c, none, some .NotFoundError)
      else (c, item.object, none)
    | none => (c, none, some .NotFoundError)

/-- The method `Delete`: new state, `err`. -/
def Cache.Delete (Hash64 : String → Nat) (c : Cache) (key : String) (now : Int) :
    Cache × Option Error :=
  if c.isClosed then (c, some .CloseError)
  else
    let (h, bucketIdx) := c.getBucketIdx Hash64 key
    match mapLookup (c.bucket bucketIdx).values h with
    | none => (c, some .NotFoundError)
    | some item =>
      (c.decSize.remove bucketIdx h, if item.isExpired now then some .NotFoundError else none)

/-- The method `KeepAlive`: new state, `value`, `err`. -/
def Cache.KeepAlive (Hash64 : String → Nat) (c : Cache) (key : String) (d : Int) (now : Int) :
    Cache × Option Session × Option Error :=
  if c.isClosed then (c, none, some .CloseError)
  else
    let (h, bucketIdx) := c.getBucketIdx Hash64 key
    match mapLookup (c.bucket bucketIdx).values h with
    | some item =>
      if item.isExpired now then (c, none, some .NotFoundError)
      else (c.store bucketIdx h ⟨item.object, c.getExpiration d now⟩, item.object, none)
    | none => (c, none, some .NotFoundError)

/-- The loop of `Close` over the shards `0 .. numBuckets - 1`: each gets a
fresh empty map. -/
def clearBuckets (storage : List Bucket) (numBuckets : Int) : List Bucket :=
  (List.range numBuckets.toNat).foldl (fun st i => st.set i ⟨[]⟩) storage

/-- The method `Close`. -/
def Cache.Close (c : Cache) : Cache :=
  if c.isClosed then c
  else
    { c with
      closed := 1
      evictionCh := { c.evictionCh with closed := true }
      storage := clearBuckets c.storage c.numBuckets
      size := 0 }

/-- The method `Size`. -/
def Cache.Size (c : Cache) : Int := if c.isClosed then 0 else c.getSize

/-! ## Derived notions used in the statements -/

/-- The entry stored for the fingerprint `h`, looked up in the shard that
`getBucketIdx` assigns to `h`. -/
def Cache.find (c : Cache) (h : Nat) : Option storedValue :=
  mapLookup (c.bucket (h % toUint64 c.numBuckets)).values h

/-- The 64-bit fingerprint of a key. -/
def fingerprint (Hash64 : String → Nat) (key : String) : Nat := Hash64 key % 2 ^ 64

/-- The shape every cache built by `New` has and every operation keeps: a
positive number of shards that fits an `int`, and one shard per index. -/
def Cache.WF (c : Cache) : Prop :=
  0 < c.numBuckets ∧ c.numBuckets < 2 ^ 63 ∧ c.storage.length = c.numBuckets.toNat

instance (c : Cache) : Decidable c.WF := by unfold Cache.WF; infer_instance

/-! ## The eviction worker -/

/-- The send `ch <- e`: `none` when the buffer is full, in which case the
sender blocks. -/
def Chan.send (ch : Chan) (e : evictEvent) : Option Chan :=
  if (ch.buf.length : Int) < ch.bound then some { ch with buf := ch.buf ++ [e] } else none

/-- The scan of the ticker case of `cacheEvict` over the entries of the shard
`bucketIdx`: an event is sent for every entry that is expired at `now`. The
result is the channel and whether a send found the queue full; the scan stops
there, since the sender blocks. The entries are visited in the order of the
association list, one of the orders the `range` over a map may take. -/
def sweep (bucketIdx : Nat) (now : Int) : List (Nat × storedValue) → Chan → Chan × Bool
  | [], ch => (ch, false)
  | (h, v) :: m, ch =>
    if v.isExpired now then
      match ch.send ⟨bucketIdx, h⟩ with
      | some ch' => sweep bucketIdx now m ch'
      | none => (ch, true)
    else sweep bucketIdx now m ch

/-- The cache together with the goroutine `cacheEvict` that `New` starts: the
local variable `bucketIdx` of the goroutine, whether the goroutine is blocked
in a send on its own full queue, and the arguments of the `onEvict` calls
launched so far, oldest first. -/
structure System where
  cache : Cache
  bucketIdx : Nat
  blocked : Bool
  evicted : List (Option Session)
  deriving DecidableEq, Repr

/-- The system right after `New`: the goroutine starts with `bucketIdx := 0`. -/
def System.start (c : Cache) : System := ⟨c, 0, false, []⟩

/-- The cache with the eviction queue replaced by `ch`. -/
def Cache.setQueue (c : Cache) (ch : Chan) : Cache := { c with evictionCh := ch }

/-- One iteration of the loop of `cacheEvict` that takes the ticker case, at
clock reading `now`. Nothing happens once the cache is closed (the loop has
ended) or while the goroutine is blocked. -/
def System.tick (s : System) (now : Int) : System :=
  if s.cache.isClosed || s.blocked then s
  else if (sweep s.bucketIdx now (s.cache.bucket s.bucketIdx).values
      s.cache.evictionCh).2 then
    { s with
      cache := s.cache.setQueue (sweep s.bucketIdx now
        (s.cache.bucket s.bucketIdx).values s.cache.evictionCh).1
      blocked := true }
  else
    { s with
      cache := s.cache.setQueue (sweep s.bucketIdx now
        (s.cache.bucket s.bucketIdx).values s.cache.evictionCh).1
      bucketIdx := if (s.bucketIdx : Int) < s.cache.numBuckets - 1 then s.bucketIdx + 1 else 0 }

/-- One iteration of the loop of `cacheEvict` that takes the receive case: the
oldest pending event is taken from the queue and its entry, when present, is
counted out, deleted and handed to `onEvict`. With an empty queue the receive
case is not ready and nothing happens. -/
def System.drain (s : System) : System :=
  if s.cache.isClosed || s.blocked then s
  else
    match s.cache.evictionCh.buf with
    | [] => s
    | e :: rest =>
      match mapLookup (s.cache.bucket e.bucketIdx).values e.hash with
      | some item =>
        { s with
          cache :=
            ((s.cache.setQueue ⟨rest, s.cache.evictionCh.closed, s.cache.evictionCh.bound⟩).decSize).remove
              e.bucketIdx e.hash
          evicted := if s.cache.onEvict then s.evicted ++ [item.object] else s.evicted }
      | none => { s with cache := s.cache.setQueue ⟨rest, s.cache.evictionCh.closed, s.cache.evictionCh.bound⟩ }

/-- The calls and worker iterations that make up a run of the system. -/
inductive Op where
  | set (key : String) (value : Option Session) (d now : Int)
  | add (key : String) (value : Option Session) (d now : Int)
  | replace (key : String) (value : Option Session) (d now : Int)
  | get (key : String) (now : Int)
  | delete (key : String) (now : Int)
  | keepAlive (key : String) (d now : Int)
  | close
  | tick (now : Int)
  | drain
  deriving DecidableEq, Repr

/-- The effect of one call or worker iteration on the system. -/
def System.apply (Hash64 : String → Nat) (s : System) : Op → System
  | .set key value d now => { s with cache := (s.cache.Set Hash64 key value d now).1 }
  | .add key value d now => { s with cache := (s.cache.Add Hash64 key value d now).1 }
  | .replace key value d now => { s with cache := (s.cache.Replace Hash64 key value d now).1 }
  | .get key now => { s with cache := (s.cache.Get Hash64 key now).1 }
  | .delete key now => { s with cache := (s.cache.Delete Hash64 key now).1 }
  | .keepAlive key d now => { s with cache := (s.cache.KeepAlive Hash64 key d now).1 }
  | .close => { s with cache := s.cache.Close }
  | .tick now => s.tick now
  | .drain => s.drain

/-- The effect of a sequence of calls and worker iterations, in order. -/
def System.run (Hash64 : String → Nat) (s : System) (ops : List Op) : System :=
  ops.foldl (System.apply Hash64) s

/-- The states of the system that a run from a freshly built cache reaches. -/
def System.Reachable (Hash64 : String → Nat) (s : System) : Prop :=
  ∃ (cacheSize numBuckets defaultExpiration cleanupInterval : Int) (onEvict : Bool)
    (c0 : Cache) (ops : List Op),
    numBuckets < 2 ^ 63 ∧
      New cacheSize numBuckets defaultExpiration cleanupInterval onEvict = some c0 ∧
      s = (System.start c0).run Hash64 ops

/-- The number of entries stored across all shards. -/
def Cache.count (c : Cache) : Nat := (c.storage.map (fun b => b.values.length)).sum

/-- What every reachable state of the cache satisfies: it is well-formed, and
once closed it holds no entry and its counter is 0. -/
def Cache.Inv (c : Cache) : Prop :=
  c.WF ∧ (c.isClosed = true → (∀ b ∈ c.storage, b.values = []) ∧ c.size = 0)

/-- The events that a sweep of the shard `bucketIdx` sends at `now`: one for
every entry that is expired, in the order of the scan. -/
def expiredEvents (bucketIdx : Nat) (now : Int) (m : List (Nat × storedValue)) :
    List evictEvent :=
  (m.filter (fun p => p.2.isExpired now)).map (fun p => ⟨bucketIdx, p.1⟩)

/-- Whether a step is an iteration of the worker (a sweep tick or a queue
drain) rather than a call of the cache. -/
def Op.isWorker : Op → Bool
  | .tick _ => true
  | .drain => true
  | _ => false

/-! ## Notions for the invariants -/

/-- The fingerprints stored in a shard map, in the order of the list. -/
def mapKeys (m : List (Nat × storedValue)) : List Nat := m.map Prod.fst

/-- The ways in which a call on the fingerprint `h` changes an open cache: not
at all, by rewriting the slot (`Set`, `Replace`, `KeepAlive` on a present key),
by counting and writing an empty slot (`Set`, `Add` on an absent key), by
counting and rewriting a present slot (`Add` over an expired entry), or by
counting out and deleting a present slot (`Delete`). -/
inductive Effect (c : Cache) (h : Nat) : Cache → Prop where
  | same : Effect c h c
  | update (v : storedValue) : c.isClosed = false → c.find h ≠ none →
      Effect c h (c.store (h % toUint64 c.numBuckets) h v)
  | insert (v : storedValue) : c.isClosed = false → c.find h = none → c.cacheSize ≠ c.size →
      Effect c h (c.incSize.store (h % toUint64 c.numBuckets) h v)
  | recount (v : storedValue) : c.isClosed = false → c.find h ≠ none → c.cacheSize ≠ c.size →
      Effect c h (c.incSize.store (h % toUint64 c.numBuckets) h v)
  | delete : c.isClosed = false → c.find h ≠ none →
      Effect c h (c.decSize.remove (h % toUint64 c.numBuckets) h)

/-- What every reachable state of the system satisfies besides `Cache.Inv`:
the capacity is positive and is the bound of the queue, the index of the
worker and the shard indices of the pending events are within the shard
array, and no shard map holds a fingerprint twice. -/
def System.Good (s : System) : Prop :=
  s.cache.WF ∧ 0 < s.cache.cacheSize ∧ s.cache.evictionCh.bound = s.cache.cacheSize ∧
    s.bucketIdx < s.cache.storage.length ∧
    (∀ e ∈ s.cache.evictionCh.buf, e.bucketIdx < s.cache.storage.length) ∧
    (∀ b ∈ s.cache.storage, (mapKeys b.values).Nodup)

/-- The bounds of the size counter: the number of stored entries is at most the
counter, and the counter is at most the capacity. -/
def Cache.Bounded (c : Cache) : Prop :=
  (c.count : Int) ≤ c.size ∧ c.size ≤ c.cacheSize

/-- The number of sweep ticks among the steps of a run. -/
def countTicks : List Op → Nat
  | [] => 0
  | .tick _ :: ops => countTicks ops + 1
  | _ :: ops => countTicks ops

/-- Whether a step is a queue drain. -/
def Op.isDrain : Op → Bool
  | .drain => true
  | _ => false

/-! ## The capacity scenario -/

/-- One insertion of the capacity scenario: a call of `Add` (when `useAdd`) or
of `Set` with the given key, value, duration and clock reading. -/
structure Insertion where
  useAdd : Bool
  key : String
  value : Option Session
  d : Int
  now : Int
  deriving DecidableEq, Repr

/-- Performs one insertion and returns the new state and the error. -/
def Cache.insert (Hash64 : String → Nat) (c : Cache) (op : Insertion) : Cache × Option Error :=
  if op.useAdd then c.Add Hash64 op.key op.value op.d op.now
  else ((c.Set Hash64 op.key op.value op.d op.now).1, (c.Set Hash64 op.key op.value op.d op.now).2.2)

/-- Performs the insertions in order; returns the final state and, for each
insertion, its error and the value of `Size()` right after it. -/
def Cache.insertAll (Hash64 : String → Nat) : Cache → List Insertion → Cache × List (Option Error × Int)
  | c, [] => (c, [])
  | c, op :: ops =>
    ((Cache.insertAll Hash64 (c.insert Hash64 op).1 ops).1,
      ((c.insert Hash64 op).2, (c.insert Hash64 op).1.Size) ::
        (Cache.insertAll Hash64 (c.insert Hash64 op).1 ops).2)

/-! ## Example data

The examples instantiate the hash parameter with `String.length`, so that keys
of different lengths have different fingerprints. -/

/-- A cache with capacity two and a single shard, as `New 2 1 60 1 false`
builds it. -/
def smallCache : Cache :=
  { cacheSize := 2
    numBuckets := 1
    defaultExpiration := 60
    evictionCh := ⟨[], false, 2⟩
    size := 0
    closed := 0
    storage := [⟨[]⟩]
    onEvict := false }

/-- The cache `smallCache` filled to its capacity: `Set("a", 7, 5ns)` at clock
reading 100, then `Add("bb", 8, NoExpiration)` at clock reading 101. -/
def fullCache : Cache :=
  (smallCache.insertAll String.length
    [⟨false, "a", some 7, 5, 100⟩, ⟨true, "bb", some 8, NoExpiration, 101⟩]).1

/-- The cache `smallCache` after `Set("a", 7, 5ns)` at clock reading 100. -/
def halfCache : Cache := (smallCache.Set String.length "a" (some 7) 5 100).1

/-- A cache with capacity one, a single shard and an eviction handler, as
`New 1 1 60 1 true` builds it. -/
def tinyCache : Cache :=
  { cacheSize := 1
    numBuckets := 1
    defaultExpiration := 60
    evictionCh := ⟨[], false, 1⟩
    size := 0
    closed := 0
    storage := [⟨[]⟩]
    onEvict := true }

/-- The system of `tinyCache` after `Set("a", 7, 5ns)` at clock reading 100, a
sweep tick at 200 that queues the expired entry, `Delete("a")` at 201 and
`Set("bb", 8, 5ns)` at 202: the queue of bound one is full and the entry of
"bb" expires at 207. -/
def jammedSystem : System :=
  (System.start tinyCache).run String.length
    [.set "a" (some 7) 5 100, .tick 200, .delete "a" 201, .set "bb" (some 8) 5 202]

/-- The system of `tinyCache` after `Set("a", 7, 5ns)` at clock reading 100, a
sweep tick at 200 that queues the expired entry, and `Set("a", 9, NoExpiration)`
at 201 that rewrites the slot. -/
def resurrectedSystem : System :=
  (System.start tinyCache).run String.length
    [.set "a" (some 7) 5 100, .tick 200, .set "a" (some 9) NoExpiration 201]

/-- The system of `smallCache` after `Set("a", 7, 5ns)` at clock reading 100
and `Set("bb", 8, NoExpiration)` at 101. -/
def pairSystem : System :=
  (System.start smallCache).run String.length
    [.set "a" (some 7) 5 100, .set "bb" (some 8) NoExpiration 101]

/-- A cache with capacity one and two shards, as `New 1 2 60 1 false` builds
it. -/
def twoShardCache : Cache :=
  { cacheSize := 1
    numBuckets := 2
    defaultExpiration := 60
    evictionCh := ⟨[], false, 1⟩
    size := 0
    closed := 0
    storage := [⟨[]⟩, ⟨[]⟩]
    onEvict := false }

/-- The system of `twoShardCache` after `Set("bb", 8, 5ns)` at clock reading
100, which lands in shard 0, a sweep tick of shard 0 at 200 that queues the
expired entry and fills the queue of bound one, and a sweep tick of shard 1 at
201: the worker is back at shard 0. -/
def stalledSystem : System :=
  (System.start twoShardCache).run String.length
    [.set "bb" (some 8) 5 100, .tick 200, .tick 201]

/-- The cache with the default capacity and the default number of shards, as
`New 0 (-3) 60 1 false` builds it. -/
def defaultCache : Cache :=
  { cacheSize := 1000000
    numBuckets := 100
    defaultExpiration := 60
    evictionCh := ⟨[], false, 1000000⟩
    size := 0
    closed := 0
    storage := List.replicate 100 ⟨[]⟩
    onEvict := false }

/-- A cache with capacity two, a single shard and an eviction handler, as
`New 2 1 60 1 true` builds it. -/
def handlerCache : Cache :=
  { cacheSize := 2
    numBuckets := 1
    defaultExpiration := 60
    evictionCh := ⟨[], false, 2⟩
    size := 0
    closed := 0
    storage := [⟨[]⟩]
    onEvict := true }

/-- The system of `handlerCache` after `Set("a", 7, 5ns)` at clock reading 100
and two sweep ticks, at 200 and at 201, with no drain in between: the expired
entry is queued twice. -/
def twiceQueuedSystem : System :=
  (System.start handlerCache).run String.length
    [.set "a" (some 7) 5 100, .tick 200, .tick 201]

/-- The system of `tinyCache` after `Set("a", 7, 5ns)` at clock reading 100
and a sweep tick at 200 that queues the expired entry: the queue of bound one
is full and the entry is still stored. -/
def queuedSystem : System :=
  (System.start tinyCache).run String.length [.set "a" (some 7) 5 100, .tick 200]

/-- The key made of `i` letters. -/
def fillKey (i : Nat) : String := String.mk (List.replicate i 'a')

/-- The insertions `Set(fillKey i, nil, NoExpiration)` for `i < n`, in order. -/
def fillOps (n : Nat) : List Insertion :=
  (List.range n).map (fun i => ⟨false, fillKey i, none, NoExpiration, 0⟩)

/-- A cache with capacity `2^31` and a single shard, as
`New 2147483648 1 60 1 false` builds it. -/
def wideCache : Cache :=
  { cacheSize := 2147483648
    numBuckets := 1
    defaultExpiration := 60
    evictionCh := ⟨[], false, 2147483648⟩
    size := 0
    closed := 0
    storage := [⟨[]⟩]
    onEvict := false }

/-! ## Lemmas on maps -/

theorem mapLookup_mapInsert_self (m : List (Nat × storedValue)) (h : Nat) (v : storedValue) :
    mapLookup (mapInsert m h v) h = some v := by
  induction m with
  | nil => simp [mapInsert, mapLookup]
  | cons p m ih =>
    obtain ⟨h', v'⟩ := p
    by_cases e : h' = h
    · simp [mapInsert, mapLookup, e]
    · simp [mapInsert, mapLookup, e, ih]

theorem mapLookup_mapInsert_ne (m : List (Nat × storedValue)) (h k : Nat) (v : storedValue)
    (hk : k ≠ h) : mapLookup (mapInsert m h v) k = mapLookup m k := by
  induction m with
  | nil => simp [mapInsert, mapLookup, Ne.symm hk]
  | cons p m ih =>
    obtain ⟨h', v'⟩ := p
    by_cases e : h' = h
    · subst e
      simp [mapInsert, mapLookup, Ne.symm hk]
    · by_cases e' : h' = k
      · subst e'
        simp [mapInsert, mapLookup, e]
      · simp [mapInsert, mapLookup, e, e', ih]

theorem mapLookup_mapDelete_self (m : List (Nat × storedValue)) (h : Nat) :
    mapLookup (mapDelete m h) h = none := by
  induction m with
  | nil => simp [mapDelete, mapLookup]
  | cons p m ih =>
    obtain ⟨h', v'⟩ := p
    by_cases e : h' = h
    · simp [mapDelete, e, ih]
    · simp [mapDelete, mapLookup, e, ih]

theorem mapLookup_mapDelete_ne (m : List (Nat × storedValue)) (h k : Nat) (hk : k ≠ h) :
    mapLookup (mapDelete m h) k = mapLookup m k := by
  induction m with
  | nil => simp [mapDelete, mapLookup]
  | cons p m ih =>
    obtain ⟨h', v'⟩ := p
    by_cases e : h' = h
    · subst e
      simp [mapDelete, mapLookup, Ne.symm hk, ih]
    · by_cases e' : h' = k
      · subst e'
        simp [mapDelete, mapLookup, e]
      · simp [mapDelete, mapLookup, e, e', ih]

theorem mapDelete_of_lookup_none (m : List (Nat × storedValue)) (h : Nat)
    (hm : mapLookup m h = none) : mapDelete m h = m := by
  induction m with
  | nil => simp [mapDelete]
  | cons p m ih =>
    obtain ⟨h', v'⟩ := p
    by_cases e : h' = h
    · simp [mapLookup, e] at hm
    · simp [mapLookup, e] at hm
      simp [mapDelete, e, ih hm]

/-! ## Lemmas on the shard array -/

theorem toUint64_of_WF {c : Cache} (hc : c.WF) : toUint64 c.numBuckets = c.numBuckets.toNat := by
  obtain ⟨h0, h1, _⟩ := hc
  unfold toUint64
  rw [Int.emod_eq_of_lt (le_of_lt h0) (by omega)]

theorem idx_lt_of_WF {c : Cache} (hc : c.WF) (h : Nat) :
    h % toUint64 c.numBuckets < c.storage.length := by
  rw [toUint64_of_WF hc, hc.2.2]
  apply Nat.mod_lt
  have := hc.1
  omega

theorem getD_set (l : List Bucket) (i j : Nat) (a d : Bucket) (h : i < l.length) :
    (l.set i a).getD j d = if i = j then a else l.getD j d := by
  simp only [List.getD_eq_getElem?_getD, List.getElem?_set]
  split_ifs <;> simp_all

theorem store_numBuckets (c : Cache) (i h : Nat) (v : storedValue) :
    (c.store i h v).numBuckets = c.numBuckets := rfl

theorem remove_numBuckets (c : Cache) (i h : Nat) :
    (c.remove i h).numBuckets = c.numBuckets := rfl

theorem store_WF {c : Cache} (hc : c.WF) (i h : Nat) (v : storedValue) : (c.store i h v).WF := by
  obtain ⟨h0, h1, h2⟩ := hc
  exact ⟨h0, h1, by simp [Cache.store, h2]⟩

theorem remove_WF {c : Cache} (hc : c.WF) (i h : Nat) : (c.remove i h).WF := by
  obtain ⟨h0, h1, h2⟩ := hc
  exact ⟨h0, h1, by simp [Cache.remove, h2]⟩

theorem incSize_WF {c : Cache} (hc : c.WF) : c.incSize.WF := hc

theorem decSize_WF {c : Cache} (hc : c.WF) : c.decSize.WF := hc

/-- Writing the slot of `h` makes `h` found and changes no other fingerprint. -/
theorem find_store {c : Cache} (hc : c.WF) (h k : Nat) (v : storedValue) :
    (c.store (h % toUint64 c.numBuckets) h v).find k = if k = h then some v else c.find k := by
  have hi := idx_lt_of_WF hc h
  unfold Cache.find
  rw [store_numBuckets]
  simp only [Cache.store, Cache.bucket]
  rw [getD_set _ _ _ _ _ hi]
  by_cases e : k = h
  · subst e
    simp [mapLookup_mapInsert_self]
  · by_cases e' : h % toUint64 c.numBuckets = k % toUint64 c.numBuckets
    · simp only [e', if_true, e, if_false]
      rw [mapLookup_mapInsert_ne _ _ _ _ e]
    · simp [e, e']

/-- Deleting the slot of `h` makes `h` absent and changes no other fingerprint. -/
theorem find_remove {c : Cache} (hc : c.WF) (h k : Nat) :
    (c.remove (h % toUint64 c.numBuckets) h).find k = if k = h then none else c.find k := by
  have hi := idx_lt_of_WF hc h
  unfold Cache.find
  rw [remove_numBuckets]
  simp only [Cache.remove, Cache.bucket]
  rw [getD_set _ _ _ _ _ hi]
  by_cases e : k = h
  · subst e
    simp [mapLookup_mapDelete_self]
  · by_cases e' : h % toUint64 c.numBuckets = k % toUint64 c.numBuckets
    · simp only [e', if_true, e, if_false]
      rw [mapLookup_mapDelete_ne _ _ _ e]
    · simp [e, e']

theorem find_incSize (c : Cache) (k : Nat) : c.incSize.find k = c.find k := rfl

theorem find_decSize (c : Cache) (k : Nat) : c.decSize.find k = c.find k := rfl

/-! ## The operations in terms of `find` -/

theorem isExpired_eq_false_iff (item : storedValue) (now : Int) :
    item.isExpired now = false ↔ item.expiration ≤ 0 ∨ now ≤ item.expiration := by
  unfold storedValue.isExpired
  simp only [Bool.and_eq_false_iff, decide_eq_false_iff_not, not_lt, gt_iff_lt]

theorem isExpired_eq_true_iff (item : storedValue) (now : Int) :
    item.isExpired now = true ↔ 0 < item.expiration ∧ item.expiration < now := by
  unfold storedValue.isExpired
  simp only [Bool.and_eq_true, decide_eq_true_eq, gt_iff_lt]

theorem Set_eq (Hash64 : String → Nat) (c : Cache) (key : String) (value : Option Session)
    (d now : Int) :
    c.Set Hash64 key value d now =
      if c.isClosed then (c, none, some .CloseError)
      else
        match c.find (fingerprint Hash64 key) with
        | some item =>
          (c.store (fingerprint Hash64 key % toUint64 c.numBuckets) (fingerprint Hash64 key)
              ⟨value, c.getExpiration d now⟩,
            if !item.isExpired now then item.object else none, none)
        | none =>
          if c.cacheSize = c.size then (c, none, some .MaxSizeExceed)
          else
            (c.incSize.store (fingerprint Hash64 key % toUint64 c.numBuckets)
              (fingerprint Hash64 key) ⟨value, c.getExpiration d now⟩, none, none) := rfl

theorem Add_eq (Hash64 : String → Nat) (c : Cache) (key : String) (value : Option Session)
    (d now : Int) :
    c.Add Hash64 key value d now =
      if c.isClosed then (c, some .CloseError)
      else if c.cacheSize = c.size then (c, some .MaxSizeExceed)
      else
        match c.find (fingerprint Hash64 key) with
        | some item =>
          if !item.isExpired now then
            (c, some (.errorsNew ("item '" ++ key ++ "' already exists")))
          else
            (c.incSize.store (fingerprint Hash64 key % toUint64 c.numBuckets)
              (fingerprint Hash64 key) ⟨value, c.getExpiration d now⟩, none)
        | none =>
          (c.incSize.store (fingerprint Hash64 key % toUint64 c.numBuckets)
            (fingerprint Hash64 key) ⟨value, c.getExpiration d now⟩, none) := rfl

theorem Replace_eq (Hash64 : String → Nat) (c : Cache) (key : String) (value : Option Session)
    (d now : Int) :
    c.Replace Hash64 key value d now =
      if c.isClosed then (c, none, some .CloseError)
      else
        match c.find (fingerprint Hash64 key) with
        | some item =>
          if item.isExpired now then
            (c, none, some (.errorsNew ("item '" ++ key ++ "' doesn't exist")))
          else
            (c.store (fingerprint Hash64 key % toUint64 c.numBuckets) (fingerprint Hash64 key)
              ⟨value, c.getExpiration d now⟩, item.object, none)
        | none => (c, none, some (.errorsNew ("item '" ++ key ++ "' doesn't exist"))) := rfl

theorem Get_eq (Hash64 : String → Nat) (c : Cache) (key : String) (now : Int) :
    c.Get Hash64 key now =
      if c.isClosed then (c, none, some .CloseError)
      else
        match c.find (fingerprint Hash64 key) with
        | some item =>
          if item.isExpired now then (c, none, some .NotFoundError) else (c, item.object, none)
        | none => (c, none, some .NotFoundError) := rfl

theorem Delete_eq (Hash64 : String → Nat) (c : Cache) (key : String) (now : Int) :
    c.Delete Hash64 key now =
      if c.isClosed then (c, some .CloseError)
      else
        match c.find (fingerprint Hash64 key) with
        | none => (c, some .NotFoundError)
        | some item =>
          (c.decSize.remove (fingerprint Hash64 key % toUint64 c.numBuckets)
              (fingerprint Hash64 key),
            if item.isExpired now then some .NotFoundError else none) := rfl

/-- A `Get` that finds an entry that has not expired returns its value and
leaves the cache as it was. -/
theorem Get_of_find {Hash64 : String → Nat} {c : Cache} {key : String} {now : Int}
    {item : storedValue} (ho : c.isClosed = false)
    (hf : c.find (fingerprint Hash64 key) = some item)
    (he : item.expiration ≤ 0 ∨ now ≤ item.expiration) :
    c.Get Hash64 key now = (c, item.object, none) := by
  rw [Get_eq, ho, hf]
  simp [(isExpired_eq_false_iff item now).2 he]

theorem Get_of_find_expired {Hash64 : String → Nat} {c : Cache} {key : String} {now : Int}
    {item : storedValue} (ho : c.isClosed = false)
    (hf : c.find (fingerprint Hash64 key) = some item)
    (he : 0 < item.expiration ∧ item.expiration < now) :
    c.Get Hash64 key now = (c, none, some .NotFoundError) := by
  rw [Get_eq, ho, hf]
  simp [(isExpired_eq_true_iff item now).2 he]

theorem Get_of_find_none {Hash64 : String → Nat} {c : Cache} {key : String} {now : Int}
    (ho : c.isClosed = false) (hf : c.find (fingerprint Hash64 key) = none) :
    c.Get Hash64 key now = (c, none, some .NotFoundError) := by
  rw [Get_eq, ho, hf]
  simp

/-- A `Set` that returns no error ran on an open cache and leaves an open,
well-formed cache whose slot for the key holds the new value with the resolved
expiration. -/
theorem Set_ok {Hash64 : String → Nat} {c : Cache} (hc : c.WF) {key : String}
    {value : Option Session} {d now : Int}
    (h : (c.Set Hash64 key value d now).2.2 = none) :
    c.isClosed = false ∧ (c.Set Hash64 key value d now).1.isClosed = false ∧
      (c.Set Hash64 key value d now).1.WF ∧
      (c.Set Hash64 key value d now).1.find (fingerprint Hash64 key) =
        some ⟨value, c.getExpiration d now⟩ := by
  rw [Set_eq] at h ⊢
  cases ho : c.isClosed with
  | true => simp [ho] at h
  | false =>
    simp only [ho, Bool.false_eq_true, if_false] at h ⊢
    cases hf : c.find (fingerprint Hash64 key) with
    | some item =>
      simp only [hf]
      refine ⟨trivial, ho, store_WF hc _ _ _, ?_⟩
      rw [find_store hc]
      simp
    | none =>
      simp only [hf] at h ⊢
      by_cases hs : c.cacheSize = c.size
      · simp [hs] at h
      · simp only [hs, if_false]
        refine ⟨trivial, ho, store_WF (incSize_WF hc) _ _ _, ?_⟩
        have := find_store (incSize_WF hc) (fingerprint Hash64 key) (fingerprint Hash64 key)
          ⟨value, c.getExpiration d now⟩
        simpa using this

/-- The counterpart of `Set_ok` for `Add`. -/
theorem Add_ok {Hash64 : String → Nat} {c : Cache} (hc : c.WF) {key : String}
    {value : Option Session} {d now : Int}
    (h : (c.Add Hash64 key value d now).2 = none) :
    c.isClosed = false ∧ c.cacheSize ≠ c.size ∧ (c.Add Hash64 key value d now).1.isClosed = false ∧
      (c.Add Hash64 key value d now).1.WF ∧
      (c.Add Hash64 key value d now).1.find (fingerprint Hash64 key) =
        some ⟨value, c.getExpiration d now⟩ := by
  have key_fact := find_store (incSize_WF hc) (fingerprint Hash64 key) (fingerprint Hash64 key)
    ⟨value, c.getExpiration d now⟩
  simp only [if_true] at key_fact
  rw [Add_eq] at h ⊢
  cases ho : c.isClosed with
  | true => simp [ho] at h
  | false =>
    simp only [ho, Bool.false_eq_true, if_false] at h ⊢
    by_cases hs : c.cacheSize = c.size
    · simp [hs] at h
    · simp only [hs, if_false] at h ⊢
      cases hf : c.find (fingerprint Hash64 key) with
      | some item =>
        simp only [hf] at h ⊢
        cases hx : item.isExpired now with
        | false => simp [hx] at h
        | true =>
          simp only [hx, Bool.not_true, Bool.false_eq_true, if_false]
          exact ⟨trivial, hs, ho, store_WF (incSize_WF hc) _ _ _, key_fact⟩
      | none =>
        simp only [hf]
        exact ⟨trivial, hs, ho, store_WF (incSize_WF hc) _ _ _, key_fact⟩

/-! ## Clock arithmetic -/

theorem wrapInt64_of_isInt64 {x : Int} (hx : isInt64 x) : wrapInt64 x = x := by
  obtain ⟨h1, h2⟩ := hx
  unfold wrapInt64
  rw [Int.emod_eq_of_lt (by omega) (by omega)]
  omega

theorem wrapInt32_of_range {x : Int} (h1 : -2 ^ 31 ≤ x) (h2 : x < 2 ^ 31) : wrapInt32 x = x := by
  unfold wrapInt32
  rw [Int.emod_eq_of_lt (by omega) (by omega)]
  omega

/-- A sum of a clock reading and a positive duration that leaves the range of
`int64` wraps to a negative number. -/
theorem wrapInt64_add_neg {a b : Int} (ha : isInt64 a) (hb : isInt64 b) (h : 2 ^ 63 ≤ a + b) :
    wrapInt64 (a + b) = a + b - 2 ^ 64 := by
  obtain ⟨a1, a2⟩ := ha
  obtain ⟨b1, b2⟩ := hb
  unfold wrapInt64
  have : (a + b + 2 ^ 63) % 2 ^ 64 = a + b + 2 ^ 63 - 2 ^ 64 := by
    rw [Int.emod_eq_sub_self_emod, Int.emod_eq_of_lt (by omega) (by omega)]
  omega

theorem getExpiration_of_pos {c : Cache} {d now : Int} (hd : 0 < d) :
    c.getExpiration d now = wrapInt64 (now + d) := by
  unfold Cache.getExpiration DefaultExpiration
  have : d ≠ 0 := ne_of_gt hd
  simp [this, hd]

theorem getExpiration_NoExpiration (c : Cache) (now : Int) :
    c.getExpiration NoExpiration now = 0 := by
  simp [Cache.getExpiration, NoExpiration, DefaultExpiration]

/-! ## Facts on the example data -/

theorem New_smallCache : New 2 1 60 1 false = some smallCache := by decide

/-! ## Lemmas on the capacity scenario -/

theorem Size_of_open {c : Cache} (ho : c.isClosed = false) : c.Size = c.size := by
  simp [Cache.Size, Cache.getSize, ho]

/-- An insertion of an absent fingerprint below capacity succeeds: it counts the
entry and writes the slot. -/
theorem insert_of_absent {Hash64 : String → Nat} {c : Cache} (op : Insertion)
    (ho : c.isClosed = false) (hf : c.find (fingerprint Hash64 op.key) = none)
    (hs : c.cacheSize ≠ c.size) :
    c.insert Hash64 op =
      (c.incSize.store (fingerprint Hash64 op.key % toUint64 c.numBuckets)
        (fingerprint Hash64 op.key) ⟨op.value, c.getExpiration op.d op.now⟩, none) := by
  unfold Cache.insert
  cases op.useAdd with
  | true => simp [Add_eq, ho, hf, hs]
  | false => simp [Set_eq, ho, hf, hs]

/-- An insertion of an absent fingerprint at capacity fails and changes
nothing. -/
theorem insert_of_full {Hash64 : String → Nat} {c : Cache} (op : Insertion)
    (ho : c.isClosed = false) (hf : c.find (fingerprint Hash64 op.key) = none)
    (hs : c.cacheSize = c.size) :
    c.insert Hash64 op = (c, some .MaxSizeExceed) := by
  unfold Cache.insert
  cases op.useAdd with
  | true => simp [Add_eq, ho, hs]
  | false => simp [Set_eq, ho, hf, hs]

theorem insertAll_append (Hash64 : String → Nat) (c : Cache) (xs ys : List Insertion) :
    (c.insertAll Hash64 (xs ++ ys)).1 = ((c.insertAll Hash64 xs).1.insertAll Hash64 ys).1 := by
  induction xs generalizing c with
  | nil => rfl
  | cons x xs ih =>
    rw [List.cons_append]
    simp only [Cache.insertAll]
    exact ih _

theorem Size_store_incSize (c : Cache) (i h : Nat) (v : storedValue) :
    (c.incSize.store i h v, (none : Option Error)).1.Size =
      if c.isClosed then 0 else wrapInt32 (c.size + 1) := rfl

theorem insertAll_singleton (Hash64 : String → Nat) (c : Cache) (op : Insertion) :
    (c.insertAll Hash64 [op]).1 = (c.insert Hash64 op).1 := rfl

/-- Filling: from an open cache whose counter is `n`, inserting keys with
pairwise distinct absent fingerprints while the counter stays within the
capacity and within `int32` succeeds every time, and the counter grows by one
per insertion. -/
theorem insertAll_fill (Hash64 : String → Nat) (ops : List Insertion) :
    ∀ (c : Cache) (n : Nat), c.WF → c.isClosed = false → c.size = n →
      (n : Int) + ops.length ≤ c.cacheSize → (n : Int) + ops.length ≤ 2 ^ 31 - 1 →
      (ops.map (fun op => fingerprint Hash64 op.key)).Nodup →
      (∀ op ∈ ops, c.find (fingerprint Hash64 op.key) = none) →
      (c.insertAll Hash64 ops).2 =
          (List.range ops.length).map (fun i : Nat => (none, (n : Int) + (i : Int) + 1)) ∧
        (c.insertAll Hash64 ops).1.WF ∧ (c.insertAll Hash64 ops).1.isClosed = false ∧
        (c.insertAll Hash64 ops).1.size = (n : Int) + ops.length ∧
        (c.insertAll Hash64 ops).1.cacheSize = c.cacheSize ∧
        ∀ h : Nat, h ∉ ops.map (fun op => fingerprint Hash64 op.key) →
          (c.insertAll Hash64 ops).1.find h = c.find h := by
  induction ops with
  | nil =>
    intro c n hc ho hn _ _ _ _
    simp [Cache.insertAll, hc, ho, hn]
  | cons op ops ih =>
    intro c n hc ho hn hroom h32 hnd habs
    simp only [List.length_cons, Nat.cast_add, Nat.cast_one] at hroom h32
    simp only [List.map_cons, List.nodup_cons] at hnd
    have hf : c.find (fingerprint Hash64 op.key) = none := habs op (List.mem_cons_self _ _)
    have hs : c.cacheSize ≠ c.size := by
      rw [hn]
      omega
    have hins := insert_of_absent op ho hf hs
    have hWF1 : (c.insert Hash64 op).1.WF := by
      rw [hins]
      exact store_WF (incSize_WF hc) _ _ _
    have ho1 : (c.insert Hash64 op).1.isClosed = false := by
      rw [hins]
      exact ho
    have hsz1 : (c.insert Hash64 op).1.size = ((n + 1 : Nat) : Int) := by
      rw [hins]
      show wrapInt32 (c.size + 1) = _
      rw [hn, wrapInt32_of_range (by omega) (by omega)]
      push_cast
      rfl
    have hcs1 : (c.insert Hash64 op).1.cacheSize = c.cacheSize := by
      rw [hins]
      rfl
    have hfind1 : ∀ k : Nat, (c.insert Hash64 op).1.find k =
        if k = fingerprint Hash64 op.key then some ⟨op.value, c.getExpiration op.d op.now⟩
        else c.find k := by
      intro k
      rw [hins]
      exact find_store (incSize_WF hc) _ _ _
    have habs1 : ∀ op' ∈ ops, (c.insert Hash64 op).1.find (fingerprint Hash64 op'.key) = none := by
      intro op' hmem
      rw [hfind1]
      have hne : fingerprint Hash64 op'.key ≠ fingerprint Hash64 op.key := by
        intro e
        apply hnd.1
        rw [← e]
        exact List.mem_map.2 ⟨op', hmem, rfl⟩
      simp only [hne, if_false]
      exact habs op' (List.mem_cons_of_mem _ hmem)
    obtain ⟨r1, r2, r3, r4, r5, r6⟩ := ih (c.insert Hash64 op).1 (n + 1) hWF1 ho1 hsz1
      (by rw [hcs1]; push_cast; omega) (by push_cast; omega) hnd.2 habs1
    refine ⟨?_, r2, r3, ?_, ?_, ?_⟩
    · simp only [Cache.insertAll, List.length_cons, List.range_succ_eq_map, List.map_cons,
        List.map_map, r1]
      refine congrArg₂ _ ?_ ?_
      · rw [Size_of_open ho1, hsz1, hins]
        simp
      · apply List.map_congr_left
        intro i _
        simp only [Function.comp, Nat.succ_eq_add_one]
        push_cast
        congr 1
        omega
    · simp only [Cache.insertAll, List.length_cons, r4]
      push_cast
      omega
    · simp only [Cache.insertAll, r5, hcs1]
    · intro h hmem
      simp only [List.map_cons, List.mem_cons, not_or] at hmem
      simp only [Cache.insertAll]
      rw [r6 h hmem.2, hfind1]
      simp [hmem.1]

theorem fillKey_fingerprint (i : Nat) (hi : i < 2 ^ 64) :
    fingerprint String.length (fillKey i) = i := by
  unfold fingerprint fillKey
  simp only [String.length, List.length_replicate]
  exact Nat.mod_eq_of_lt hi

theorem fillOps_length (n : Nat) : (fillOps n).length = n := by
  simp [fillOps]

theorem fillOps_succ (n : Nat) :
    fillOps (n + 1) = fillOps n ++ [⟨false, fillKey n, none, NoExpiration, 0⟩] := by
  simp [fillOps, List.range_succ]

theorem fillOps_fingerprints (n : Nat) (hn : n ≤ 2 ^ 64) :
    (fillOps n).map (fun op => fingerprint String.length op.key) = List.range n := by
  unfold fillOps
  rw [List.map_map]
  conv_rhs => rw [← List.map_id (List.range n)]
  apply List.map_congr_left
  intro i hi
  have := List.mem_range.1 hi
  simp only [Function.comp, id]
  exact fillKey_fingerprint i (by omega)

theorem wideCache_find (h : Nat) : wideCache.find h = none := by
  unfold Cache.find Cache.bucket
  have : toUint64 wideCache.numBuckets = 1 := by decide
  rw [this, Nat.mod_one]
  rfl

/-- What `New` builds: a well-formed, open, empty cache with counter 0 and the
normalised capacity and shard count. -/
theorem New_spec {C nb D iv : Int} {oe : Bool} {c0 : Cache} (hnb : nb < 2 ^ 63)
    (hnew : New C nb D iv oe = some c0) :
    c0.WF ∧ c0.isClosed = false ∧ c0.size = 0 ∧
      c0.cacheSize = (if C ≤ 0 then DefaultCacheSize else C) ∧
      c0.numBuckets = (if nb ≤ 0 then DefaultNumBuckets else nb) ∧
      ∀ h : Nat, c0.find h = none := by
  unfold New at hnew
  by_cases hiv : iv ≤ 0
  · simp [hiv] at hnew
  · simp only [hiv, if_false, Option.some.injEq] at hnew
    subst hnew
    refine ⟨⟨?_, ?_, ?_⟩, rfl, rfl, rfl, rfl, ?_⟩
    · show 0 < (if nb ≤ 0 then DefaultNumBuckets else nb)
      unfold DefaultNumBuckets
      split_ifs <;> omega
    · show (if nb ≤ 0 then DefaultNumBuckets else nb) < 2 ^ 63
      unfold DefaultNumBuckets
      split_ifs <;> omega
    · simp
    · intro h
      unfold Cache.find Cache.bucket
      simp only [List.getD_eq_getElem?_getD, List.getElem?_replicate]
      split_ifs <;> rfl

/-! ## Case lemmas for the write operations -/

/-- The resolved expiration has not passed at the clock reading that resolved
it: it is either later, or not positive. -/
theorem getExpiration_live (c : Cache) (d now : Int) (hnow : isInt64 now) (hd : isInt64 d)
    (hD : isInt64 c.defaultExpiration) :
    c.getExpiration d now ≤ 0 ∨ now ≤ c.getExpiration d now := by
  unfold Cache.getExpiration
  simp only
  have hd' : isInt64 (if d = DefaultExpiration then c.defaultExpiration else d) := by
    split_ifs
    · exact hD
    · exact hd
  generalize (if d = DefaultExpiration then c.defaultExpiration else d) = d' at hd'
  by_cases hpos : d' > 0
  · simp only [hpos, if_true]
    by_cases hov : now + d' < 2 ^ 63
    · rw [wrapInt64_of_isInt64 ⟨by have := hnow.1; omega, hov⟩]
      exact Or.inr (by omega)
    · rw [wrapInt64_add_neg hnow hd' (by omega)]
      have := hnow.2
      have := hd'.2
      exact Or.inl (by omega)
  · simp [hpos]

theorem Set_of_find {Hash64 : String → Nat} {c : Cache} {key : String} {item : storedValue}
    (value : Option Session) (d now : Int) (ho : c.isClosed = false)
    (hf : c.find (fingerprint Hash64 key) = some item) :
    c.Set Hash64 key value d now =
      (c.store (fingerprint Hash64 key % toUint64 c.numBuckets) (fingerprint Hash64 key)
          ⟨value, c.getExpiration d now⟩,
        if !item.isExpired now then item.object else none, none) := by
  rw [Set_eq, ho, hf]
  simp

theorem Add_of_full {Hash64 : String → Nat} {c : Cache} (key : String)
    (value : Option Session) (d now : Int) (ho : c.isClosed = false)
    (hs : c.cacheSize = c.size) :
    c.Add Hash64 key value d now = (c, some .MaxSizeExceed) := by
  rw [Add_eq, ho]
  simp [hs]

theorem Add_of_find_live {Hash64 : String → Nat} {c : Cache} {key : String} {item : storedValue}
    (value : Option Session) (d : Int) {now : Int} (ho : c.isClosed = false)
    (hs : c.cacheSize ≠ c.size) (hf : c.find (fingerprint Hash64 key) = some item)
    (hx : item.isExpired now = false) :
    c.Add Hash64 key value d now =
      (c, some (.errorsNew ("item '" ++ key ++ "' already exists"))) := by
  rw [Add_eq, ho, hf]
  simp [hs, hx]

theorem Add_of_find_expired {Hash64 : String → Nat} {c : Cache} {key : String}
    {item : storedValue} (value : Option Session) (d : Int) {now : Int}
    (ho : c.isClosed = false) (hs : c.cacheSize ≠ c.size)
    (hf : c.find (fingerprint Hash64 key) = some item) (hx : item.isExpired now = true) :
    c.Add Hash64 key value d now =
      (c.incSize.store (fingerprint Hash64 key % toUint64 c.numBuckets)
        (fingerprint Hash64 key) ⟨value, c.getExpiration d now⟩, none) := by
  rw [Add_eq, ho, hf]
  simp [hs, hx]

theorem Replace_of_find_live {Hash64 : String → Nat} {c : Cache} {key : String}
    {item : storedValue} (value : Option Session) (d : Int) {now : Int}
    (ho : c.isClosed = false) (hf : c.find (fingerprint Hash64 key) = some item)
    (hx : item.isExpired now = false) :
    c.Replace Hash64 key value d now =
      (c.store (fingerprint Hash64 key % toUint64 c.numBuckets) (fingerprint Hash64 key)
        ⟨value, c.getExpiration d now⟩, item.object, none) := by
  rw [Replace_eq, ho, hf]
  simp [hx]

theorem Replace_of_find_expired {Hash64 : String → Nat} {c : Cache} {key : String}
    {item : storedValue} (value : Option Session) (d : Int) {now : Int}
    (ho : c.isClosed = false) (hf : c.find (fingerprint Hash64 key) = some item)
    (hx : item.isExpired now = true) :
    c.Replace Hash64 key value d now =
      (c, none, some (.errorsNew ("item '" ++ key ++ "' doesn't exist"))) := by
  rw [Replace_eq, ho, hf]
  simp [hx]

theorem Replace_of_find_none {Hash64 : String → Nat} {c : Cache} {key : String}
    (value : Option Session) (d now : Int) (ho : c.isClosed = false)
    (hf : c.find (fingerprint Hash64 key) = none) :
    c.Replace Hash64 key value d now =
      (c, none, some (.errorsNew ("item '" ++ key ++ "' doesn't exist"))) := by
  rw [Replace_eq, ho, hf]
  simp

theorem Delete_of_find {Hash64 : String → Nat} {c : Cache} {key : String} {item : storedValue}
    (now : Int) (ho : c.isClosed = false) (hf : c.find (fingerprint Hash64 key) = some item) :
    c.Delete Hash64 key now =
      (c.decSize.remove (fingerprint Hash64 key % toUint64 c.numBuckets)
          (fingerprint Hash64 key),
        if item.isExpired now then some .NotFoundError else none) := by
  rw [Delete_eq, ho, hf]
  simp

theorem Delete_of_find_none {Hash64 : String → Nat} {c : Cache} {key : String}
    (now : Int) (ho : c.isClosed = false) (hf : c.find (fingerprint Hash64 key) = none) :
    c.Delete Hash64 key now = (c, some .NotFoundError) := by
  rw [Delete_eq, ho, hf]
  simp

/-- After a write of the slot of `key`, `Get` returns the written value at
every clock reading at which the written expiration has not passed. -/
theorem Get_store {Hash64 : String → Nat} {c : Cache} (hc : c.WF) (ho : c.isClosed = false)
    (key : String) (value : Option Session) (e t : Int) (he : e ≤ 0 ∨ t ≤ e) :
    (c.store (fingerprint Hash64 key % toUint64 c.numBuckets) (fingerprint Hash64 key)
        ⟨value, e⟩).Get Hash64 key t =
      (c.store (fingerprint Hash64 key % toUint64 c.numBuckets) (fingerprint Hash64 key)
        ⟨value, e⟩, value, none) := by
  have hf : (c.store (fingerprint Hash64 key % toUint64 c.numBuckets) (fingerprint Hash64 key)
      ⟨value, e⟩).find (fingerprint Hash64 key) = some ⟨value, e⟩ := by
    rw [find_store hc]
    simp
  have ho' : (c.store (fingerprint Hash64 key % toUint64 c.numBuckets) (fingerprint Hash64 key)
      ⟨value, e⟩).isClosed = false := ho
  exact Get_of_find ho' hf he

/-! ## Lemmas on `KeepAlive` and on single slots -/

theorem KeepAlive_eq (Hash64 : String → Nat) (c : Cache) (key : String) (d now : Int) :
    c.KeepAlive Hash64 key d now =
      if c.isClosed then (c, none, some .CloseError)
      else
        match c.find (fingerprint Hash64 key) with
        | some item =>
          if item.isExpired now then (c, none, some .NotFoundError)
          else
            (c.store (fingerprint Hash64 key % toUint64 c.numBuckets) (fingerprint Hash64 key)
              ⟨item.object, c.getExpiration d now⟩, item.object, none)
        | none => (c, none, some .NotFoundError) := rfl

theorem KeepAlive_of_find_live {Hash64 : String → Nat} {c : Cache} {key : String}
    {item : storedValue} (d : Int) {now : Int} (ho : c.isClosed = false)
    (hf : c.find (fingerprint Hash64 key) = some item) (hx : item.isExpired now = false) :
    c.KeepAlive Hash64 key d now =
      (c.store (fingerprint Hash64 key % toUint64 c.numBuckets) (fingerprint Hash64 key)
        ⟨item.object, c.getExpiration d now⟩, item.object, none) := by
  rw [KeepAlive_eq, ho, hf]
  simp [hx]

theorem KeepAlive_of_find_expired {Hash64 : String → Nat} {c : Cache} {key : String}
    {item : storedValue} (d : Int) {now : Int} (ho : c.isClosed = false)
    (hf : c.find (fingerprint Hash64 key) = some item) (hx : item.isExpired now = true) :
    c.KeepAlive Hash64 key d now = (c, none, some .NotFoundError) := by
  rw [KeepAlive_eq, ho, hf]
  simp [hx]

theorem KeepAlive_of_find_none {Hash64 : String → Nat} {c : Cache} {key : String}
    (d now : Int) (ho : c.isClosed = false) (hf : c.find (fingerprint Hash64 key) = none) :
    c.KeepAlive Hash64 key d now = (c, none, some .NotFoundError) := by
  rw [KeepAlive_eq, ho, hf]
  simp

/-- Writing the slot `(i, h)` changes the lookup of that slot and of no other
slot of any shard. -/
theorem lookup_store (c : Cache) (i h : Nat) (v : storedValue) (hi : i < c.storage.length)
    (j k : Nat) :
    mapLookup ((c.store i h v).bucket j).values k =
      if j = i ∧ k = h then some v else mapLookup (c.bucket j).values k := by
  simp only [Cache.store, Cache.bucket]
  rw [getD_set _ _ _ _ _ hi]
  by_cases e : i = j
  · subst e
    by_cases e' : k = h
    · subst e'
      simp [mapLookup_mapInsert_self]
    · simp only [if_true, true_and, e', if_false]
      exact mapLookup_mapInsert_ne _ _ _ _ e'
  · have e2 : ¬ j = i := fun h' => e h'.symm
    simp [e, e2]

/-- Deleting the slot `(i, h)` empties that slot and changes no other slot of
any shard. -/
theorem lookup_remove (c : Cache) (i h : Nat) (hi : i < c.storage.length) (j k : Nat) :
    mapLookup ((c.remove i h).bucket j).values k =
      if j = i ∧ k = h then none else mapLookup (c.bucket j).values k := by
  simp only [Cache.remove, Cache.bucket]
  rw [getD_set _ _ _ _ _ hi]
  by_cases e : i = j
  · subst e
    by_cases e' : k = h
    · subst e'
      simp [mapLookup_mapDelete_self]
    · simp only [if_true, true_and, e', if_false]
      exact mapLookup_mapDelete_ne _ _ _ e'
  · have e2 : ¬ j = i := fun h' => e h'.symm
    simp [e, e2]

/-! ## Lemmas on `Close` -/

theorem clearLoop_length (l : List Nat) (st : List Bucket) :
    (l.foldl (fun st i => st.set i ⟨[]⟩) st).length = st.length := by
  induction l generalizing st with
  | nil => rfl
  | cons i l ih => simp [List.foldl_cons, ih]

theorem clearLoop_getElem? (st : List Bucket) (n i : Nat) :
    ((List.range n).foldl (fun st i => st.set i ⟨[]⟩) st)[i]? =
      if i < n ∧ i < st.length then some ⟨[]⟩ else st[i]? := by
  induction n with
  | zero => simp
  | succ n ih =>
    rw [List.range_succ, List.foldl_append]
    simp only [List.foldl_cons, List.foldl_nil, List.getElem?_set, clearLoop_length, ih]
    by_cases h1 : n = i
    · subst h1
      by_cases h2 : n < st.length
      · simp [h2]
      · simp [h2]
        omega
    · simp only [h1, if_false]
      by_cases h3 : i < n
      · have : i < n + 1 := by omega
        simp [h3, this]
      · have : ¬ i < n + 1 := by omega
        simp [h3, this]

/-- On a shard array with one shard per index the loop of `Close` leaves
nothing but empty maps. -/
theorem clearBuckets_eq (st : List Bucket) (nb : Int) (h : st.length = nb.toNat) :
    clearBuckets st nb = List.replicate st.length ⟨[]⟩ := by
  apply List.ext_getElem?
  intro i
  unfold clearBuckets
  rw [clearLoop_getElem?, List.getElem?_replicate, ← h]
  by_cases hi : i < st.length
  · simp [hi]
  · simp [hi]
    omega

theorem Close_of_closed {c : Cache} (h : c.isClosed = true) : c.Close = c := by
  simp [Cache.Close, h]

theorem Close_isClosed (c : Cache) : c.Close.isClosed = true := by
  unfold Cache.Close
  cases h : c.isClosed with
  | true => simpa using h
  | false => simp [Cache.isClosed]

theorem Close_Close (c : Cache) : c.Close.Close = c.Close :=
  Close_of_closed (Close_isClosed c)

/-- What `Close` leaves of an open well-formed cache. -/
theorem Close_of_open {c : Cache} (hc : c.WF) (ho : c.isClosed = false) :
    c.Close.storage = List.replicate c.storage.length ⟨[]⟩ ∧ c.Close.size = 0 ∧
      c.Close.closed = 1 ∧ c.Close.evictionCh.closed = true ∧
      c.Close.numBuckets = c.numBuckets ∧ c.Close.cacheSize = c.cacheSize := by
  have e : c.Close =
      { c with
        closed := 1
        evictionCh := { c.evictionCh with closed := true }
        storage := clearBuckets c.storage c.numBuckets
        size := 0 } := by
    simp [Cache.Close, ho]
  rw [e]
  exact ⟨clearBuckets_eq _ _ hc.2.2, rfl, rfl, rfl, rfl, rfl⟩

theorem Set_of_closed {c : Cache} (Hash64 : String → Nat) (key : String)
    (value : Option Session) (d now : Int) (h : c.isClosed = true) :
    c.Set Hash64 key value d now = (c, none, some .CloseError) := by
  simp [Cache.Set, h]

theorem Add_of_closed {c : Cache} (Hash64 : String → Nat) (key : String)
    (value : Option Session) (d now : Int) (h : c.isClosed = true) :
    c.Add Hash64 key value d now = (c, some .CloseError) := by
  simp [Cache.Add, h]

theorem Replace_of_closed {c : Cache} (Hash64 : String → Nat) (key : String)
    (value : Option Session) (d now : Int) (h : c.isClosed = true) :
    c.Replace Hash64 key value d now = (c, none, some .CloseError) := by
  simp [Cache.Replace, h]

theorem Get_of_closed {c : Cache} (Hash64 : String → Nat) (key : String) (now : Int)
    (h : c.isClosed = true) : c.Get Hash64 key now = (c, none, some .CloseError) := by
  simp [Cache.Get, h]

theorem Delete_of_closed {c : Cache} (Hash64 : String → Nat) (key : String) (now : Int)
    (h : c.isClosed = true) : c.Delete Hash64 key now = (c, some .CloseError) := by
  simp [Cache.Delete, h]

theorem KeepAlive_of_closed {c : Cache} (Hash64 : String → Nat) (key : String) (d now : Int)
    (h : c.isClosed = true) : c.KeepAlive Hash64 key d now = (c, none, some .CloseError) := by
  simp [Cache.KeepAlive, h]

theorem Size_of_closed {c : Cache} (h : c.isClosed = true) : c.Size = 0 := by
  simp [Cache.Size, h]

/-! ## The invariant of reachable states -/

theorem Inv_of_open {c : Cache} (hc : c.WF) (ho : c.isClosed = false) : c.Inv :=
  ⟨hc, fun h => by rw [ho] at h; cases h⟩

theorem Set_Inv (Hash64 : String → Nat) {c : Cache} (hi : c.Inv) (key : String)
    (value : Option Session) (d now : Int) : (c.Set Hash64 key value d now).1.Inv := by
  cases ho : c.isClosed with
  | true => rw [Set_of_closed Hash64 key value d now ho]; exact hi
  | false =>
    rw [Set_eq]
    simp only [ho, Bool.false_eq_true, if_false]
    cases c.find (fingerprint Hash64 key) with
    | some item => exact Inv_of_open (store_WF hi.1 _ _ _) ho
    | none =>
      simp only
      split_ifs
      · exact hi
      · exact Inv_of_open (store_WF (incSize_WF hi.1) _ _ _) ho

theorem Add_Inv (Hash64 : String → Nat) {c : Cache} (hi : c.Inv) (key : String)
    (value : Option Session) (d now : Int) : (c.Add Hash64 key value d now).1.Inv := by
  cases ho : c.isClosed with
  | true => rw [Add_of_closed Hash64 key value d now ho]; exact hi
  | false =>
    rw [Add_eq]
    simp only [ho, Bool.false_eq_true, if_false]
    split_ifs
    · exact hi
    · cases c.find (fingerprint Hash64 key) with
      | some item =>
        simp only
        split_ifs
        · exact hi
        · exact Inv_of_open (store_WF (incSize_WF hi.1) _ _ _) ho
      | none => exact Inv_of_open (store_WF (incSize_WF hi.1) _ _ _) ho

theorem Replace_Inv (Hash64 : String → Nat) {c : Cache} (hi : c.Inv) (key : String)
    (value : Option Session) (d now : Int) : (c.Replace Hash64 key value d now).1.Inv := by
  cases ho : c.isClosed with
  | true => rw [Replace_of_closed Hash64 key value d now ho]; exact hi
  | false =>
    rw [Replace_eq]
    simp only [ho, Bool.false_eq_true, if_false]
    cases c.find (fingerprint Hash64 key) with
    | some item =>
      simp only
      split_ifs
      · exact hi
      · exact Inv_of_open (store_WF hi.1 _ _ _) ho
    | none => exact hi

theorem Get_Inv (Hash64 : String → Nat) {c : Cache} (hi : c.Inv) (key : String) (now : Int) :
    (c.Get Hash64 key now).1.Inv := by
  rw [Get_eq]
  split_ifs
  · exact hi
  · cases c.find (fingerprint Hash64 key) with
    | some item =>
      simp only
      split_ifs <;> exact hi
    | none => exact hi

theorem Delete_Inv (Hash64 : String → Nat) {c : Cache} (hi : c.Inv) (key : String) (now : Int) :
    (c.Delete Hash64 key now).1.Inv := by
  cases ho : c.isClosed with
  | true => rw [Delete_of_closed Hash64 key now ho]; exact hi
  | false =>
    rw [Delete_eq]
    simp only [ho, Bool.false_eq_true, if_false]
    cases c.find (fingerprint Hash64 key) with
    | some item => exact Inv_of_open (remove_WF (decSize_WF hi.1) _ _) ho
    | none => exact hi

theorem KeepAlive_Inv (Hash64 : String → Nat) {c : Cache} (hi : c.Inv) (key : String)
    (d now : Int) : (c.KeepAlive Hash64 key d now).1.Inv := by
  cases ho : c.isClosed with
  | true => rw [KeepAlive_of_closed Hash64 key d now ho]; exact hi
  | false =>
    rw [KeepAlive_eq]
    simp only [ho, Bool.false_eq_true, if_false]
    cases c.find (fingerprint Hash64 key) with
    | some item =>
      simp only
      split_ifs
      · exact hi
      · exact Inv_of_open (store_WF hi.1 _ _ _) ho
    | none => exact hi

theorem Close_Inv {c : Cache} (hi : c.Inv) : c.Close.Inv := by
  cases ho : c.isClosed with
  | true => rw [Close_of_closed ho]; exact hi
  | false =>
    obtain ⟨h1, h2, _, _, h5, _⟩ := Close_of_open hi.1 ho
    refine ⟨⟨?_, ?_, ?_⟩, fun _ => ⟨?_, h2⟩⟩
    · rw [h5]; exact hi.1.1
    · rw [h5]; exact hi.1.2.1
    · rw [h1, h5, List.length_replicate]; exact hi.1.2.2
    · intro b hb
      rw [h1] at hb
      rw [List.eq_of_mem_replicate hb]

theorem setQueue_Inv {c : Cache} (hi : c.Inv) (ch : Chan) : (c.setQueue ch).Inv := hi

theorem setQueue_WF {c : Cache} (hc : c.WF) (ch : Chan) : (c.setQueue ch).WF := hc

theorem guard_of_open {s : System} (ho : s.cache.isClosed = false) (hb : s.blocked = false) :
    (s.cache.isClosed || s.blocked) = false := by
  rw [ho, hb]
  rfl

/-- A tick changes nothing of the cache but the eviction queue. -/
theorem tick_cache (s : System) (now : Int) :
    (s.tick now).cache = s.cache.setQueue (s.tick now).cache.evictionCh := by
  unfold System.tick
  split_ifs <;> rfl

theorem tick_Inv {s : System} (hi : s.cache.Inv) (now : Int) : (s.tick now).cache.Inv := by
  rw [tick_cache]
  exact setQueue_Inv hi _

theorem drain_of_guard {s : System} (hg : (s.cache.isClosed || s.blocked) = true) :
    s.drain = s := by
  simp only [System.drain, hg, if_true]

theorem drain_of_empty {s : System} (hq : s.cache.evictionCh.buf = []) : s.drain = s := by
  unfold System.drain
  rw [hq]
  split_ifs <;> rfl

/-- A drain whose event names an empty slot only takes the event from the
queue. -/
theorem drain_of_absent {s : System} (ho : s.cache.isClosed = false) (hb : s.blocked = false)
    {e : evictEvent} {rest : List evictEvent} (hq : s.cache.evictionCh.buf = e :: rest)
    (hf : mapLookup (s.cache.bucket e.bucketIdx).values e.hash = none) :
    s.drain = { s with cache := s.cache.setQueue ⟨rest, s.cache.evictionCh.closed, s.cache.evictionCh.bound⟩ } := by
  unfold System.drain
  rw [guard_of_open ho hb, hq]
  simp only [Bool.false_eq_true, if_false, hf]

/-- A drain whose event names a stored entry takes the event from the queue,
decrements the counter, deletes the entry and hands its value to `onEvict`
when a handler is configured. -/
theorem drain_of_present {s : System} (ho : s.cache.isClosed = false) (hb : s.blocked = false)
    {e : evictEvent} {rest : List evictEvent} {item : storedValue}
    (hq : s.cache.evictionCh.buf = e :: rest)
    (hf : mapLookup (s.cache.bucket e.bucketIdx).values e.hash = some item) :
    s.drain =
      { s with
        cache :=
          ((s.cache.setQueue ⟨rest, s.cache.evictionCh.closed, s.cache.evictionCh.bound⟩).decSize).remove
            e.bucketIdx e.hash
        evicted := if s.cache.onEvict then s.evicted ++ [item.object] else s.evicted } := by
  unfold System.drain
  rw [guard_of_open ho hb, hq]
  simp only [Bool.false_eq_true, if_false, hf]

/-- The outcomes of a drain: nothing happens, or the oldest event is taken and
names an empty slot, or it is taken and names a stored entry. -/
theorem drain_cases (s : System) :
    s.drain = s ∨
    (∃ (e : evictEvent) (rest : List evictEvent),
      s.cache.isClosed = false ∧ s.blocked = false ∧ s.cache.evictionCh.buf = e :: rest ∧
      mapLookup (s.cache.bucket e.bucketIdx).values e.hash = none ∧
      s.drain =
        { s with
          cache := s.cache.setQueue
            ⟨rest, s.cache.evictionCh.closed, s.cache.evictionCh.bound⟩ }) ∨
    (∃ (e : evictEvent) (rest : List evictEvent) (item : storedValue),
      s.cache.isClosed = false ∧ s.blocked = false ∧ s.cache.evictionCh.buf = e :: rest ∧
      mapLookup (s.cache.bucket e.bucketIdx).values e.hash = some item ∧
      s.drain =
        { s with
          cache :=
            ((s.cache.setQueue
              ⟨rest, s.cache.evictionCh.closed, s.cache.evictionCh.bound⟩).decSize).remove
              e.bucketIdx e.hash
          evicted := if s.cache.onEvict then s.evicted ++ [item.object] else s.evicted }) := by
  cases hg : (s.cache.isClosed || s.blocked) with
  | true => exact Or.inl (drain_of_guard hg)
  | false =>
    have ho : s.cache.isClosed = false := by
      cases h : s.cache.isClosed with
      | true => simp [h] at hg
      | false => rfl
    have hb : s.blocked = false := by
      cases h : s.blocked with
      | true => simp [h] at hg
      | false => rfl
    cases hq : s.cache.evictionCh.buf with
    | nil => exact Or.inl (drain_of_empty hq)
    | cons e rest =>
      cases hf : mapLookup (s.cache.bucket e.bucketIdx).values e.hash with
      | none => exact Or.inr (Or.inl ⟨e, rest, ho, hb, rfl, hf, drain_of_absent ho hb hq hf⟩)
      | some item =>
        exact Or.inr (Or.inr ⟨e, rest, item, ho, hb, rfl, hf, drain_of_present ho hb hq hf⟩)

theorem drain_Inv {s : System} (hi : s.cache.Inv) : s.drain.cache.Inv := by
  cases hg : (s.cache.isClosed || s.blocked) with
  | true => rw [drain_of_guard hg]; exact hi
  | false =>
    have ho : s.cache.isClosed = false := by
      cases h : s.cache.isClosed with
      | true => simp [h] at hg
      | false => rfl
    have hb : s.blocked = false := by
      cases h : s.blocked with
      | true => simp [h] at hg
      | false => rfl
    cases hq : s.cache.evictionCh.buf with
    | nil => rw [drain_of_empty hq]; exact hi
    | cons e rest =>
      cases hf : mapLookup (s.cache.bucket e.bucketIdx).values e.hash with
      | none =>
        rw [drain_of_absent ho hb hq hf]
        exact setQueue_Inv hi _
      | some item =>
        rw [drain_of_present ho hb hq hf]
        exact Inv_of_open (remove_WF (decSize_WF (setQueue_WF hi.1 _)) _ _) ho

theorem apply_Inv (Hash64 : String → Nat) {s : System} (hi : s.cache.Inv) (op : Op) :
    (s.apply Hash64 op).cache.Inv := by
  cases op with
  | set key value d now => exact Set_Inv Hash64 hi key value d now
  | add key value d now => exact Add_Inv Hash64 hi key value d now
  | replace key value d now => exact Replace_Inv Hash64 hi key value d now
  | get key now => exact Get_Inv Hash64 hi key now
  | delete key now => exact Delete_Inv Hash64 hi key now
  | keepAlive key d now => exact KeepAlive_Inv Hash64 hi key d now
  | close => exact Close_Inv hi
  | tick now => exact tick_Inv hi now
  | drain => exact drain_Inv hi

theorem run_Inv (Hash64 : String → Nat) (ops : List Op) :
    ∀ s : System, s.cache.Inv → (s.run Hash64 ops).cache.Inv := by
  induction ops with
  | nil => intro s hi; exact hi
  | cons op ops ih =>
    intro s hi
    exact ih _ (apply_Inv Hash64 hi op)

/-- Every reachable state satisfies the invariant. -/
theorem Reachable.Inv {Hash64 : String → Nat} {s : System} (hr : s.Reachable Hash64) :
    s.cache.Inv := by
  obtain ⟨C, nb, D, iv, oe, c0, ops, hnb, hnew, rfl⟩ := hr
  obtain ⟨hWF, ho, _⟩ := New_spec hnb hnew
  exact run_Inv Hash64 ops _ (Inv_of_open hWF ho)

/-! ## Lemmas on the sweep -/

theorem mapLookup_some_mem {m : List (Nat × storedValue)} {h : Nat} {v : storedValue}
    (hm : mapLookup m h = some v) : (h, v) ∈ m := by
  induction m with
  | nil => simp [mapLookup] at hm
  | cons p m ih =>
    obtain ⟨h', v'⟩ := p
    by_cases e : h' = h
    · subst e
      simp only [mapLookup, if_true, Option.some.injEq] at hm
      subst hm
      exact List.mem_cons_self _ _
    · simp only [mapLookup, e, if_false] at hm
      exact List.mem_cons_of_mem _ (ih hm)

/-- A slot that holds an entry lies in a shard of the array. -/
theorem idx_lt_of_lookup {c : Cache} {i h : Nat} {item : storedValue}
    (hf : mapLookup (c.bucket i).values h = some item) : i < c.storage.length := by
  by_contra hge
  have : c.bucket i = ⟨[]⟩ := by
    unfold Cache.bucket
    rw [List.getD_eq_getElem?_getD, List.getElem?_eq_none (by omega)]
    rfl
  rw [this] at hf
  simp [mapLookup] at hf

theorem mem_expiredEvents {i : Nat} {now : Int} {m : List (Nat × storedValue)} {h : Nat}
    {v : storedValue} (hm : (h, v) ∈ m) (hx : v.isExpired now = true) :
    (⟨i, h⟩ : evictEvent) ∈ expiredEvents i now m := by
  unfold expiredEvents
  rw [List.mem_map]
  exact ⟨(h, v), List.mem_filter.2 ⟨hm, hx⟩, rfl⟩

theorem expiredEvents_cons_expired (i : Nat) (now : Int) (h : Nat) (v : storedValue)
    (m : List (Nat × storedValue)) (hx : v.isExpired now = true) :
    expiredEvents i now ((h, v) :: m) = ⟨i, h⟩ :: expiredEvents i now m := by
  simp [expiredEvents, List.filter_cons, hx]

theorem expiredEvents_cons_live (i : Nat) (now : Int) (h : Nat) (v : storedValue)
    (m : List (Nat × storedValue)) (hx : v.isExpired now = false) :
    expiredEvents i now ((h, v) :: m) = expiredEvents i now m := by
  simp [expiredEvents, List.filter_cons, hx]

/-- A sweep that finds room in the queue for all its events sends them all, in
the order of the scan, and does not block. -/
theorem sweep_of_room (i : Nat) (now : Int) (m : List (Nat × storedValue)) :
    ∀ ch : Chan, (ch.buf.length : Int) + (expiredEvents i now m).length ≤ ch.bound →
      sweep i now m ch = (⟨ch.buf ++ expiredEvents i now m, ch.closed, ch.bound⟩, false) := by
  induction m with
  | nil =>
    intro ch _
    simp [sweep, expiredEvents]
  | cons p m ih =>
    obtain ⟨h, v⟩ := p
    intro ch hroom
    cases hx : v.isExpired now with
    | true =>
      rw [expiredEvents_cons_expired i now h v m hx] at hroom ⊢
      simp only [List.length_cons, Nat.cast_add, Nat.cast_one] at hroom
      have hlt : (ch.buf.length : Int) < ch.bound := by omega
      simp only [sweep, hx, if_true, Chan.send, hlt]
      rw [ih _ (by simp only [List.length_append, List.length_singleton, Nat.cast_add,
        Nat.cast_one]; omega)]
      simp
    | false =>
      rw [expiredEvents_cons_live i now h v m hx] at hroom ⊢
      simp only [sweep, hx, Bool.false_eq_true, if_false]
      exact ih ch hroom

/-- A sweep over entries none of which is expired sends nothing. -/
theorem sweep_of_none_expired (i : Nat) (now : Int) (m : List (Nat × storedValue))
    (hm : ∀ p ∈ m, p.2.isExpired now = false) (ch : Chan) :
    sweep i now m ch = (ch, false) := by
  induction m with
  | nil => rfl
  | cons p m ih =>
    obtain ⟨h, v⟩ := p
    have hx : v.isExpired now = false := hm (h, v) (List.mem_cons_self _ _)
    simp only [sweep, hx, Bool.false_eq_true, if_false]
    exact ih (fun q hq => hm q (List.mem_cons_of_mem _ hq))

/-- A tick that finds room in the queue appends the events of the expired
entries of its shard, moves on to the next shard and changes nothing else. -/
theorem tick_of_room {s : System} (ho : s.cache.isClosed = false) (hb : s.blocked = false)
    (now : Int)
    (hroom : (s.cache.evictionCh.buf.length : Int) +
      (expiredEvents s.bucketIdx now (s.cache.bucket s.bucketIdx).values).length ≤
        s.cache.evictionCh.bound) :
    s.tick now =
      { s with
        cache := s.cache.setQueue
          ⟨s.cache.evictionCh.buf ++
            expiredEvents s.bucketIdx now (s.cache.bucket s.bucketIdx).values,
            s.cache.evictionCh.closed, s.cache.evictionCh.bound⟩
        bucketIdx :=
          if (s.bucketIdx : Int) < s.cache.numBuckets - 1 then s.bucketIdx + 1 else 0 } := by
  unfold System.tick
  rw [guard_of_open ho hb, sweep_of_room _ _ _ _ hroom]
  simp only [Bool.false_eq_true, if_false]

/-- A tick over a shard without expired entries only moves on to the next
shard. -/
theorem tick_of_none_expired {s : System} (ho : s.cache.isClosed = false)
    (hb : s.blocked = false) (now : Int)
    (hm : ∀ p ∈ (s.cache.bucket s.bucketIdx).values, p.2.isExpired now = false) :
    s.tick now =
      { s with
        bucketIdx :=
          if (s.bucketIdx : Int) < s.cache.numBuckets - 1 then s.bucketIdx + 1 else 0 } := by
  unfold System.tick
  rw [guard_of_open ho hb, sweep_of_none_expired _ _ _ hm]
  simp only [Bool.false_eq_true, if_false]
  rfl

/-- While the queue is empty and no stored entry can expire, the worker changes
nothing of the cache and launches no handler. -/
theorem run_worker_quiet (Hash64 : String → Nat) (steps : List Op)
    (hw : ∀ op ∈ steps, op.isWorker = true) :
    ∀ s : System, s.cache.isClosed = false → s.blocked = false →
      s.cache.evictionCh.buf = [] →
      (∀ (j : Nat), ∀ p ∈ (s.cache.bucket j).values, p.2.expiration ≤ 0) →
      (s.run Hash64 steps).cache = s.cache ∧ (s.run Hash64 steps).evicted = s.evicted ∧
        (s.run Hash64 steps).blocked = false := by
  induction steps with
  | nil =>
    intro s _ hb _ _
    exact ⟨rfl, rfl, hb⟩
  | cons op steps ih =>
    intro s ho hb hq hm
    have ih' := ih (fun o ho' => hw o (List.mem_cons_of_mem _ ho'))
    have hop := hw op (List.mem_cons_self _ _)
    cases op with
    | tick now =>
      have hm' : ∀ p ∈ (s.cache.bucket s.bucketIdx).values, p.2.isExpired now = false :=
        fun p hp => (isExpired_eq_false_iff _ _).2 (Or.inl (hm _ p hp))
      have e : (s.apply Hash64 (.tick now)) = s.tick now := rfl
      simp only [System.run, List.foldl_cons] at ih' ⊢
      rw [e, tick_of_none_expired ho hb now hm']
      exact ih' _ ho hb hq hm
    | drain =>
      have e : (s.apply Hash64 .drain) = s.drain := rfl
      simp only [System.run, List.foldl_cons] at ih' ⊢
      rw [e, drain_of_empty hq]
      exact ih' _ ho hb hq hm
    | set key value d now => simp [Op.isWorker] at hop
    | add key value d now => simp [Op.isWorker] at hop
    | replace key value d now => simp [Op.isWorker] at hop
    | get key now => simp [Op.isWorker] at hop
    | delete key now => simp [Op.isWorker] at hop
    | keepAlive key d now => simp [Op.isWorker] at hop
    | close => simp [Op.isWorker] at hop

/-- The queue, the handler flag and the shards of a freshly built cache. -/
theorem New_fresh {C nb D iv : Int} {oe : Bool} {c0 : Cache}
    (hnew : New C nb D iv oe = some c0) :
    c0.evictionCh = ⟨[], false, c0.cacheSize⟩ ∧ c0.onEvict = oe ∧ c0.defaultExpiration = D ∧
      ∀ j : Nat, c0.bucket j = ⟨[]⟩ := by
  unfold New at hnew
  by_cases hiv : iv ≤ 0
  · simp [hiv] at hnew
  · simp only [hiv, if_false, Option.some.injEq] at hnew
    subst hnew
    refine ⟨rfl, rfl, rfl, ?_⟩
    intro j
    unfold Cache.bucket
    simp only [List.getD_eq_getElem?_getD, List.getElem?_replicate]
    split_ifs <;> rfl

theorem bucket_store (c : Cache) (i h : Nat) (v : storedValue) (hi : i < c.storage.length)
    (j : Nat) :
    (c.store i h v).bucket j =
      if i = j then ⟨mapInsert (c.bucket i).values h v⟩ else c.bucket j := by
  simp only [Cache.store, Cache.bucket]
  exact getD_set _ _ _ _ _ hi

/-! ## The effect of a call on the state -/

theorem Set_effect (Hash64 : String → Nat) (c : Cache) (key : String) (value : Option Session)
    (d now : Int) : Effect c (fingerprint Hash64 key) (c.Set Hash64 key value d now).1 := by
  cases ho : c.isClosed with
  | true => rw [Set_of_closed Hash64 key value d now ho]; exact Effect.same
  | false =>
    cases hf : c.find (fingerprint Hash64 key) with
    | some item =>
      rw [Set_of_find value d now ho hf]
      exact Effect.update _ ho (by rw [hf]; exact Option.some_ne_none _)
    | none =>
      by_cases hs : c.cacheSize = c.size
      · have : c.Set Hash64 key value d now = (c, none, some .MaxSizeExceed) := by
          rw [Set_eq, ho, hf]
          simp [hs]
        rw [this]
        exact Effect.same
      · have : c.Set Hash64 key value d now =
            (c.incSize.store (fingerprint Hash64 key % toUint64 c.numBuckets)
              (fingerprint Hash64 key) ⟨value, c.getExpiration d now⟩, none, none) := by
          rw [Set_eq, ho, hf]
          simp [hs]
        rw [this]
        exact Effect.insert _ ho hf hs

theorem Add_effect (Hash64 : String → Nat) (c : Cache) (key : String) (value : Option Session)
    (d now : Int) : Effect c (fingerprint Hash64 key) (c.Add Hash64 key value d now).1 := by
  cases ho : c.isClosed with
  | true => rw [Add_of_closed Hash64 key value d now ho]; exact Effect.same
  | false =>
    by_cases hs : c.cacheSize = c.size
    · rw [Add_of_full key value d now ho hs]
      exact Effect.same
    · cases hf : c.find (fingerprint Hash64 key) with
      | some item =>
        cases hx : item.isExpired now with
        | false =>
          rw [Add_of_find_live value d ho hs hf hx]
          exact Effect.same
        | true =>
          rw [Add_of_find_expired value d ho hs hf hx]
          exact Effect.recount _ ho (by rw [hf]; exact Option.some_ne_none _) hs
      | none =>
        have : c.Add Hash64 key value d now =
            (c.incSize.store (fingerprint Hash64 key % toUint64 c.numBuckets)
              (fingerprint Hash64 key) ⟨value, c.getExpiration d now⟩, none) := by
          rw [Add_eq, ho, hf]
          simp [hs]
        rw [this]
        exact Effect.insert _ ho hf hs

theorem Replace_effect (Hash64 : String → Nat) (c : Cache) (key : String)
    (value : Option Session) (d now : Int) :
    Effect c (fingerprint Hash64 key) (c.Replace Hash64 key value d now).1 := by
  cases ho : c.isClosed with
  | true => rw [Replace_of_closed Hash64 key value d now ho]; exact Effect.same
  | false =>
    cases hf : c.find (fingerprint Hash64 key) with
    | some item =>
      cases hx : item.isExpired now with
      | false =>
        rw [Replace_of_find_live value d ho hf hx]
        exact Effect.update _ ho (by rw [hf]; exact Option.some_ne_none _)
      | true =>
        rw [Replace_of_find_expired value d ho hf hx]
        exact Effect.same
    | none =>
      rw [Replace_of_find_none value d now ho hf]
      exact Effect.same

/-- `Get` returns the state it was given. -/
theorem Get_state (Hash64 : String → Nat) (c : Cache) (key : String) (now : Int) :
    (c.Get Hash64 key now).1 = c := by
  cases ho : c.isClosed with
  | true => rw [Get_of_closed Hash64 key now ho]
  | false =>
    cases hf : c.find (fingerprint Hash64 key) with
    | none => rw [Get_of_find_none ho hf]
    | some item =>
      cases hx : item.isExpired now with
      | true => rw [Get_of_find_expired ho hf ((isExpired_eq_true_iff _ _).1 hx)]
      | false => rw [Get_of_find ho hf ((isExpired_eq_false_iff _ _).1 hx)]

theorem Delete_effect (Hash64 : String → Nat) (c : Cache) (key : String) (now : Int) :
    Effect c (fingerprint Hash64 key) (c.Delete Hash64 key now).1 := by
  cases ho : c.isClosed with
  | true => rw [Delete_of_closed Hash64 key now ho]; exact Effect.same
  | false =>
    cases hf : c.find (fingerprint Hash64 key) with
    | some item =>
      rw [Delete_of_find now ho hf]
      exact Effect.delete ho (by rw [hf]; exact Option.some_ne_none _)
    | none =>
      rw [Delete_of_find_none now ho hf]
      exact Effect.same

theorem KeepAlive_effect (Hash64 : String → Nat) (c : Cache) (key : String) (d now : Int) :
    Effect c (fingerprint Hash64 key) (c.KeepAlive Hash64 key d now).1 := by
  cases ho : c.isClosed with
  | true => rw [KeepAlive_of_closed Hash64 key d now ho]; exact Effect.same
  | false =>
    cases hf : c.find (fingerprint Hash64 key) with
    | some item =>
      cases hx : item.isExpired now with
      | false =>
        rw [KeepAlive_of_find_live d ho hf hx]
        exact Effect.update _ ho (by rw [hf]; exact Option.some_ne_none _)
      | true =>
        rw [KeepAlive_of_find_expired d ho hf hx]
        exact Effect.same
    | none =>
      rw [KeepAlive_of_find_none d now ho hf]
      exact Effect.same

/-! ## Lemmas on the fingerprints of a shard map -/

theorem mapLookup_eq_none_iff (m : List (Nat × storedValue)) (h : Nat) :
    mapLookup m h = none ↔ h ∉ mapKeys m := by
  induction m with
  | nil => simp [mapLookup, mapKeys]
  | cons p m ih =>
    obtain ⟨h', v'⟩ := p
    by_cases e : h' = h
    · subst e
      simp [mapLookup, mapKeys]
    · have e' : ¬ h = h' := fun x => e x.symm
      simp only [mapLookup, e, if_false, ih, mapKeys, List.map_cons, List.mem_cons, e',
        false_or]

theorem mapKeys_mapInsert_of_mem (m : List (Nat × storedValue)) (h : Nat) (v : storedValue)
    (hm : h ∈ mapKeys m) : mapKeys (mapInsert m h v) = mapKeys m := by
  induction m with
  | nil => simp [mapKeys] at hm
  | cons p m ih =>
    obtain ⟨h', v'⟩ := p
    by_cases e : h' = h
    · subst e
      simp [mapInsert, mapKeys]
    · have e' : ¬ h = h' := fun x => e x.symm
      simp only [mapKeys, List.map_cons, List.mem_cons, e', false_or] at hm
      simp only [mapInsert, e, if_false, mapKeys, List.map_cons, List.cons.injEq, true_and]
      exact ih hm

theorem mapKeys_mapInsert_of_not_mem (m : List (Nat × storedValue)) (h : Nat) (v : storedValue)
    (hm : h ∉ mapKeys m) : mapKeys (mapInsert m h v) = mapKeys m ++ [h] := by
  induction m with
  | nil => simp [mapInsert, mapKeys]
  | cons p m ih =>
    obtain ⟨h', v'⟩ := p
    simp only [mapKeys, List.map_cons, List.mem_cons, not_or] at hm
    have e : ¬ h' = h := fun x => hm.1 x.symm
    simp only [mapInsert, e, if_false, mapKeys, List.map_cons, List.cons_append,
      List.cons.injEq, true_and]
    exact ih hm.2

theorem mapKeys_mapDelete (m : List (Nat × storedValue)) (h : Nat) :
    mapKeys (mapDelete m h) = (mapKeys m).filter (fun k => k != h) := by
  induction m with
  | nil => simp [mapDelete, mapKeys]
  | cons p m ih =>
    obtain ⟨h', v'⟩ := p
    unfold mapKeys at ih ⊢
    by_cases e : h' = h
    · subst e
      simp [mapDelete, List.filter_cons, ih]
    · simp [mapDelete, List.filter_cons, e, ih]

theorem mapKeys_length (m : List (Nat × storedValue)) : (mapKeys m).length = m.length := by
  simp [mapKeys]

theorem mapInsert_nodup (m : List (Nat × storedValue)) (h : Nat) (v : storedValue)
    (hn : (mapKeys m).Nodup) : (mapKeys (mapInsert m h v)).Nodup := by
  by_cases hm : h ∈ mapKeys m
  · rw [mapKeys_mapInsert_of_mem m h v hm]
    exact hn
  · rw [mapKeys_mapInsert_of_not_mem m h v hm]
    exact List.Nodup.append hn (List.nodup_singleton h) (by simpa using hm)

theorem mapDelete_nodup (m : List (Nat × storedValue)) (h : Nat)
    (hn : (mapKeys m).Nodup) : (mapKeys (mapDelete m h)).Nodup := by
  rw [mapKeys_mapDelete]
  exact hn.filter _

/-- Rewriting a present slot keeps the number of entries. -/
theorem mapInsert_length_of_some (m : List (Nat × storedValue)) (h : Nat) (v : storedValue)
    (hm : mapLookup m h ≠ none) : (mapInsert m h v).length = m.length := by
  rw [← mapKeys_length, ← mapKeys_length,
    mapKeys_mapInsert_of_mem m h v (by
      by_contra hc
      exact hm ((mapLookup_eq_none_iff m h).2 hc))]

/-- Writing an empty slot adds one entry. -/
theorem mapInsert_length_of_none (m : List (Nat × storedValue)) (h : Nat) (v : storedValue)
    (hm : mapLookup m h = none) : (mapInsert m h v).length = m.length + 1 := by
  rw [← mapKeys_length, ← mapKeys_length,
    mapKeys_mapInsert_of_not_mem m h v ((mapLookup_eq_none_iff m h).1 hm)]
  simp

/-- Deleting a present slot of a map without repeated fingerprints removes one
entry. -/
theorem mapDelete_length_of_some (m : List (Nat × storedValue)) (h : Nat)
    (hn : (mapKeys m).Nodup) (hm : mapLookup m h ≠ none) :
    (mapDelete m h).length + 1 = m.length := by
  have hmem : h ∈ mapKeys m := by
    by_contra hc
    exact hm ((mapLookup_eq_none_iff m h).2 hc)
  rw [← mapKeys_length, ← mapKeys_length, mapKeys_mapDelete, ← hn.erase_eq_filter h,
    List.length_erase_of_mem hmem]
  have : 0 < (mapKeys m).length := List.length_pos_of_mem hmem
  omega

/-- The sum over the shard array after one shard has been replaced. -/
theorem sum_set (f : Bucket → Nat) (l : List Bucket) (i : Nat) (b d : Bucket)
    (hi : i < l.length) :
    ((l.set i b).map f).sum + f (l.getD i d) = (l.map f).sum + f b := by
  induction l generalizing i with
  | nil => simp at hi
  | cons a l ih =>
    cases i with
    | zero => simp [List.set]; omega
    | succ i =>
      have hi' : i < l.length := by simpa using hi
      have := ih i hi'
      simp only [List.set, List.map_cons, List.sum_cons, List.getD_cons_succ]
      omega

theorem count_store (c : Cache) (i h : Nat) (v : storedValue) (hi : i < c.storage.length) :
    (c.store i h v).count + (c.bucket i).values.length =
      c.count + (mapInsert (c.bucket i).values h v).length := by
  unfold Cache.count Cache.store Cache.bucket
  exact sum_set (fun b => b.values.length) c.storage i _ _ hi

theorem count_remove (c : Cache) (i h : Nat) (hi : i < c.storage.length) :
    (c.remove i h).count + (c.bucket i).values.length =
      c.count + (mapDelete (c.bucket i).values h).length := by
  unfold Cache.count Cache.remove Cache.bucket
  exact sum_set (fun b => b.values.length) c.storage i _ _ hi

/-- A shard of the array is a shard the array is made of. -/
theorem bucket_mem (c : Cache) (i : Nat) (hi : i < c.storage.length) :
    c.bucket i ∈ c.storage := by
  unfold Cache.bucket
  rw [List.getD_eq_getElem?_getD, List.getElem?_eq_getElem hi]
  exact List.getElem_mem hi

/-! ## The invariant `System.Good` -/

theorem store_nodup (c : Cache) (i h : Nat) (v : storedValue)
    (hn : ∀ b ∈ c.storage, (mapKeys b.values).Nodup) :
    ∀ b ∈ (c.store i h v).storage, (mapKeys b.values).Nodup := by
  intro b hb
  by_cases hi : i < c.storage.length
  · rcases List.mem_or_eq_of_mem_set hb with h1 | h1
    · exact hn b h1
    · rw [h1]
      exact mapInsert_nodup _ _ _ (hn _ (bucket_mem c i hi))
  · have : (c.store i h v).storage = c.storage := by
      unfold Cache.store
      exact List.set_eq_of_length_le (by omega)
    rw [this] at hb
    exact hn b hb

theorem remove_nodup (c : Cache) (i h : Nat)
    (hn : ∀ b ∈ c.storage, (mapKeys b.values).Nodup) :
    ∀ b ∈ (c.remove i h).storage, (mapKeys b.values).Nodup := by
  intro b hb
  by_cases hi : i < c.storage.length
  · rcases List.mem_or_eq_of_mem_set hb with h1 | h1
    · exact hn b h1
    · rw [h1]
      exact mapDelete_nodup _ _ (hn _ (bucket_mem c i hi))
  · have : (c.remove i h).storage = c.storage := by
      unfold Cache.remove
      exact List.set_eq_of_length_le (by omega)
    rw [this] at hb
    exact hn b hb

/-- A call changes neither the configuration nor the queue nor the closed flag
nor the number of shards. -/
theorem effect_frame {c c' : Cache} {h : Nat} (he : Effect c h c') :
    c'.cacheSize = c.cacheSize ∧ c'.numBuckets = c.numBuckets ∧
      c'.defaultExpiration = c.defaultExpiration ∧ c'.evictionCh = c.evictionCh ∧
      c'.closed = c.closed ∧ c'.onEvict = c.onEvict ∧
      c'.storage.length = c.storage.length := by
  cases he with
  | same => exact ⟨rfl, rfl, rfl, rfl, rfl, rfl, rfl⟩
  | update v _ _ => exact ⟨rfl, rfl, rfl, rfl, rfl, rfl, by simp [Cache.store]⟩
  | insert v _ _ _ =>
    exact ⟨rfl, rfl, rfl, rfl, rfl, rfl, by simp [Cache.store, Cache.incSize]⟩
  | recount v _ _ _ =>
    exact ⟨rfl, rfl, rfl, rfl, rfl, rfl, by simp [Cache.store, Cache.incSize]⟩
  | delete _ _ => exact ⟨rfl, rfl, rfl, rfl, rfl, rfl, by simp [Cache.remove, Cache.decSize]⟩

theorem effect_nodup {c c' : Cache} {h : Nat} (he : Effect c h c')
    (hn : ∀ b ∈ c.storage, (mapKeys b.values).Nodup) :
    ∀ b ∈ c'.storage, (mapKeys b.values).Nodup := by
  cases he with
  | same => exact hn
  | update v _ _ => exact store_nodup c _ _ _ hn
  | insert v _ _ _ => exact store_nodup c.incSize _ _ _ hn
  | recount v _ _ _ => exact store_nodup c.incSize _ _ _ hn
  | delete _ _ => exact remove_nodup c.decSize _ _ hn

theorem Good_of_effect {s : System} {c' : Cache} {h : Nat} (hg : s.Good)
    (he : Effect s.cache h c') : ({ s with cache := c' } : System).Good := by
  obtain ⟨g1, g2, g3, g4, g5, g6⟩ := hg
  obtain ⟨f1, f2, _, f4, _, _, f7⟩ := effect_frame he
  refine ⟨⟨?_, ?_, ?_⟩, ?_, ?_, ?_, ?_, effect_nodup he g6⟩
  · show 0 < c'.numBuckets
    rw [f2]; exact g1.1
  · show c'.numBuckets < 2 ^ 63
    rw [f2]; exact g1.2.1
  · show c'.storage.length = c'.numBuckets.toNat
    rw [f7, f2]; exact g1.2.2
  · show 0 < c'.cacheSize
    rw [f1]; exact g2
  · show c'.evictionCh.bound = c'.cacheSize
    rw [f4, f1]; exact g3
  · show s.bucketIdx < c'.storage.length
    rw [f7]; exact g4
  · show ∀ e ∈ c'.evictionCh.buf, e.bucketIdx < c'.storage.length
    rw [f4, f7]; exact g5

/-- `Close` keeps the pending events and the bound of the queue, the
configuration and the number of shards. -/
theorem Close_frame (c : Cache) :
    c.Close.evictionCh.buf = c.evictionCh.buf ∧ c.Close.evictionCh.bound = c.evictionCh.bound ∧
      c.Close.cacheSize = c.cacheSize ∧ c.Close.numBuckets = c.numBuckets ∧
      c.Close.onEvict = c.onEvict ∧ c.Close.storage.length = c.storage.length := by
  unfold Cache.Close
  split_ifs
  · exact ⟨rfl, rfl, rfl, rfl, rfl, rfl⟩
  · exact ⟨rfl, rfl, rfl, rfl, rfl, clearLoop_length _ _⟩

theorem Close_Good {s : System} (hg : s.Good) (hi : s.cache.Inv) :
    ({ s with cache := s.cache.Close } : System).Good := by
  obtain ⟨g1, g2, g3, g4, g5, g6⟩ := hg
  obtain ⟨f1, f2, f3, f4, _, f6⟩ := Close_frame s.cache
  refine ⟨(Close_Inv hi).1, ?_, ?_, ?_, ?_, ?_⟩
  · show 0 < s.cache.Close.cacheSize
    rw [f3]; exact g2
  · show s.cache.Close.evictionCh.bound = s.cache.Close.cacheSize
    rw [f2, f3]; exact g3
  · show s.bucketIdx < s.cache.Close.storage.length
    rw [f6]; exact g4
  · show ∀ e ∈ s.cache.Close.evictionCh.buf, e.bucketIdx < s.cache.Close.storage.length
    rw [f1, f6]; exact g5
  · show ∀ b ∈ s.cache.Close.storage, (mapKeys b.values).Nodup
    intro b hb
    rw [((Close_Inv hi).2 (Close_isClosed _)).1 b hb]
    exact List.nodup_nil

theorem send_bound {ch ch' : Chan} {e : evictEvent} (h : ch.send e = some ch') :
    ch'.bound = ch.bound ∧ ch'.buf = ch.buf ++ [e] ∧ ch'.closed = ch.closed := by
  unfold Chan.send at h
  split_ifs at h
  simp only [Option.some.injEq] at h
  subst h
  exact ⟨rfl, rfl, rfl⟩

theorem sweep_cons_live (i : Nat) (now : Int) (h : Nat) (v : storedValue)
    (m : List (Nat × storedValue)) (ch : Chan) (hx : v.isExpired now = false) :
    sweep i now ((h, v) :: m) ch = sweep i now m ch := by
  simp only [sweep, hx, Bool.false_eq_true, if_false]

theorem sweep_cons_sent (i : Nat) (now : Int) (h : Nat) (v : storedValue)
    (m : List (Nat × storedValue)) (ch ch' : Chan) (hx : v.isExpired now = true)
    (hs : ch.send ⟨i, h⟩ = some ch') :
    sweep i now ((h, v) :: m) ch = sweep i now m ch' := by
  simp only [sweep, hx, if_true, hs]

theorem sweep_cons_blocked (i : Nat) (now : Int) (h : Nat) (v : storedValue)
    (m : List (Nat × storedValue)) (ch : Chan) (hx : v.isExpired now = true)
    (hs : ch.send ⟨i, h⟩ = none) :
    sweep i now ((h, v) :: m) ch = (ch, true) := by
  simp only [sweep, hx, if_true, hs]

/-- A sweep keeps the bound of the queue and only adds events of its shard. -/
theorem sweep_frame (i : Nat) (now : Int) (m : List (Nat × storedValue)) :
    ∀ ch : Chan, (sweep i now m ch).1.bound = ch.bound ∧
      (sweep i now m ch).1.closed = ch.closed ∧
      ∀ e ∈ (sweep i now m ch).1.buf, e ∈ ch.buf ∨ e.bucketIdx = i := by
  induction m with
  | nil =>
    intro ch
    exact ⟨rfl, rfl, fun e he => Or.inl he⟩
  | cons p m ih =>
    obtain ⟨h, v⟩ := p
    intro ch
    cases hx : v.isExpired now with
    | true =>
      cases hs : ch.send ⟨i, h⟩ with
      | none =>
        rw [sweep_cons_blocked i now h v m ch hx hs]
        exact ⟨rfl, rfl, fun e he => Or.inl he⟩
      | some ch' =>
        obtain ⟨b1, b2, b3⟩ := send_bound hs
        obtain ⟨i1, i2, i3⟩ := ih ch'
        rw [sweep_cons_sent i now h v m ch ch' hx hs]
        refine ⟨by rw [i1, b1], by rw [i2, b3], ?_⟩
        intro e he
        rcases i3 e he with h1 | h1
        · rw [b2, List.mem_append, List.mem_singleton] at h1
          rcases h1 with h2 | h2
          · exact Or.inl h2
          · rw [h2]
            exact Or.inr rfl
        · exact Or.inr h1
    | false =>
      rw [sweep_cons_live i now h v m ch hx]
      exact ih ch

/-- The index the worker moves to after a sweep is the next one, wrapping at
the number of shards. -/
theorem next_index {c : Cache} (hc : c.WF) {i : Nat} (hi : i < c.storage.length) :
    (if (i : Int) < c.numBuckets - 1 then i + 1 else 0) = (i + 1) % c.storage.length := by
  obtain ⟨h0, h1, h2⟩ := hc
  have hn : (c.storage.length : Int) = c.numBuckets := by
    rw [h2]
    exact Int.toNat_of_nonneg (le_of_lt h0)
  by_cases hlt : (i : Int) < c.numBuckets - 1
  · have : i + 1 < c.storage.length := by omega
    simp only [hlt, if_true]
    exact (Nat.mod_eq_of_lt this).symm
  · have : i + 1 = c.storage.length := by omega
    simp only [hlt, if_false]
    rw [this, Nat.mod_self]

theorem tick_of_guard {s : System} (now : Int) (hg : (s.cache.isClosed || s.blocked) = true) :
    s.tick now = s := by
  simp only [System.tick, hg, if_true]

/-- The three outcomes of a tick on an open cache with a worker that is not
blocked: it blocks on the full queue, or it completes and moves on. -/
theorem tick_of_open {s : System} (now : Int) (ho : s.cache.isClosed = false)
    (hb : s.blocked = false) :
    ((sweep s.bucketIdx now (s.cache.bucket s.bucketIdx).values s.cache.evictionCh).2 = true ∧
      s.tick now =
        { s with
          cache := s.cache.setQueue
            (sweep s.bucketIdx now (s.cache.bucket s.bucketIdx).values s.cache.evictionCh).1
          blocked := true }) ∨
    ((sweep s.bucketIdx now (s.cache.bucket s.bucketIdx).values s.cache.evictionCh).2 = false ∧
      s.tick now =
        { s with
          cache := s.cache.setQueue
            (sweep s.bucketIdx now (s.cache.bucket s.bucketIdx).values s.cache.evictionCh).1
          bucketIdx :=
            if (s.bucketIdx : Int) < s.cache.numBuckets - 1 then s.bucketIdx + 1 else 0 }) := by
  unfold System.tick
  rw [guard_of_open ho hb]
  cases hs : (sweep s.bucketIdx now (s.cache.bucket s.bucketIdx).values s.cache.evictionCh).2 with
  | true =>
    left
    simp only [Bool.false_eq_true, if_false, if_true]
    trivial
  | false =>
    right
    simp only [Bool.false_eq_true, if_false]
    trivial

theorem tick_Good {s : System} (hg : s.Good) (now : Int) : (s.tick now).Good := by
  cases hgd : (s.cache.isClosed || s.blocked) with
  | true => rw [tick_of_guard now hgd]; exact hg
  | false =>
    have ho : s.cache.isClosed = false := by
      cases h : s.cache.isClosed with
      | true => simp [h] at hgd
      | false => rfl
    have hb : s.blocked = false := by
      cases h : s.blocked with
      | true => simp [h] at hgd
      | false => rfl
    obtain ⟨g1, g2, g3, g4, g5, g6⟩ := hg
    obtain ⟨w1, _, w3⟩ := sweep_frame s.bucketIdx now (s.cache.bucket s.bucketIdx).values
      s.cache.evictionCh
    have hev : ∀ e ∈ (sweep s.bucketIdx now (s.cache.bucket s.bucketIdx).values
        s.cache.evictionCh).1.buf, e.bucketIdx < s.cache.storage.length := by
      intro e he
      rcases w3 e he with h1 | h1
      · exact g5 e h1
      · rw [h1]; exact g4
    rcases tick_of_open now ho hb with ⟨_, e⟩ | ⟨_, e⟩
    · rw [e]
      exact ⟨g1, g2, w1.trans g3, g4, hev, g6⟩
    · rw [e]
      refine ⟨g1, g2, w1.trans g3, ?_, hev, g6⟩
      show (if (s.bucketIdx : Int) < s.cache.numBuckets - 1 then s.bucketIdx + 1 else 0) <
        s.cache.storage.length
      rw [next_index g1 g4]
      exact Nat.mod_lt _ (by omega)

theorem drain_Good {s : System} (hg : s.Good) : s.drain.Good := by
  cases hgd : (s.cache.isClosed || s.blocked) with
  | true => rw [drain_of_guard hgd]; exact hg
  | false =>
    have ho : s.cache.isClosed = false := by
      cases h : s.cache.isClosed with
      | true => simp [h] at hgd
      | false => rfl
    have hb : s.blocked = false := by
      cases h : s.blocked with
      | true => simp [h] at hgd
      | false => rfl
    obtain ⟨g1, g2, g3, g4, g5, g6⟩ := hg
    cases hq : s.cache.evictionCh.buf with
    | nil => rw [drain_of_empty hq]; exact ⟨g1, g2, g3, g4, g5, g6⟩
    | cons e rest =>
      have hrest : ∀ e' ∈ rest, e'.bucketIdx < s.cache.storage.length := by
        intro e' he'
        exact g5 e' (by rw [hq]; exact List.mem_cons_of_mem _ he')
      cases hf : mapLookup (s.cache.bucket e.bucketIdx).values e.hash with
      | none =>
        rw [drain_of_absent ho hb hq hf]
        exact ⟨g1, g2, g3, g4, hrest, g6⟩
      | some item =>
        rw [drain_of_present ho hb hq hf]
        refine ⟨remove_WF (decSize_WF (setQueue_WF g1 _)) _ _, g2, g3, ?_, ?_, ?_⟩
        · show s.bucketIdx < (((s.cache.setQueue _).decSize).remove _ _).storage.length
          simp only [Cache.remove, List.length_set]
          exact g4
        · intro e' he'
          show e'.bucketIdx < (((s.cache.setQueue _).decSize).remove _ _).storage.length
          simp only [Cache.remove, List.length_set]
          exact hrest e' he'
        · exact remove_nodup ((s.cache.setQueue _).decSize) _ _ g6

theorem apply_Good (Hash64 : String → Nat) {s : System} (hg : s.Good) (hi : s.cache.Inv)
    (op : Op) : (s.apply Hash64 op).Good := by
  cases op with
  | set key value d now => exact Good_of_effect hg (Set_effect Hash64 s.cache key value d now)
  | add key value d now => exact Good_of_effect hg (Add_effect Hash64 s.cache key value d now)
  | replace key value d now =>
    exact Good_of_effect hg (Replace_effect Hash64 s.cache key value d now)
  | get key now =>
    have : s.apply Hash64 (.get key now) = s := by
      show ({ s with cache := (s.cache.Get Hash64 key now).1 } : System) = s
      rw [Get_state]
    rw [this]
    exact hg
  | delete key now => exact Good_of_effect hg (Delete_effect Hash64 s.cache key now)
  | keepAlive key d now => exact Good_of_effect hg (KeepAlive_effect Hash64 s.cache key d now)
  | close => exact Close_Good hg hi
  | tick now => exact tick_Good hg now
  | drain => exact drain_Good hg

theorem run_Good (Hash64 : String → Nat) (ops : List Op) :
    ∀ s : System, s.Good → s.cache.Inv → (s.run Hash64 ops).Good := by
  induction ops with
  | nil => intro s hg _; exact hg
  | cons op ops ih =>
    intro s hg hi
    exact ih _ (apply_Good Hash64 hg hi op) (apply_Inv Hash64 hi op)

theorem New_storage {C nb D iv : Int} {oe : Bool} {c0 : Cache}
    (hnew : New C nb D iv oe = some c0) :
    c0.storage = List.replicate c0.numBuckets.toNat ⟨[]⟩ := by
  unfold New at hnew
  by_cases hiv : iv ≤ 0
  · simp [hiv] at hnew
  · simp only [hiv, if_false, Option.some.injEq] at hnew
    subst hnew
    rfl

/-- The system that `New` starts satisfies the invariant. -/
theorem start_Good {C nb D iv : Int} {oe : Bool} {c0 : Cache} (hnb : nb < 2 ^ 63)
    (hnew : New C nb D iv oe = some c0) : (System.start c0).Good := by
  obtain ⟨hWF, _, _, hcs, _, _⟩ := New_spec hnb hnew
  obtain ⟨hq, _, _, _⟩ := New_fresh hnew
  have hst := New_storage hnew
  refine ⟨hWF, ?_, ?_, ?_, ?_, ?_⟩
  · show 0 < c0.cacheSize
    rw [hcs]
    unfold DefaultCacheSize
    split_ifs <;> omega
  · show c0.evictionCh.bound = c0.cacheSize
    rw [hq]
  · show 0 < c0.storage.length
    rw [hWF.2.2]
    have := hWF.1
    omega
  · intro e he
    have he' : e ∈ c0.evictionCh.buf := he
    rw [hq] at he'
    simp at he'
  · intro b hb
    have hb' : b ∈ c0.storage := hb
    rw [hst] at hb'
    rw [List.eq_of_mem_replicate hb']
    exact List.nodup_nil

/-- Every reachable state satisfies `System.Good`. -/
theorem Reachable.Good {Hash64 : String → Nat} {s : System} (hr : s.Reachable Hash64) :
    s.Good := by
  obtain ⟨C, nb, D, iv, oe, c0, ops, hnb, hnew, rfl⟩ := hr
  obtain ⟨hWF, ho, _⟩ := New_spec hnb hnew
  exact run_Good Hash64 ops _ (start_Good hnb hnew) (Inv_of_open hWF ho)

/-! ## The bounds of the size counter -/

theorem Bounded_update (c : Cache) (i h : Nat) (v : storedValue) (hi : i < c.storage.length)
    (hp : mapLookup (c.bucket i).values h ≠ none) (hb : c.Bounded) :
    (c.store i h v).Bounded := by
  have h1 := count_store c i h v hi
  rw [mapInsert_length_of_some _ h v hp] at h1
  have h2 : (c.store i h v).count = c.count := by omega
  unfold Cache.Bounded
  rw [h2]
  exact hb

theorem Bounded_insert (c : Cache) (i h : Nat) (v : storedValue) (hi : i < c.storage.length)
    (hp : mapLookup (c.bucket i).values h = none) (hs : c.cacheSize ≠ c.size)
    (hC : c.cacheSize ≤ 2 ^ 31 - 1) (hb : c.Bounded) :
    (c.incSize.store i h v).Bounded := by
  have h1 := count_store c.incSize i h v hi
  have hbk : c.incSize.bucket i = c.bucket i := rfl
  have hct : c.incSize.count = c.count := rfl
  rw [hbk, hct, mapInsert_length_of_none _ h v hp] at h1
  have h2 : (c.incSize.store i h v).count = c.count + 1 := by omega
  obtain ⟨b1, b2⟩ := hb
  have hsz : (c.incSize.store i h v).size = c.size + 1 := by
    show wrapInt32 (c.size + 1) = c.size + 1
    exact wrapInt32_of_range (by omega) (by omega)
  refine ⟨?_, ?_⟩
  · rw [h2, hsz]
    push_cast
    omega
  · rw [hsz]
    show c.size + 1 ≤ c.cacheSize
    omega

theorem Bounded_recount (c : Cache) (i h : Nat) (v : storedValue) (hi : i < c.storage.length)
    (hp : mapLookup (c.bucket i).values h ≠ none) (hs : c.cacheSize ≠ c.size)
    (hC : c.cacheSize ≤ 2 ^ 31 - 1) (hb : c.Bounded) :
    (c.incSize.store i h v).Bounded := by
  have h1 := count_store c.incSize i h v hi
  have hbk : c.incSize.bucket i = c.bucket i := rfl
  have hct : c.incSize.count = c.count := rfl
  rw [hbk, hct, mapInsert_length_of_some _ h v hp] at h1
  have h2 : (c.incSize.store i h v).count = c.count := by omega
  obtain ⟨b1, b2⟩ := hb
  have hsz : (c.incSize.store i h v).size = c.size + 1 := by
    show wrapInt32 (c.size + 1) = c.size + 1
    exact wrapInt32_of_range (by omega) (by omega)
  refine ⟨?_, ?_⟩
  · rw [h2, hsz]
    omega
  · rw [hsz]
    show c.size + 1 ≤ c.cacheSize
    omega

theorem Bounded_remove (c : Cache) (i h : Nat) (hi : i < c.storage.length)
    (hn : ∀ b ∈ c.storage, (mapKeys b.values).Nodup)
    (hp : mapLookup (c.bucket i).values h ≠ none)
    (hC : c.cacheSize ≤ 2 ^ 31 - 1) (hb : c.Bounded) :
    (c.decSize.remove i h).Bounded := by
  have h1 := count_remove c.decSize i h hi
  have hbk : c.decSize.bucket i = c.bucket i := rfl
  have hct : c.decSize.count = c.count := rfl
  rw [hbk, hct] at h1
  have h3 := mapDelete_length_of_some _ h (hn _ (bucket_mem c i hi)) hp
  have h2 : (c.decSize.remove i h).count + 1 = c.count := by omega
  obtain ⟨b1, b2⟩ := hb
  have hsz : (c.decSize.remove i h).size = c.size - 1 := by
    show wrapInt32 (c.size - 1) = c.size - 1
    exact wrapInt32_of_range (by omega) (by omega)
  refine ⟨?_, ?_⟩
  · rw [hsz]
    omega
  · rw [hsz]
    show c.size - 1 ≤ c.cacheSize
    omega

theorem Bounded_effect {c c' : Cache} {h : Nat} (he : Effect c h c') (hc : c.WF)
    (hn : ∀ b ∈ c.storage, (mapKeys b.values).Nodup) (hC : c.cacheSize ≤ 2 ^ 31 - 1)
    (hb : c.Bounded) : c'.Bounded := by
  have hi := idx_lt_of_WF hc h
  cases he with
  | same => exact hb
  | update v _ hp => exact Bounded_update c _ h v hi hp hb
  | insert v _ hp hs => exact Bounded_insert c _ h v hi hp hs hC hb
  | recount v _ hp hs => exact Bounded_recount c _ h v hi hp hs hC hb
  | delete _ hp => exact Bounded_remove c _ h hi hn hp hC hb

theorem count_of_empty (c : Cache) (he : ∀ b ∈ c.storage, b.values = []) : c.count = 0 := by
  unfold Cache.count
  apply List.sum_eq_zero
  intro n hn
  rw [List.mem_map] at hn
  obtain ⟨b, hb, rfl⟩ := hn
  rw [he b hb]
  rfl

theorem Bounded_Close {c : Cache} (hi : c.Inv) (hpos : 0 < c.cacheSize) (hb : c.Bounded) :
    c.Close.Bounded := by
  cases ho : c.isClosed with
  | true => rw [Close_of_closed ho]; exact hb
  | false =>
    have hci := Close_Inv hi
    obtain ⟨e1, e2⟩ := hci.2 (Close_isClosed c)
    obtain ⟨_, _, f3, _⟩ := Close_frame c
    unfold Cache.Bounded
    rw [count_of_empty _ e1, e2, f3]
    exact ⟨le_refl _, le_of_lt hpos⟩

theorem Bounded_tick {s : System} (hb : s.cache.Bounded) (now : Int) :
    (s.tick now).cache.Bounded := by
  rw [tick_cache]
  exact hb

theorem Bounded_drain {s : System} (hg : s.Good) (hC : s.cache.cacheSize ≤ 2 ^ 31 - 1)
    (hb : s.cache.Bounded) : s.drain.cache.Bounded := by
  cases hgd : (s.cache.isClosed || s.blocked) with
  | true => rw [drain_of_guard hgd]; exact hb
  | false =>
    have ho : s.cache.isClosed = false := by
      cases h : s.cache.isClosed with
      | true => simp [h] at hgd
      | false => rfl
    have hbl : s.blocked = false := by
      cases h : s.blocked with
      | true => simp [h] at hgd
      | false => rfl
    cases hq : s.cache.evictionCh.buf with
    | nil => rw [drain_of_empty hq]; exact hb
    | cons e rest =>
      cases hf : mapLookup (s.cache.bucket e.bucketIdx).values e.hash with
      | none =>
        rw [drain_of_absent ho hbl hq hf]
        exact hb
      | some item =>
        rw [drain_of_present ho hbl hq hf]
        exact Bounded_remove (s.cache.setQueue _) e.bucketIdx e.hash (idx_lt_of_lookup hf)
          hg.2.2.2.2.2 (by
            show mapLookup (s.cache.bucket e.bucketIdx).values e.hash ≠ none
            rw [hf]
            exact Option.some_ne_none _) hC hb

theorem Bounded_apply (Hash64 : String → Nat) {s : System} (hg : s.Good) (hi : s.cache.Inv)
    (hC : s.cache.cacheSize ≤ 2 ^ 31 - 1) (hb : s.cache.Bounded) (op : Op) :
    (s.apply Hash64 op).cache.Bounded := by
  cases op with
  | set key value d now =>
    exact Bounded_effect (Set_effect Hash64 s.cache key value d now) hg.1 hg.2.2.2.2.2 hC hb
  | add key value d now =>
    exact Bounded_effect (Add_effect Hash64 s.cache key value d now) hg.1 hg.2.2.2.2.2 hC hb
  | replace key value d now =>
    exact Bounded_effect (Replace_effect Hash64 s.cache key value d now) hg.1 hg.2.2.2.2.2 hC hb
  | get key now =>
    show (s.cache.Get Hash64 key now).1.Bounded
    rw [Get_state]
    exact hb
  | delete key now =>
    exact Bounded_effect (Delete_effect Hash64 s.cache key now) hg.1 hg.2.2.2.2.2 hC hb
  | keepAlive key d now =>
    exact Bounded_effect (KeepAlive_effect Hash64 s.cache key d now) hg.1 hg.2.2.2.2.2 hC hb
  | close => exact Bounded_Close hi hg.2.1 hb
  | tick now => exact Bounded_tick hb now
  | drain => exact Bounded_drain hg hC hb

/-- No step of the system changes the capacity. -/
theorem apply_cacheSize (Hash64 : String → Nat) (s : System) (op : Op) :
    (s.apply Hash64 op).cache.cacheSize = s.cache.cacheSize := by
  cases op with
  | set key value d now => exact (effect_frame (Set_effect Hash64 s.cache key value d now)).1
  | add key value d now => exact (effect_frame (Add_effect Hash64 s.cache key value d now)).1
  | replace key value d now =>
    exact (effect_frame (Replace_effect Hash64 s.cache key value d now)).1
  | get key now =>
    show (s.cache.Get Hash64 key now).1.cacheSize = s.cache.cacheSize
    rw [Get_state]
  | delete key now => exact (effect_frame (Delete_effect Hash64 s.cache key now)).1
  | keepAlive key d now => exact (effect_frame (KeepAlive_effect Hash64 s.cache key d now)).1
  | close => exact (Close_frame s.cache).2.2.1
  | tick now =>
    show (s.tick now).cache.cacheSize = s.cache.cacheSize
    rw [tick_cache]
    rfl
  | drain =>
    show s.drain.cache.cacheSize = s.cache.cacheSize
    rcases drain_cases s with e | ⟨e, rest, _, _, _, _, h⟩ | ⟨e, rest, item, _, _, _, _, h⟩
    · rw [e]
    · rw [h]; rfl
    · rw [h]; rfl

theorem run_Bounded (Hash64 : String → Nat) (ops : List Op) :
    ∀ s : System, s.Good → s.cache.Inv → s.cache.cacheSize ≤ 2 ^ 31 - 1 → s.cache.Bounded →
      (s.run Hash64 ops).cache.Bounded ∧
        (s.run Hash64 ops).cache.cacheSize = s.cache.cacheSize := by
  induction ops with
  | nil => intro s _ _ _ hb; exact ⟨hb, rfl⟩
  | cons op ops ih =>
    intro s hg hi hC hb
    have hcs := apply_cacheSize Hash64 s op
    obtain ⟨r1, r2⟩ := ih _ (apply_Good Hash64 hg hi op) (apply_Inv Hash64 hi op)
      (by rw [hcs]; exact hC) (Bounded_apply Hash64 hg hi hC hb op)
    exact ⟨r1, r2.trans hcs⟩

/-! ## Lemmas on the frame of a call -/

/-- A call on the fingerprint `h` leaves the slot of every other fingerprint, in
every shard, as it was. -/
theorem effect_lookup {c c' : Cache} {h : Nat} (he : Effect c h c') (hc : c.WF) (i k : Nat)
    (hk : k ≠ h) :
    mapLookup (c'.bucket i).values k = mapLookup (c.bucket i).values k := by
  have hi := idx_lt_of_WF hc h
  cases he with
  | same => rfl
  | update v _ _ =>
    rw [lookup_store c _ h v hi]
    simp [hk]
  | insert v _ _ _ =>
    rw [lookup_store c.incSize _ h v hi]
    simp [hk]
    rfl
  | recount v _ _ _ =>
    rw [lookup_store c.incSize _ h v hi]
    simp [hk]
    rfl
  | delete _ _ =>
    rw [lookup_remove c.decSize _ h hi]
    simp [hk]
    rfl

/-! ## Lemmas on the log of the eviction handler -/

theorem tick_evicted (s : System) (now : Int) : (s.tick now).evicted = s.evicted := by
  unfold System.tick
  split_ifs <;> rfl

theorem apply_evicted (Hash64 : String → Nat) (s : System) {op : Op}
    (hop : op.isDrain = false) : (s.apply Hash64 op).evicted = s.evicted := by
  cases op with
  | tick now => exact tick_evicted s now
  | drain => simp [Op.isDrain] at hop
  | _ => rfl

theorem run_evicted (Hash64 : String → Nat) (ops : List Op) :
    ∀ s : System, (∀ op ∈ ops, op.isDrain = false) →
      (s.run Hash64 ops).evicted = s.evicted := by
  induction ops with
  | nil => intro s _; rfl
  | cons op ops ih =>
    intro s h
    show ((s.apply Hash64 op).run Hash64 ops).evicted = s.evicted
    rw [ih _ (fun o ho => h o (List.mem_cons_of_mem _ ho)),
      apply_evicted Hash64 s (h op (List.mem_cons_self _ _))]

/-! ## The bounds in the initial state -/

theorem start_Bounded {C nb D iv : Int} {oe : Bool} {c0 : Cache} (hnb : nb < 2 ^ 63)
    (hnew : New C nb D iv oe = some c0) : (System.start c0).cache.Bounded := by
  obtain ⟨_, _, hsz, _, _, _⟩ := New_spec hnb hnew
  have hg := start_Good hnb hnew
  have h0 : c0.count = 0 := by
    apply count_of_empty
    intro b hb
    rw [New_storage hnew] at hb
    rw [List.eq_of_mem_replicate hb]
  show (c0.count : Int) ≤ c0.size ∧ c0.size ≤ c0.cacheSize
  rw [h0, hsz]
  exact ⟨le_refl _, le_of_lt hg.2.1⟩

theorem length_le_count (c : Cache) {b : Bucket} (hb : b ∈ c.storage) :
    b.values.length ≤ c.count := by
  unfold Cache.count
  exact List.single_le_sum (fun _ _ => Nat.zero_le _) _
    (List.mem_map_of_mem (fun b : Bucket => b.values.length) hb)

/-! ## Lemmas on repeated drains -/

theorem setQueue_self (c : Cache) :
    c.setQueue ⟨c.evictionCh.buf, c.evictionCh.closed, c.evictionCh.bound⟩ = c := rfl

/-- Draining `n` events that all name an empty slot only takes them off the
queue. -/
theorem drains_absent (Hash64 : String → Nat) (e : evictEvent) (rest : List evictEvent)
    (n : Nat) :
    ∀ s : System, s.cache.isClosed = false → s.blocked = false →
      s.cache.evictionCh.buf = List.replicate n e ++ rest →
      mapLookup (s.cache.bucket e.bucketIdx).values e.hash = none →
      s.run Hash64 (List.replicate n .drain) =
        { s with
          cache := s.cache.setQueue
            ⟨rest, s.cache.evictionCh.closed, s.cache.evictionCh.bound⟩ } := by
  induction n with
  | zero =>
    intro s _ _ hq _
    simp only [List.replicate_zero, List.nil_append] at hq
    rw [← hq]
    rfl
  | succ n ih =>
    intro s ho hb hq hf
    have hq' : s.cache.evictionCh.buf = e :: (List.replicate n e ++ rest) := by
      rw [hq]
      rfl
    show (s.drain).run Hash64 (List.replicate n .drain) = _
    rw [drain_of_absent ho hb hq' hf]
    exact ih _ ho hb rfl hf

/-! ## Lemmas on the events of a sweep -/

theorem mapLookup_of_mem_nodup {m : List (Nat × storedValue)} (hn : (mapKeys m).Nodup)
    {h : Nat} {v : storedValue} (hm : (h, v) ∈ m) : mapLookup m h = some v := by
  induction m with
  | nil => simp at hm
  | cons p m ih =>
    obtain ⟨h', v'⟩ := p
    have hn' : h' ∉ mapKeys m ∧ (mapKeys m).Nodup := by
      simpa [mapKeys] using hn
    rcases List.mem_cons.1 hm with e | e
    · injection e with e1 e2
      subst e1 e2
      simp [mapLookup]
    · have hk : h ∈ mapKeys m := List.mem_map_of_mem Prod.fst e
      have hne : ¬ h' = h := fun x => hn'.1 (x ▸ hk)
      simp only [mapLookup, hne, if_false]
      exact ih hn'.2 e

theorem expiredEvents_eq (i : Nat) (now : Int) (m : List (Nat × storedValue)) :
    expiredEvents i now m =
      (mapKeys (m.filter (fun p => p.2.isExpired now))).map (fun h => (⟨i, h⟩ : evictEvent)) := by
  unfold expiredEvents mapKeys
  rw [List.map_map]
  rfl

theorem expiredEvents_nodup (i : Nat) (now : Int) {m : List (Nat × storedValue)}
    (hn : (mapKeys m).Nodup) : (expiredEvents i now m).Nodup := by
  rw [expiredEvents_eq]
  refine List.Nodup.map ?_ ?_
  · intro a b e
    injection e
  · unfold mapKeys at hn ⊢
    exact List.Nodup.sublist (List.Sublist.map _ (List.filter_sublist _)) hn

theorem mem_expiredEvents_iff (i : Nat) (now : Int) {m : List (Nat × storedValue)}
    (hn : (mapKeys m).Nodup) (e : evictEvent) :
    e ∈ expiredEvents i now m ↔
      e.bucketIdx = i ∧ ∃ v : storedValue, mapLookup m e.hash = some v ∧
        v.isExpired now = true := by
  constructor
  · intro he
    unfold expiredEvents at he
    obtain ⟨p, hp, rfl⟩ := List.mem_map.1 he
    obtain ⟨hp1, hp2⟩ := List.mem_filter.1 hp
    exact ⟨rfl, p.2, mapLookup_of_mem_nodup hn hp1, hp2⟩
  · rintro ⟨hi, v, hv, hx⟩
    obtain ⟨j, h⟩ := e
    simp only at hi hv
    subst hi
    exact mem_expiredEvents (mapLookup_some_mem hv) hx

theorem expiredEvents_length_le (i : Nat) (now : Int) (m : List (Nat × storedValue)) :
    (expiredEvents i now m).length ≤ m.length := by
  unfold expiredEvents
  rw [List.length_map]
  exact List.length_filter_le _ _

/-! ## Lemmas on the round-robin index -/

theorem range_shift_perm (n k : Nat) :
    ((List.range n).map (fun j => (k + j) % n)).Perm (List.range n) := by
  apply List.Subperm.perm_of_length_le
  · apply List.subperm_of_subset
    · refine List.Nodup.map_on ?_ (List.nodup_range n)
      intro a ha b hb e
      rw [List.mem_range] at ha hb
      exact Nat.ModEq.eq_of_lt_of_lt (Nat.ModEq.add_left_cancel' k e) ha hb
    · intro x hx
      obtain ⟨j, hj, rfl⟩ := List.mem_map.1 hx
      rw [List.mem_range] at hj ⊢
      exact Nat.mod_lt _ (by omega)
  · simp

theorem countTicks_cons (op : Op) (ops : List Op) :
    countTicks (op :: ops) = countTicks [op] + countTicks ops := by
  cases op <;> simp [countTicks, Nat.add_comm]

theorem apply_of_closed (Hash64 : String → Nat) {s : System}
    (hc : s.cache.isClosed = true) (op : Op) : s.apply Hash64 op = s := by
  have hg : (s.cache.isClosed || s.blocked) = true := by simp [hc]
  cases op with
  | set key value d now =>
    show { s with cache := (s.cache.Set Hash64 key value d now).1 } = s
    rw [Set_of_closed Hash64 key value d now hc]
  | add key value d now =>
    show { s with cache := (s.cache.Add Hash64 key value d now).1 } = s
    rw [Add_of_closed Hash64 key value d now hc]
  | replace key value d now =>
    show { s with cache := (s.cache.Replace Hash64 key value d now).1 } = s
    rw [Replace_of_closed Hash64 key value d now hc]
  | get key now =>
    show { s with cache := (s.cache.Get Hash64 key now).1 } = s
    rw [Get_state]
  | delete key now =>
    show { s with cache := (s.cache.Delete Hash64 key now).1 } = s
    rw [Delete_of_closed Hash64 key now hc]
  | keepAlive key d now =>
    show { s with cache := (s.cache.KeepAlive Hash64 key d now).1 } = s
    rw [KeepAlive_of_closed Hash64 key d now hc]
  | close =>
    show { s with cache := s.cache.Close } = s
    rw [Close_of_closed hc]
  | tick now => exact tick_of_guard now hg
  | drain => exact drain_of_guard hg

theorem run_of_closed (Hash64 : String → Nat) (ops : List Op) {s : System}
    (hc : s.cache.isClosed = true) : s.run Hash64 ops = s := by
  induction ops with
  | nil => rfl
  | cons op ops ih =>
    show (s.apply Hash64 op).run Hash64 ops = s
    rw [apply_of_closed Hash64 hc op]
    exact ih

theorem apply_blocked (Hash64 : String → Nat) {s : System} (hb : s.blocked = true)
    (op : Op) : (s.apply Hash64 op).blocked = true := by
  have hg : (s.cache.isClosed || s.blocked) = true := by simp [hb]
  cases op with
  | tick now =>
    show (s.tick now).blocked = true
    rw [tick_of_guard now hg]
    exact hb
  | drain =>
    show s.drain.blocked = true
    rw [drain_of_guard hg]
    exact hb
  | _ => exact hb

theorem run_blocked (Hash64 : String → Nat) (ops : List Op) :
    ∀ s : System, s.blocked = true → (s.run Hash64 ops).blocked = true := by
  induction ops with
  | nil => intro s hb; exact hb
  | cons op ops ih =>
    intro s hb
    exact ih _ (apply_blocked Hash64 hb op)

theorem apply_length (Hash64 : String → Nat) (s : System) (op : Op) :
    (s.apply Hash64 op).cache.storage.length = s.cache.storage.length := by
  cases op with
  | set key value d now =>
    exact (effect_frame (Set_effect Hash64 s.cache key value d now)).2.2.2.2.2.2
  | add key value d now =>
    exact (effect_frame (Add_effect Hash64 s.cache key value d now)).2.2.2.2.2.2
  | replace key value d now =>
    exact (effect_frame (Replace_effect Hash64 s.cache key value d now)).2.2.2.2.2.2
  | get key now =>
    show (s.cache.Get Hash64 key now).1.storage.length = s.cache.storage.length
    rw [Get_state]
  | delete key now =>
    exact (effect_frame (Delete_effect Hash64 s.cache key now)).2.2.2.2.2.2
  | keepAlive key d now =>
    exact (effect_frame (KeepAlive_effect Hash64 s.cache key d now)).2.2.2.2.2.2
  | close => exact (Close_frame s.cache).2.2.2.2.2
  | tick now =>
    show (s.tick now).cache.storage.length = s.cache.storage.length
    rw [tick_cache]
    rfl
  | drain =>
    show s.drain.cache.storage.length = s.cache.storage.length
    rcases drain_cases s with e | ⟨e, rest, _, _, _, _, h⟩ | ⟨e, rest, item, _, _, _, _, h⟩
    · rw [e]
    · rw [h]; rfl
    · rw [h]
      simp [Cache.remove, Cache.decSize, Cache.setQueue]

/-- A step that leaves the worker running advances the index by one when it is
a sweep tick and keeps it otherwise. -/
theorem apply_bucketIdx (Hash64 : String → Nat) {s : System} (hg : s.Good) (op : Op)
    (ho : (s.apply Hash64 op).cache.isClosed = false)
    (hb : (s.apply Hash64 op).blocked = false) :
    (s.apply Hash64 op).bucketIdx =
      (s.bucketIdx + countTicks [op]) % s.cache.storage.length := by
  have hlt := hg.2.2.2.1
  have hsame : s.bucketIdx = (s.bucketIdx + 0) % s.cache.storage.length := by
    rw [Nat.add_zero, Nat.mod_eq_of_lt hlt]
  cases op with
  | tick now =>
    have ho' : s.cache.isClosed = false := by
      cases h : s.cache.isClosed with
      | false => rfl
      | true => rw [apply_of_closed Hash64 h, h] at ho; exact ho
    have hb' : s.blocked = false := by
      cases h : s.blocked with
      | false => rfl
      | true => rw [apply_blocked Hash64 h] at hb; exact hb
    rcases tick_of_open now ho' hb' with ⟨_, h⟩ | ⟨_, h⟩
    · have : (s.apply Hash64 (.tick now)).blocked = true := by
        show (s.tick now).blocked = true
        rw [h]
      rw [this] at hb
      cases hb
    · show (s.tick now).bucketIdx = (s.bucketIdx + 1) % s.cache.storage.length
      rw [h]
      exact next_index hg.1 hlt
  | drain =>
    show s.drain.bucketIdx = _
    rcases drain_cases s with e | ⟨e, rest, _, _, _, _, h⟩ | ⟨e, rest, item, _, _, _, _, h⟩
    · rw [e]; exact hsame
    · rw [h]; exact hsame
    · rw [h]; exact hsame
  | _ => exact hsame

/-- While the worker runs, its index is the number of sweep ticks so far,
modulo the number of shards. -/
theorem run_bucketIdx (Hash64 : String → Nat) (ops : List Op) :
    ∀ s : System, s.Good → s.cache.Inv → (s.run Hash64 ops).cache.isClosed = false →
      (s.run Hash64 ops).blocked = false →
      (s.run Hash64 ops).bucketIdx = (s.bucketIdx + countTicks ops) % s.cache.storage.length ∧
        (s.run Hash64 ops).cache.storage.length = s.cache.storage.length := by
  induction ops with
  | nil =>
    intro s hg _ _ _
    exact ⟨by
      show s.bucketIdx = (s.bucketIdx + 0) % s.cache.storage.length
      rw [Nat.add_zero, Nat.mod_eq_of_lt hg.2.2.2.1], rfl⟩
  | cons op ops ih =>
    intro s hg hi ho hb
    have ho1 : (s.apply Hash64 op).cache.isClosed = false := by
      cases h : (s.apply Hash64 op).cache.isClosed with
      | false => rfl
      | true =>
        have : (s.run Hash64 (op :: ops)) = s.apply Hash64 op := run_of_closed Hash64 ops h
        rw [this, h] at ho
        exact ho
    have hb1 : (s.apply Hash64 op).blocked = false := by
      cases h : (s.apply Hash64 op).blocked with
      | false => rfl
      | true =>
        have : (s.run Hash64 (op :: ops)).blocked = true := run_blocked Hash64 ops _ h
        rw [this] at hb
        exact hb
    obtain ⟨i1, i2⟩ := ih (s.apply Hash64 op) (apply_Good Hash64 hg hi op)
      (apply_Inv Hash64 hi op) ho hb
    have i1' : (s.run Hash64 (op :: ops)).bucketIdx =
      ((s.apply Hash64 op).bucketIdx + countTicks ops) %
        (s.apply Hash64 op).cache.storage.length := i1
    have i2' : (s.run Hash64 (op :: ops)).cache.storage.length =
      (s.apply Hash64 op).cache.storage.length := i2
    refine ⟨?_, ?_⟩
    · rw [i1', apply_length, apply_bucketIdx Hash64 hg op ho1 hb1, Nat.mod_add_mod,
        Nat.add_assoc, ← countTicks_cons]
    · rw [i2', apply_length]

/-! ## Claims -/

/-- C1: Set/Get round trip. On a well-formed cache, if `Set(k, v, d)` at `t0`
returns no error, then `Get(k)` at every time `t` (so at every `t ≥ t0`) with
`e = 0` or `t ≤ e`, where `e` is the expiration resolved at `t0`, returns
`(v, nil)` and
leaves the cache as it is, so that repeating the `Get` returns the same; the
same holds in every open state that still has the slot of `k` as `Set` left
it. -/
theorem C1_set_get_round_trip (Hash64 : String → Nat) (c : Cache) (hc : c.WF)
    (k : String) (v : Option Session) (d t0 : Int)
    (hset : (c.Set Hash64 k v d t0).2.2 = none)
    (t t' : Int)
    (he : c.getExpiration d t0 = 0 ∨ t ≤ c.getExpiration d t0)
    (he' : c.getExpiration d t0 = 0 ∨ t' ≤ c.getExpiration d t0) :
    (c.Set Hash64 k v d t0).1.Get Hash64 k t = ((c.Set Hash64 k v d t0).1, v, none) ∧
    ((c.Set Hash64 k v d t0).1.Get Hash64 k t).1.Get Hash64 k t' =
      ((c.Set Hash64 k v d t0).1, v, none) ∧
    ∀ c2 : Cache, c2.isClosed = false →
      c2.find (fingerprint Hash64 k) = (c.Set Hash64 k v d t0).1.find (fingerprint Hash64 k) →
      c2.Get Hash64 k t = (c2, v, none) ∧ (c2.Get Hash64 k t).1.Get Hash64 k t' = (c2, v, none) := by
  obtain ⟨_, ho1, _, hf1⟩ := Set_ok hc hset
  have gen : ∀ c2 : Cache, c2.isClosed = false →
      c2.find (fingerprint Hash64 k) = (c.Set Hash64 k v d t0).1.find (fingerprint Hash64 k) →
      ∀ s : Int, (c.getExpiration d t0 = 0 ∨ s ≤ c.getExpiration d t0) →
      c2.Get Hash64 k s = (c2, v, none) := by
    intro c2 ho2 hf2 s hs
    rw [hf1] at hf2
    have hs' : (storedValue.mk v (c.getExpiration d t0)).expiration ≤ 0 ∨
        s ≤ (storedValue.mk v (c.getExpiration d t0)).expiration := by
      rcases hs with h | h
      · exact Or.inl (le_of_eq h)
      · exact Or.inr h
    have := @Get_of_find Hash64 c2 k s _ ho2 hf2 hs'
    simpa using this
  have g1 := gen _ ho1 rfl t he
  refine ⟨g1, ?_, ?_⟩
  · rw [g1]
    exact gen _ ho1 rfl t' he'
  · intro c2 ho2 hf2
    have g2 := gen c2 ho2 hf2 t he
    refine ⟨g2, ?_⟩
    rw [g2]
    exact gen c2 ho2 hf2 t' he'

theorem C1_set_get_round_trip_witness :
    smallCache.WF ∧ (smallCache.Set String.length "a" (some 7) 5 100).2.2 = none ∧
    (smallCache.Set String.length "a" (some 7) 5 100).1.Get String.length "a" 105 =
      ((smallCache.Set String.length "a" (some 7) 5 100).1, some 7, none) :=
  ⟨by decide, by decide,
    (C1_set_get_round_trip String.length smallCache (by decide) "a" (some 7) 5 100 (by decide)
      105 101 (by decide) (by decide)).1⟩

/-- C2: Add/Get round trip. On a well-formed cache, after
`Add(k, v, NoExpiration)` returns no error the slot of `k` holds `v` with
expiration 0, and `Get(k)` returns `(v, nil)` at every time, on the resulting
state and on every open state that still has the slot of `k` as `Add` left
it: the entry never expires. -/
theorem C2_add_get_round_trip (Hash64 : String → Nat) (c : Cache) (hc : c.WF)
    (k : String) (v : Option Session) (t0 : Int)
    (hadd : (c.Add Hash64 k v NoExpiration t0).2 = none) :
    (c.Add Hash64 k v NoExpiration t0).1.find (fingerprint Hash64 k) = some ⟨v, 0⟩ ∧
    (∀ t : Int, (c.Add Hash64 k v NoExpiration t0).1.Get Hash64 k t =
      ((c.Add Hash64 k v NoExpiration t0).1, v, none)) ∧
    ∀ c2 : Cache, c2.isClosed = false →
      c2.find (fingerprint Hash64 k) =
        (c.Add Hash64 k v NoExpiration t0).1.find (fingerprint Hash64 k) →
      ∀ t : Int, c2.Get Hash64 k t = (c2, v, none) := by
  obtain ⟨_, _, ho1, _, hf1⟩ := Add_ok hc hadd
  rw [getExpiration_NoExpiration] at hf1
  have gen : ∀ c2 : Cache, c2.isClosed = false →
      c2.find (fingerprint Hash64 k) =
        (c.Add Hash64 k v NoExpiration t0).1.find (fingerprint Hash64 k) →
      ∀ t : Int, c2.Get Hash64 k t = (c2, v, none) := by
    intro c2 ho2 hf2 t
    rw [hf1] at hf2
    have := @Get_of_find Hash64 c2 k t _ ho2 hf2 (Or.inl (le_refl _))
    simpa using this
  exact ⟨hf1, gen _ ho1 rfl, gen⟩

theorem C2_add_get_round_trip_witness :
    smallCache.WF ∧ (smallCache.Add String.length "a" (some 7) NoExpiration 100).2 = none ∧
    (smallCache.Add String.length "a" (some 7) NoExpiration 100).1.Get String.length "a"
        1000000000000 =
      ((smallCache.Add String.length "a" (some 7) NoExpiration 100).1, some 7, none) :=
  ⟨by decide, by decide,
    (C2_add_get_round_trip String.length smallCache (by decide) "a" (some 7) 100
      (by decide)).2.1 1000000000000⟩

/-- C3, as stated, fails. A `Set` with the duration `2^63 - 1` (the largest
`time.Duration`) at the clock reading `1700000000000000000` stores the wrapped
expiration `-7523372036854775809`; a `Get` one nanosecond later returns the
value although the stored `e` is neither 0 nor at least `now`. A `Set` with
TTL 5 at the clock reading -10 stores the expiration -5, and `Get` at -3, later
than `t0 + t`, returns the value as well. -/
theorem C3_counterexample :
    ((smallCache.Set String.length "k" (some 7) (2 ^ 63 - 1) 1700000000000000000).2.2 = none ∧
      (smallCache.Set String.length "k" (some 7) (2 ^ 63 - 1) 1700000000000000000).1.find
          (fingerprint String.length "k") = some ⟨some 7, -7523372036854775809⟩ ∧
      ((smallCache.Set String.length "k" (some 7) (2 ^ 63 - 1) 1700000000000000000).1.Get
          String.length "k" 1700000000000000001).2 = (some 7, none) ∧
      ¬ ((-7523372036854775809 : Int) = 0 ∨
        (1700000000000000001 : Int) ≤ -7523372036854775809)) ∧
    ((smallCache.Set String.length "k" (some 7) 5 (-10)).2.2 = none ∧
      (smallCache.Set String.length "k" (some 7) 5 (-10)).1.find
          (fingerprint String.length "k") = some ⟨some 7, -5⟩ ∧
      (-10 : Int) + 5 < -3 ∧
      ((smallCache.Set String.length "k" (some 7) 5 (-10)).1.Get
          String.length "k" (-3)).2 = (some 7, none)) := by
  decide

/-- C3, amended. On an open cache `Get(k)` at `now` returns `(v, nil)` if and
only if the slot of `k` holds an entry `(v, e)` with `e ≤ 0` or `now ≤ e`; when
the slot is empty, or `e > 0` and `now > e`, it returns `(nil, NotFoundError)`;
the cache is left as it is. Hence a key set at a clock reading `t0 ≥ 0` with a
TTL `t > 0` is returned by `Get` at every `now ≤ t0 + t`, and `Get` yields
`NotFoundError` at every `int64` clock reading `now > t0 + t`, whether the
entry is still stored or has been swept. -/
theorem C3_lazy_expiration (Hash64 : String → Nat) (c : Cache) (ho : c.isClosed = false)
    (k : String) (now : Int) :
    (∀ v : Option Session, (c.Get Hash64 k now).2 = (v, none) ↔
      ∃ e : Int, c.find (fingerprint Hash64 k) = some ⟨v, e⟩ ∧ (e ≤ 0 ∨ now ≤ e)) ∧
    ((c.find (fingerprint Hash64 k) = none ∨
        ∃ (v : Option Session) (e : Int),
          c.find (fingerprint Hash64 k) = some ⟨v, e⟩ ∧ 0 < e ∧ e < now) →
      (c.Get Hash64 k now).2 = (none, some .NotFoundError)) ∧
    (c.Get Hash64 k now).1 = c ∧
    ∀ (v : Option Session) (ttl t0 : Int), c.WF → 0 < ttl → ttl < 2 ^ 63 → 0 ≤ t0 → t0 < 2 ^ 63 →
      (c.Set Hash64 k v ttl t0).2.2 = none →
      ∀ c2 : Cache, c2.isClosed = false →
        (c2.find (fingerprint Hash64 k) =
            (c.Set Hash64 k v ttl t0).1.find (fingerprint Hash64 k) →
          now ≤ t0 + ttl → (c2.Get Hash64 k now).2 = (v, none)) ∧
        (c2.find (fingerprint Hash64 k) =
              (c.Set Hash64 k v ttl t0).1.find (fingerprint Hash64 k) ∨
            c2.find (fingerprint Hash64 k) = none →
          t0 + ttl < now → now < 2 ^ 63 →
          (c2.Get Hash64 k now).2 = (none, some .NotFoundError)) := by
  refine ⟨?_, ?_, ?_, ?_⟩
  · intro v
    cases hf : c.find (fingerprint Hash64 k) with
    | none =>
      rw [Get_of_find_none ho hf]
      simp
    | some item =>
      obtain ⟨obj, e⟩ := item
      cases hx : storedValue.isExpired ⟨obj, e⟩ now with
      | true =>
        have hx' := (isExpired_eq_true_iff _ _).1 hx
        rw [Get_of_find_expired ho hf hx']
        simp only [Prod.mk.injEq, Option.some.injEq, storedValue.mk.injEq]
        constructor
        · intro h
          exact absurd h.2 (by simp)
        · rintro ⟨e', ⟨_, rfl⟩, h⟩
          simp only at hx'
          omega
      | false =>
        have hx' := (isExpired_eq_false_iff _ _).1 hx
        rw [Get_of_find ho hf hx']
        simp only [Prod.mk.injEq, Option.some.injEq, storedValue.mk.injEq, and_true]
        constructor
        · intro h
          exact ⟨e, ⟨h, rfl⟩, hx'⟩
        · rintro ⟨e', ⟨h, _⟩, _⟩
          exact h
  · rintro (hf | ⟨v, e, hf, h1, h2⟩)
    · rw [Get_of_find_none ho hf]
    · rw [Get_of_find_expired ho hf ⟨h1, h2⟩]
  · cases hf : c.find (fingerprint Hash64 k) with
    | none => rw [Get_of_find_none ho hf]
    | some item =>
      cases hx : item.isExpired now with
      | true => rw [Get_of_find_expired ho hf ((isExpired_eq_true_iff _ _).1 hx)]
      | false => rw [Get_of_find ho hf ((isExpired_eq_false_iff _ _).1 hx)]
  · intro v ttl t0 hc hpos hlt h0 h1 hset c2 ho2
    obtain ⟨_, _, _, hf1⟩ := Set_ok hc hset
    rw [getExpiration_of_pos hpos] at hf1
    rw [hf1]
    constructor
    · intro hf2 hle
      have hexp : wrapInt64 (t0 + ttl) ≤ 0 ∨ now ≤ wrapInt64 (t0 + ttl) := by
        by_cases hov : t0 + ttl < 2 ^ 63
        · rw [wrapInt64_of_isInt64 ⟨by omega, hov⟩]
          exact Or.inr hle
        · rw [wrapInt64_add_neg ⟨by omega, h1⟩ ⟨by omega, hlt⟩ (by omega)]
          exact Or.inl (by omega)
      rw [Get_of_find ho2 hf2 hexp]
    · intro hf2 hlt' hnow
      rcases hf2 with hf2 | hf2
      · have hexp : 0 < wrapInt64 (t0 + ttl) ∧ wrapInt64 (t0 + ttl) < now := by
          rw [wrapInt64_of_isInt64 ⟨by omega, by omega⟩]
          exact ⟨by omega, hlt'⟩
        rw [Get_of_find_expired ho2 hf2 hexp]
      · rw [Get_of_find_none ho2 hf2]

theorem C3_lazy_expiration_witness :
    smallCache.isClosed = false ∧
    (((smallCache.Set String.length "a" (some 7) 5 100).1.Get String.length "a" 105).2 =
        (some 7, none) ↔
      ∃ e : Int, (smallCache.Set String.length "a" (some 7) 5 100).1.find
          (fingerprint String.length "a") = some ⟨some 7, e⟩ ∧ (e ≤ 0 ∨ 105 ≤ e)) ∧
    ((smallCache.Set String.length "a" (some 7) 5 100).1.Get String.length "a" 106).2 =
      (none, some .NotFoundError) :=
  ⟨by decide,
    (C3_lazy_expiration String.length (smallCache.Set String.length "a" (some 7) 5 100).1
      (by decide) "a" 105).1 (some 7),
    ((C3_lazy_expiration String.length smallCache (by decide) "a" 106).2.2.2 (some 7) 5 100
      (by decide) (by decide) (by decide) (by decide) (by decide) (by decide)
      (smallCache.Set String.length "a" (some 7) 5 100).1 (by decide)).2 (Or.inl rfl)
      (by decide) (by decide)⟩

/-- C4, as stated, fails for a capacity beyond `int32`. The cache
`New 2147483648 1 60 1 false` has capacity `2^31`; inserting `2^31` keys with
pairwise distinct fingerprints with `Set` leaves `Size()` at `-2^31`, not at
`2^31`: the 32-bit counter has wrapped and never meets the capacity. -/
theorem C4_counterexample :
    New 2147483648 1 60 1 false = some wideCache ∧
    ((fillOps 2147483648).length : Int) = wideCache.cacheSize ∧
    ((fillOps 2147483648).map (fun op => fingerprint String.length op.key)).Nodup ∧
    (wideCache.insertAll String.length (fillOps 2147483648)).1.Size = -2147483648 := by
  refine ⟨by decide, ?_, ?_, ?_⟩
  · rw [fillOps_length]
    rfl
  · rw [fillOps_fingerprints _ (by norm_num)]
    exact List.nodup_range _
  · have e : fillOps 2147483648 =
        fillOps 2147483647 ++ [⟨false, fillKey 2147483647, none, NoExpiration, 0⟩] :=
      fillOps_succ 2147483647
    have hfp : (fillOps 2147483647).map (fun op => fingerprint String.length op.key) =
        List.range 2147483647 := fillOps_fingerprints _ (by norm_num)
    obtain ⟨_, r2, r3, r4, r5, r6⟩ := insertAll_fill String.length (fillOps 2147483647)
      wideCache 0 (by decide) (by decide) rfl
      (by rw [fillOps_length]; decide) (by rw [fillOps_length]; decide)
      (by rw [hfp]; exact List.nodup_range _) (fun op _ => wideCache_find _)
    rw [fillOps_length] at r4
    have hlast : fingerprint String.length (fillKey 2147483647) = 2147483647 :=
      fillKey_fingerprint _ (by norm_num)
    have hf : (wideCache.insertAll String.length (fillOps 2147483647)).1.find
        (fingerprint String.length (fillKey 2147483647)) = none := by
      rw [r6, wideCache_find]
      rw [hfp, hlast, List.mem_range]
      exact lt_irrefl _
    have hcs : (wideCache.insertAll String.length (fillOps 2147483647)).1.cacheSize =
        2147483648 := r5
    rw [e, insertAll_append, insertAll_singleton]
    generalize (wideCache.insertAll String.length (fillOps 2147483647)).1 = c1 at r3 r4 hf hcs ⊢
    have hs : c1.cacheSize ≠ c1.size := by
      rw [hcs, r4]
      decide
    rw [@insert_of_absent String.length c1
      ⟨false, fillKey 2147483647, none, NoExpiration, 0⟩ r3 hf hs]
    rw [Size_store_incSize, r3, r4]
    decide

/-- C4, amended. From a cache freshly built by `New` with capacity `C`,
`1 ≤ C ≤ 2^31 - 1`, inserting any `C` keys with pairwise distinct fingerprints
one at a time with `Set` or `Add` succeeds every time and `Size()` is `i` after
the `i`-th insertion; the keys outside that list are absent; then `Set` or
`Add` of any key whose fingerprint is absent fails with `MaxSizeExceed` and
leaves the whole state, hence `Size() = C` and every shard map, unchanged, and
`Get` of that key returns `NotFoundError`. -/
theorem C4_capacity (Hash64 : String → Nat) (C nb D iv : Int) (oe : Bool) (c0 : Cache)
    (hnb : nb < 2 ^ 63) (hnew : New C nb D iv oe = some c0)
    (hC1 : 1 ≤ C) (hC2 : C ≤ 2 ^ 31 - 1)
    (ops : List Insertion) (hlen : (ops.length : Int) = C)
    (hdist : (ops.map (fun op => fingerprint Hash64 op.key)).Nodup) :
    (c0.insertAll Hash64 ops).2 =
      (List.range ops.length).map (fun i : Nat => (none, (i : Int) + 1)) ∧
    (c0.insertAll Hash64 ops).1.Size = C ∧
    (∀ h : Nat, h ∉ ops.map (fun op => fingerprint Hash64 op.key) →
      (c0.insertAll Hash64 ops).1.find h = none) ∧
    ∀ extra : Insertion,
      (c0.insertAll Hash64 ops).1.find (fingerprint Hash64 extra.key) = none →
      (c0.insertAll Hash64 ops).1.insert Hash64 extra =
          ((c0.insertAll Hash64 ops).1, some .MaxSizeExceed) ∧
        ((c0.insertAll Hash64 ops).1.insert Hash64 extra).1.Size = C ∧
        ∀ now : Int, ((c0.insertAll Hash64 ops).1.insert Hash64 extra).1.Get Hash64 extra.key now =
          ((c0.insertAll Hash64 ops).1, none, some .NotFoundError) := by
  obtain ⟨hWF, ho, hsz, hcs, _, hemp⟩ := New_spec hnb hnew
  have hcs' : c0.cacheSize = C := by
    rw [hcs]
    have : ¬ C ≤ 0 := by omega
    simp [this]
  obtain ⟨r1, _, r3, r4, r5, r6⟩ := insertAll_fill Hash64 ops c0 0 hWF ho (by simpa using hsz)
    (by rw [hcs', hlen]; simp) (by rw [hlen]; simpa using hC2) hdist (fun op _ => hemp _)
  have hsize : (c0.insertAll Hash64 ops).1.Size = C := by
    rw [Size_of_open r3, r4, hlen]
    simp
  refine ⟨?_, hsize, ?_, ?_⟩
  · rw [r1]
    apply List.map_congr_left
    intro i _
    simp
  · intro h hmem
    rw [r6 h hmem, hemp]
  · intro extra hf
    have hfull : (c0.insertAll Hash64 ops).1.cacheSize = (c0.insertAll Hash64 ops).1.size := by
      rw [r5, hcs', r4, hlen]
      simp
    have hins := insert_of_full extra r3 hf hfull
    refine ⟨hins, ?_, ?_⟩
    · rw [hins]
      exact hsize
    · intro now
      rw [hins]
      exact Get_of_find_none r3 hf

theorem C4_capacity_witness :
    (1 : Int) < 2 ^ 63 ∧ New 2 1 60 1 false = some smallCache ∧
    (smallCache.insertAll String.length
        [⟨false, "a", some 7, 5, 100⟩, ⟨true, "bb", some 8, NoExpiration, 101⟩]).2 =
      [(none, 1), (none, 2)] ∧
    (smallCache.insertAll String.length
        [⟨false, "a", some 7, 5, 100⟩, ⟨true, "bb", some 8, NoExpiration, 101⟩]).1.insert
        String.length ⟨false, "ccc", some 9, 5, 102⟩ =
      ((smallCache.insertAll String.length
        [⟨false, "a", some 7, 5, 100⟩, ⟨true, "bb", some 8, NoExpiration, 101⟩]).1,
        some .MaxSizeExceed) :=
  ⟨by decide, by decide,
    (C4_capacity String.length 2 1 60 1 false smallCache (by decide) (by decide) (by decide)
      (by decide) [⟨false, "a", some 7, 5, 100⟩, ⟨true, "bb", some 8, NoExpiration, 101⟩]
      (by decide) (by decide)).1,
    ((C4_capacity String.length 2 1 60 1 false smallCache (by decide) (by decide) (by decide)
      (by decide) [⟨false, "a", some 7, 5, 100⟩, ⟨true, "bb", some 8, NoExpiration, 101⟩]
      (by decide) (by decide)).2.2.2 ⟨false, "ccc", some 9, 5, 102⟩ (by decide)).1⟩

/-- C5: Set on an existing unexpired key is an update. On every open
well-formed cache, whatever its size counter (so also at capacity), if the slot
of `k` holds `(old, e)` and the entry has not expired at `now`, then
`Set(k, v, d)` returns `(old, nil)`, so never `MaxSizeExceed`, leaves the size
counter unchanged and stores `(v, getExpiration d now)`; a following `Get(k)`
returns `v` at every clock reading at which that expiration has not passed, in
particular at the clock reading of the `Set` itself. -/
theorem C5_set_update (Hash64 : String → Nat) (c : Cache) (hc : c.WF)
    (ho : c.isClosed = false) (k : String) (v : Option Session) (d now : Int)
    (old : Option Session) (e : Int)
    (hf : c.find (fingerprint Hash64 k) = some ⟨old, e⟩)
    (hlive : (storedValue.mk old e).isExpired now = false) :
    (c.Set Hash64 k v d now).2 = (old, none) ∧
    (c.Set Hash64 k v d now).2.2 ≠ some .MaxSizeExceed ∧
    (c.Set Hash64 k v d now).1.size = c.size ∧
    (c.Set Hash64 k v d now).1.find (fingerprint Hash64 k) = some ⟨v, c.getExpiration d now⟩ ∧
    (∀ t : Int, (c.getExpiration d now ≤ 0 ∨ t ≤ c.getExpiration d now) →
      (c.Set Hash64 k v d now).1.Get Hash64 k t = ((c.Set Hash64 k v d now).1, v, none)) ∧
    (isInt64 now → isInt64 d → isInt64 c.defaultExpiration →
      (c.Set Hash64 k v d now).1.Get Hash64 k now = ((c.Set Hash64 k v d now).1, v, none)) := by
  rw [Set_of_find v d now ho hf]
  have hget : ∀ t : Int, (c.getExpiration d now ≤ 0 ∨ t ≤ c.getExpiration d now) →
      (c.store (fingerprint Hash64 k % toUint64 c.numBuckets) (fingerprint Hash64 k)
        ⟨v, c.getExpiration d now⟩).Get Hash64 k t =
      (c.store (fingerprint Hash64 k % toUint64 c.numBuckets) (fingerprint Hash64 k)
        ⟨v, c.getExpiration d now⟩, v, none) :=
    fun t ht => Get_store hc ho k v _ t ht
  refine ⟨?_, ?_, rfl, ?_, hget, ?_⟩
  · simp [hlive]
  · simp
  · simp only [find_store hc, if_true]
  · intro h1 h2 h3
    exact hget now (getExpiration_live c d now h1 h2 h3)

theorem C5_set_update_witness :
    fullCache.cacheSize = fullCache.size ∧
    (fullCache.Set String.length "a" (some 9) 50 103).2 = (some 7, none) :=
  ⟨by decide,
    (C5_set_update String.length fullCache (by decide) (by decide) "a" (some 9) 50 103
      (some 7) 105 (by decide) (by decide)).1⟩

/-- C6: Set on a present but expired key. On every open well-formed cache,
whatever its size counter (so also at capacity), if the slot of `k` holds an
entry that is expired at `now`, then `Set(k, v, d)` returns `(nil, nil)`,
leaves the size counter unchanged and overwrites the slot with
`(v, getExpiration d now)`. -/
theorem C6_set_over_expired (Hash64 : String → Nat) (c : Cache) (hc : c.WF)
    (ho : c.isClosed = false) (k : String) (v : Option Session) (d now : Int)
    (item : storedValue)
    (hf : c.find (fingerprint Hash64 k) = some item)
    (hexp : item.isExpired now = true) :
    (c.Set Hash64 k v d now).2 = (none, none) ∧
    (c.Set Hash64 k v d now).1.size = c.size ∧
    (c.Set Hash64 k v d now).1.find (fingerprint Hash64 k) = some ⟨v, c.getExpiration d now⟩ := by
  rw [Set_of_find v d now ho hf]
  refine ⟨?_, rfl, ?_⟩
  · simp [hexp]
  · simp only [find_store hc, if_true]

theorem C6_set_over_expired_witness :
    fullCache.cacheSize = fullCache.size ∧
    (fullCache.Set String.length "a" (some 9) 50 200).2 = (none, none) :=
  ⟨by decide,
    (C6_set_over_expired String.length fullCache (by decide) (by decide) "a" (some 9) 50 200
      ⟨some 7, 105⟩ (by decide) (by decide)).1⟩

/-- C7, as stated, fails on a cache at capacity. In `fullCache` the key "a"
holds an entry that has not expired at clock reading 103, and `Add` of "a"
fails with `MaxSizeExceed`, not with the error "item 'a' already exists". -/
theorem C7_counterexample :
    fullCache.isClosed = false ∧
    fullCache.find (fingerprint String.length "a") = some ⟨some 7, 105⟩ ∧
    (storedValue.mk (some 7) 105).isExpired 103 = false ∧
    (fullCache.Add String.length "a" (some 9) 50 103).2 = some .MaxSizeExceed ∧
    (fullCache.Add String.length "a" (some 9) 50 103).2 ≠
      some (.errorsNew ("item '" ++ "a" ++ "' already exists")) := by
  decide

/-- C7, amended. On every open cache in which the slot of `k` holds an entry
that has not expired, `Add(k, v, d)` fails and leaves the whole state, hence
the size counter and the stored entry, unchanged; the error is the one with
the message "item '" + k + "' already exists" when the size counter differs
from the capacity, and `MaxSizeExceed` when it equals the capacity. -/
theorem C7_add_rejects_duplicate (Hash64 : String → Nat) (c : Cache)
    (ho : c.isClosed = false) (k : String) (v : Option Session) (d now : Int)
    (item : storedValue)
    (hf : c.find (fingerprint Hash64 k) = some item)
    (hlive : item.isExpired now = false) :
    (c.Add Hash64 k v d now).1 = c ∧
    (c.Add Hash64 k v d now).1.size = c.size ∧
    (c.Add Hash64 k v d now).1.find (fingerprint Hash64 k) = some item ∧
    (c.cacheSize ≠ c.size →
      ∃ err : Error, (c.Add Hash64 k v d now).2 = some err ∧
        err.message = "item '" ++ k ++ "' already exists") ∧
    (c.cacheSize = c.size → (c.Add Hash64 k v d now).2 = some .MaxSizeExceed) := by
  by_cases hs : c.cacheSize = c.size
  · rw [Add_of_full k v d now ho hs]
    exact ⟨rfl, rfl, hf, fun h => absurd hs h, fun _ => rfl⟩
  · rw [Add_of_find_live v d ho hs hf hlive]
    exact ⟨rfl, rfl, hf, fun _ => ⟨_, rfl, rfl⟩, fun h => absurd h hs⟩

theorem C7_add_rejects_duplicate_witness :
    halfCache.isClosed = false ∧
    halfCache.find (fingerprint String.length "a") = some ⟨some 7, 105⟩ ∧
    (storedValue.mk (some 7) 105).isExpired 103 = false ∧
    (halfCache.cacheSize ≠ halfCache.size →
      ∃ err : Error, (halfCache.Add String.length "a" (some 9) 50 103).2 = some err ∧
        err.message = "item '" ++ "a" ++ "' already exists") :=
  ⟨by decide, by decide, by decide,
    (C7_add_rejects_duplicate String.length halfCache (by decide) "a" (some 9) 50 103
      ⟨some 7, 105⟩ (by decide) (by decide)).2.2.2.1⟩

/-- C8, as stated, fails on a cache at capacity. In `fullCache` the entry of
"a" is expired at clock reading 200, and `Add` of "a" fails with
`MaxSizeExceed`, changes nothing, and a following `Get` of "a" returns
`NotFoundError`. -/
theorem C8_counterexample :
    fullCache.isClosed = false ∧
    fullCache.find (fingerprint String.length "a") = some ⟨some 7, 105⟩ ∧
    (storedValue.mk (some 7) 105).isExpired 200 = true ∧
    fullCache.Add String.length "a" (some 9) 50 200 = (fullCache, some .MaxSizeExceed) ∧
    ((fullCache.Add String.length "a" (some 9) 50 200).1.Get String.length "a" 200).2 =
      (none, some .NotFoundError) := by
  decide

/-- C8, amended. On every open well-formed cache whose size counter differs
from the capacity, if the slot of `k` holds an entry that is expired at `now`,
then `Add(k, v, d)` returns nil and overwrites the slot with
`(v, getExpiration d now)`, so that a following `Get(k)` returns `v` at every
clock reading at which that expiration has not passed, in particular at the
clock reading of the `Add` itself; when the size counter equals the capacity
the `Add` fails with `MaxSizeExceed` and changes nothing. -/
theorem C8_add_over_expired (Hash64 : String → Nat) (c : Cache) (hc : c.WF)
    (ho : c.isClosed = false) (k : String) (v : Option Session) (d now : Int)
    (item : storedValue)
    (hf : c.find (fingerprint Hash64 k) = some item)
    (hexp : item.isExpired now = true) :
    (c.cacheSize ≠ c.size →
      (c.Add Hash64 k v d now).2 = none ∧
      (c.Add Hash64 k v d now).1.find (fingerprint Hash64 k) =
        some ⟨v, c.getExpiration d now⟩ ∧
      (∀ t : Int, (c.getExpiration d now ≤ 0 ∨ t ≤ c.getExpiration d now) →
        (c.Add Hash64 k v d now).1.Get Hash64 k t = ((c.Add Hash64 k v d now).1, v, none)) ∧
      (isInt64 now → isInt64 d → isInt64 c.defaultExpiration →
        (c.Add Hash64 k v d now).1.Get Hash64 k now = ((c.Add Hash64 k v d now).1, v, none))) ∧
    (c.cacheSize = c.size → c.Add Hash64 k v d now = (c, some .MaxSizeExceed)) := by
  refine ⟨?_, fun hs => Add_of_full k v d now ho hs⟩
  intro hs
  rw [Add_of_find_expired v d ho hs hf hexp]
  have hc' : c.incSize.WF := incSize_WF hc
  have ho' : c.incSize.isClosed = false := ho
  have hget : ∀ t : Int, (c.getExpiration d now ≤ 0 ∨ t ≤ c.getExpiration d now) →
      (c.incSize.store (fingerprint Hash64 k % toUint64 c.numBuckets) (fingerprint Hash64 k)
        ⟨v, c.getExpiration d now⟩).Get Hash64 k t =
      (c.incSize.store (fingerprint Hash64 k % toUint64 c.numBuckets) (fingerprint Hash64 k)
        ⟨v, c.getExpiration d now⟩, v, none) :=
    fun t ht => Get_store hc' ho' k v _ t ht
  refine ⟨rfl, ?_, hget, ?_⟩
  · have := find_store hc' (fingerprint Hash64 k) (fingerprint Hash64 k)
      ⟨v, c.getExpiration d now⟩
    simpa using this
  · intro h1 h2 h3
    exact hget now (getExpiration_live c d now h1 h2 h3)

theorem C8_add_over_expired_witness :
    halfCache.WF ∧ halfCache.isClosed = false ∧
    halfCache.find (fingerprint String.length "a") = some ⟨some 7, 105⟩ ∧
    (storedValue.mk (some 7) 105).isExpired 200 = true ∧
    halfCache.cacheSize ≠ halfCache.size ∧
    (halfCache.Add String.length "a" (some 9) 50 200).2 = none ∧
    (halfCache.Add String.length "a" (some 9) 50 200).1.find (fingerprint String.length "a") =
      some ⟨some 9, halfCache.getExpiration 50 200⟩ :=
  ⟨by decide, by decide, by decide, by decide, by decide,
    ((C8_add_over_expired String.length halfCache (by decide) (by decide) "a" (some 9) 50 200
      ⟨some 7, 105⟩ (by decide) (by decide)).1 (by decide)).1,
    ((C8_add_over_expired String.length halfCache (by decide) (by decide) "a" (some 9) 50 200
      ⟨some 7, 105⟩ (by decide) (by decide)).1 (by decide)).2.1⟩

/-- C9: Replace. On every open well-formed cache, `Replace(k, v, d)` returns no
error if and only if the slot of `k` holds an entry that has not expired. In
that case it returns `(old value, nil)`, stores `(v, getExpiration d now)`,
leaves the size counter unchanged, and a following `Get(k)` returns `v` at
every clock reading at which that expiration has not passed, in particular at
the clock reading of the `Replace` itself. When the slot is empty or its entry
is expired it returns nil together with the error whose message is
"item '" + k + "' doesn't exist" and leaves the whole state unchanged. -/
theorem C9_replace (Hash64 : String → Nat) (c : Cache) (hc : c.WF)
    (ho : c.isClosed = false) (k : String) (v : Option Session) (d now : Int) :
    ((c.Replace Hash64 k v d now).2.2 = none ↔
      ∃ item : storedValue,
        c.find (fingerprint Hash64 k) = some item ∧ item.isExpired now = false) ∧
    (∀ item : storedValue, c.find (fingerprint Hash64 k) = some item →
      item.isExpired now = false →
      (c.Replace Hash64 k v d now).2 = (item.object, none) ∧
      (c.Replace Hash64 k v d now).1.find (fingerprint Hash64 k) =
        some ⟨v, c.getExpiration d now⟩ ∧
      (c.Replace Hash64 k v d now).1.size = c.size ∧
      (∀ t : Int, (c.getExpiration d now ≤ 0 ∨ t ≤ c.getExpiration d now) →
        (c.Replace Hash64 k v d now).1.Get Hash64 k t =
          ((c.Replace Hash64 k v d now).1, v, none)) ∧
      (isInt64 now → isInt64 d → isInt64 c.defaultExpiration →
        (c.Replace Hash64 k v d now).1.Get Hash64 k now =
          ((c.Replace Hash64 k v d now).1, v, none))) ∧
    ((c.find (fingerprint Hash64 k) = none ∨
        ∃ item : storedValue,
          c.find (fingerprint Hash64 k) = some item ∧ item.isExpired now = true) →
      (c.Replace Hash64 k v d now).1 = c ∧
      (c.Replace Hash64 k v d now).2.1 = none ∧
      ∃ err : Error, (c.Replace Hash64 k v d now).2.2 = some err ∧
        err.message = "item '" ++ k ++ "' doesn't exist") := by
  refine ⟨?_, ?_, ?_⟩
  · cases hf : c.find (fingerprint Hash64 k) with
    | none =>
      rw [Replace_of_find_none v d now ho hf]
      simp
    | some item =>
      cases hx : item.isExpired now with
      | true =>
        rw [Replace_of_find_expired v d ho hf hx]
        simp [hx]
      | false =>
        rw [Replace_of_find_live v d ho hf hx]
        simp [hx]
  · intro item hf hx
    rw [Replace_of_find_live v d ho hf hx]
    have hget : ∀ t : Int, (c.getExpiration d now ≤ 0 ∨ t ≤ c.getExpiration d now) →
        (c.store (fingerprint Hash64 k % toUint64 c.numBuckets) (fingerprint Hash64 k)
          ⟨v, c.getExpiration d now⟩).Get Hash64 k t =
        (c.store (fingerprint Hash64 k % toUint64 c.numBuckets) (fingerprint Hash64 k)
          ⟨v, c.getExpiration d now⟩, v, none) :=
      fun t ht => Get_store hc ho k v _ t ht
    refine ⟨rfl, ?_, rfl, hget, ?_⟩
    · simp only [find_store hc, if_true]
    · intro h1 h2 h3
      exact hget now (getExpiration_live c d now h1 h2 h3)
  · rintro (hf | ⟨item, hf, hx⟩)
    · rw [Replace_of_find_none v d now ho hf]
      exact ⟨rfl, rfl, _, rfl, rfl⟩
    · rw [Replace_of_find_expired v d ho hf hx]
      exact ⟨rfl, rfl, _, rfl, rfl⟩

theorem C9_replace_witness :
    fullCache.WF ∧ fullCache.isClosed = false ∧
    fullCache.find (fingerprint String.length "a") = some ⟨some 7, 105⟩ ∧
    (storedValue.mk (some 7) 105).isExpired 103 = false ∧
    (fullCache.Replace String.length "a" (some 9) 50 103).2 = (some 7, none) ∧
    (fullCache.Replace String.length "ccc" (some 9) 50 103).1 = fullCache :=
  ⟨by decide, by decide, by decide, by decide,
    ((C9_replace String.length fullCache (by decide) (by decide) "a" (some 9) 50 103).2.1
      ⟨some 7, 105⟩ (by decide) (by decide)).1,
    ((C9_replace String.length fullCache (by decide) (by decide) "ccc" (some 9) 50 103).2.2
      (Or.inl (by decide))).1⟩

/-- C10: Delete. On every open well-formed cache, `Delete(k)` of a key whose
entry has not expired returns nil, removes the entry and decrements the
`int32` size counter once, which lowers it by exactly one unless it sits at
the least `int32`; afterwards `Get(k)` and a second `Delete(k)` both return
`NotFoundError` and the second `Delete` leaves the state, hence the size,
unchanged. `Delete(k)` of an absent key returns `NotFoundError` and leaves the
whole state unchanged. -/
theorem C10_delete (Hash64 : String → Nat) (c : Cache) (hc : c.WF)
    (ho : c.isClosed = false) (k : String) (now : Int) :
    (∀ item : storedValue, c.find (fingerprint Hash64 k) = some item →
      item.isExpired now = false →
      (c.Delete Hash64 k now).2 = none ∧
      (c.Delete Hash64 k now).1.find (fingerprint Hash64 k) = none ∧
      (c.Delete Hash64 k now).1.size = wrapInt32 (c.size - 1) ∧
      (-2 ^ 31 < c.size → c.size < 2 ^ 31 → (c.Delete Hash64 k now).1.size = c.size - 1) ∧
      (∀ t : Int, (c.Delete Hash64 k now).1.Get Hash64 k t =
        ((c.Delete Hash64 k now).1, none, some .NotFoundError)) ∧
      (∀ t : Int, (c.Delete Hash64 k now).1.Delete Hash64 k t =
        ((c.Delete Hash64 k now).1, some .NotFoundError))) ∧
    (c.find (fingerprint Hash64 k) = none →
      c.Delete Hash64 k now = (c, some .NotFoundError)) := by
  refine ⟨?_, fun hf => Delete_of_find_none now ho hf⟩
  intro item hf hx
  rw [Delete_of_find now ho hf]
  have hc' : c.decSize.WF := decSize_WF hc
  have ho' : (c.decSize.remove (fingerprint Hash64 k % toUint64 c.numBuckets)
      (fingerprint Hash64 k)).isClosed = false := ho
  have hf' : (c.decSize.remove (fingerprint Hash64 k % toUint64 c.numBuckets)
      (fingerprint Hash64 k)).find (fingerprint Hash64 k) = none := by
    have := find_remove hc' (fingerprint Hash64 k) (fingerprint Hash64 k)
    simpa using this
  refine ⟨?_, hf', rfl, ?_, ?_, ?_⟩
  · simp [hx]
  · intro h1 h2
    show wrapInt32 (c.size - 1) = c.size - 1
    exact wrapInt32_of_range (by omega) (by omega)
  · intro t
    exact Get_of_find_none ho' hf'
  · intro t
    exact Delete_of_find_none t ho' hf'

theorem C10_delete_witness :
    fullCache.WF ∧ fullCache.isClosed = false ∧
    fullCache.find (fingerprint String.length "a") = some ⟨some 7, 105⟩ ∧
    (storedValue.mk (some 7) 105).isExpired 103 = false ∧
    (fullCache.Delete String.length "a" 103).2 = none ∧
    (fullCache.Delete String.length "a" 103).1.size = fullCache.size - 1 ∧
    fullCache.Delete String.length "ccc" 103 = (fullCache, some .NotFoundError) :=
  ⟨by decide, by decide, by decide, by decide,
    ((C10_delete String.length fullCache (by decide) (by decide) "a" 103).1
      ⟨some 7, 105⟩ (by decide) (by decide)).1,
    ((C10_delete String.length fullCache (by decide) (by decide) "a" 103).1
      ⟨some 7, 105⟩ (by decide) (by decide)).2.2.2.1 (by decide) (by decide),
    (C10_delete String.length fullCache (by decide) (by decide) "ccc" 103).2 (by decide)⟩

/-- C11: Delete of an expired entry. On every open well-formed cache in which
the slot of `k` holds an entry that is expired at `now`, `Delete(k)` returns
`NotFoundError` and nonetheless removes the entry from its shard and
decrements the `int32` size counter once, which lowers it by exactly one
unless it sits at the least `int32`; no other slot of any shard changes. -/
theorem C11_delete_expired (Hash64 : String → Nat) (c : Cache) (hc : c.WF)
    (ho : c.isClosed = false) (k : String) (now : Int) (item : storedValue)
    (hf : c.find (fingerprint Hash64 k) = some item)
    (hexp : item.isExpired now = true) :
    (c.Delete Hash64 k now).2 = some .NotFoundError ∧
    (c.Delete Hash64 k now).1.find (fingerprint Hash64 k) = none ∧
    (c.Delete Hash64 k now).1.size = wrapInt32 (c.size - 1) ∧
    (-2 ^ 31 < c.size → c.size < 2 ^ 31 → (c.Delete Hash64 k now).1.size = c.size - 1) ∧
    (∀ h : Nat, h ≠ fingerprint Hash64 k → (c.Delete Hash64 k now).1.find h = c.find h) := by
  rw [Delete_of_find now ho hf]
  have hc' : c.decSize.WF := decSize_WF hc
  refine ⟨?_, ?_, rfl, ?_, ?_⟩
  · simp [hexp]
  · have := find_remove hc' (fingerprint Hash64 k) (fingerprint Hash64 k)
    simpa using this
  · intro h1 h2
    show wrapInt32 (c.size - 1) = c.size - 1
    exact wrapInt32_of_range (by omega) (by omega)
  · intro h hne
    have := find_remove hc' (fingerprint Hash64 k) h
    simpa [hne] using this

theorem C11_delete_expired_witness :
    fullCache.WF ∧ fullCache.isClosed = false ∧
    fullCache.find (fingerprint String.length "a") = some ⟨some 7, 105⟩ ∧
    (storedValue.mk (some 7) 105).isExpired 200 = true ∧
    (fullCache.Delete String.length "a" 200).2 = some .NotFoundError ∧
    (fullCache.Delete String.length "a" 200).1.find (fingerprint String.length "a") = none ∧
    (fullCache.Delete String.length "a" 200).1.size = fullCache.size - 1 :=
  ⟨by decide, by decide, by decide, by decide,
    (C11_delete_expired String.length fullCache (by decide) (by decide) "a" 200
      ⟨some 7, 105⟩ (by decide) (by decide)).1,
    (C11_delete_expired String.length fullCache (by decide) (by decide) "a" 200
      ⟨some 7, 105⟩ (by decide) (by decide)).2.1,
    (C11_delete_expired String.length fullCache (by decide) (by decide) "a" 200
      ⟨some 7, 105⟩ (by decide) (by decide)).2.2.2.1 (by decide) (by decide)⟩

/-- C12: KeepAlive. On every open well-formed cache, if the slot of `k` holds
`(v, e)` and the entry has not expired at `now`, then `KeepAlive(k, d)` returns
`(v, nil)`; afterwards the slot holds `(v, getExpiration d now)`, every other
slot of every shard and the size counter are unchanged, and `Get(k)` returns
`v` at every clock reading at which the new expiration has not passed, so at
every clock reading when it is 0, and in particular at the clock reading of
the `KeepAlive` itself. If the slot is empty or its entry is expired,
`KeepAlive` returns `(nil, NotFoundError)` and leaves the state unchanged. -/
theorem C12_keepAlive (Hash64 : String → Nat) (c : Cache) (hc : c.WF)
    (ho : c.isClosed = false) (k : String) (d now : Int) :
    (∀ (v : Option Session) (e : Int), c.find (fingerprint Hash64 k) = some ⟨v, e⟩ →
      (storedValue.mk v e).isExpired now = false →
      (c.KeepAlive Hash64 k d now).2 = (v, none) ∧
      (c.KeepAlive Hash64 k d now).1.find (fingerprint Hash64 k) =
        some ⟨v, c.getExpiration d now⟩ ∧
      (∀ i h : Nat, ¬ (i = fingerprint Hash64 k % toUint64 c.numBuckets ∧
          h = fingerprint Hash64 k) →
        mapLookup ((c.KeepAlive Hash64 k d now).1.bucket i).values h =
          mapLookup (c.bucket i).values h) ∧
      (c.KeepAlive Hash64 k d now).1.size = c.size ∧
      (∀ t : Int, (c.getExpiration d now ≤ 0 ∨ t ≤ c.getExpiration d now) →
        (c.KeepAlive Hash64 k d now).1.Get Hash64 k t =
          ((c.KeepAlive Hash64 k d now).1, v, none)) ∧
      (c.getExpiration d now = 0 → ∀ t : Int,
        (c.KeepAlive Hash64 k d now).1.Get Hash64 k t =
          ((c.KeepAlive Hash64 k d now).1, v, none)) ∧
      (isInt64 now → isInt64 d → isInt64 c.defaultExpiration →
        (c.KeepAlive Hash64 k d now).1.Get Hash64 k now =
          ((c.KeepAlive Hash64 k d now).1, v, none))) ∧
    ((c.find (fingerprint Hash64 k) = none ∨
        ∃ item : storedValue,
          c.find (fingerprint Hash64 k) = some item ∧ item.isExpired now = true) →
      c.KeepAlive Hash64 k d now = (c, none, some .NotFoundError)) := by
  refine ⟨?_, ?_⟩
  · intro v e hf hx
    rw [KeepAlive_of_find_live d ho hf hx]
    have hget : ∀ t : Int, (c.getExpiration d now ≤ 0 ∨ t ≤ c.getExpiration d now) →
        (c.store (fingerprint Hash64 k % toUint64 c.numBuckets) (fingerprint Hash64 k)
          ⟨v, c.getExpiration d now⟩).Get Hash64 k t =
        (c.store (fingerprint Hash64 k % toUint64 c.numBuckets) (fingerprint Hash64 k)
          ⟨v, c.getExpiration d now⟩, v, none) :=
      fun t ht => Get_store hc ho k v _ t ht
    refine ⟨rfl, ?_, ?_, rfl, hget, ?_, ?_⟩
    · simp only [find_store hc, if_true]
    · intro i h hne
      rw [lookup_store c _ _ _ (idx_lt_of_WF hc _)]
      simp only [hne, if_false]
    · intro h0 t
      exact hget t (Or.inl (le_of_eq h0))
    · intro h1 h2 h3
      exact hget now (getExpiration_live c d now h1 h2 h3)
  · rintro (hf | ⟨item, hf, hx⟩)
    · exact KeepAlive_of_find_none d now ho hf
    · exact KeepAlive_of_find_expired d ho hf hx

theorem C12_keepAlive_witness :
    fullCache.WF ∧ fullCache.isClosed = false ∧
    fullCache.find (fingerprint String.length "a") = some ⟨some 7, 105⟩ ∧
    (storedValue.mk (some 7) 105).isExpired 103 = false ∧
    (fullCache.KeepAlive String.length "a" 50 103).2 = (some 7, none) ∧
    (fullCache.KeepAlive String.length "a" 50 103).1.find (fingerprint String.length "a") =
      some ⟨some 7, fullCache.getExpiration 50 103⟩ ∧
    fullCache.KeepAlive String.length "a" 50 200 = (fullCache, none, some .NotFoundError) :=
  ⟨by decide, by decide, by decide, by decide,
    ((C12_keepAlive String.length fullCache (by decide) (by decide) "a" 50 103).1
      (some 7) 105 (by decide) (by decide)).1,
    ((C12_keepAlive String.length fullCache (by decide) (by decide) "a" 50 103).1
      (some 7) 105 (by decide) (by decide)).2.1,
    (C12_keepAlive String.length fullCache (by decide) (by decide) "a" 50 200).2
      (Or.inr ⟨⟨some 7, 105⟩, by decide, by decide⟩)⟩

/-- C13: operations after Close. Whatever state `c0` the cache was in, on
`c0.Close` each of `Set`, `Add`, `Replace`, `Get`, `Delete` and `KeepAlive`
returns `CloseError` with a nil value, leaves the state unchanged, and
`Size()` returns 0. -/
theorem C13_operations_after_close (Hash64 : String → Nat) (c0 : Cache) (k : String)
    (v : Option Session) (d now : Int) :
    c0.Close.isClosed = true ∧
    c0.Close.Set Hash64 k v d now = (c0.Close, none, some .CloseError) ∧
    c0.Close.Add Hash64 k v d now = (c0.Close, some .CloseError) ∧
    c0.Close.Replace Hash64 k v d now = (c0.Close, none, some .CloseError) ∧
    c0.Close.Get Hash64 k now = (c0.Close, none, some .CloseError) ∧
    c0.Close.Delete Hash64 k now = (c0.Close, some .CloseError) ∧
    c0.Close.KeepAlive Hash64 k d now = (c0.Close, none, some .CloseError) ∧
    c0.Close.Size = 0 :=
  ⟨Close_isClosed c0, Set_of_closed _ _ _ _ _ (Close_isClosed c0),
    Add_of_closed _ _ _ _ _ (Close_isClosed c0), Replace_of_closed _ _ _ _ _ (Close_isClosed c0),
    Get_of_closed _ _ _ (Close_isClosed c0), Delete_of_closed _ _ _ (Close_isClosed c0),
    KeepAlive_of_closed _ _ _ _ (Close_isClosed c0), Size_of_closed (Close_isClosed c0)⟩

/-- C14: Close is idempotent. For every state of the cache `Close` after
`Close` is `Close`, the closed flag is set afterwards, and `Close` on a closed
cache changes nothing. In every reachable state of the system, `Close` leaves
every shard map empty, one shard per index as before, the size counter 0 and
the closed flag set. -/
theorem C14_close_idempotent (Hash64 : String → Nat) :
    (∀ c : Cache, c.Close.Close = c.Close ∧ c.Close.isClosed = true ∧
      (c.isClosed = true → c.Close = c)) ∧
    (∀ s : System, s.Reachable Hash64 →
      (∀ b ∈ s.cache.Close.storage, b.values = []) ∧
      s.cache.Close.storage.length = s.cache.storage.length ∧
      s.cache.Close.size = 0 ∧ s.cache.Close.isClosed = true) := by
  refine ⟨fun c => ⟨Close_Close c, Close_isClosed c, fun h => Close_of_closed h⟩, ?_⟩
  intro s hr
  have hi := Reachable.Inv hr
  cases ho : s.cache.isClosed with
  | true =>
    rw [Close_of_closed ho]
    exact ⟨(hi.2 ho).1, rfl, (hi.2 ho).2, ho⟩
  | false =>
    obtain ⟨h1, h2, _, _, _, _⟩ := Close_of_open hi.1 ho
    refine ⟨?_, ?_, h2, Close_isClosed _⟩
    · intro b hb
      rw [h1] at hb
      rw [List.eq_of_mem_replicate hb]
    · rw [h1, List.length_replicate]

theorem C14_close_idempotent_witness :
    System.Reachable String.length
      ((System.start smallCache).run String.length [.set "a" (some 7) 5 100, .close]) ∧
    ((System.start smallCache).run String.length
      [.set "a" (some 7) 5 100]).cache.Close.storage = [⟨[]⟩] ∧
    ∀ b ∈ ((System.start smallCache).run String.length
        [.set "a" (some 7) 5 100, .close]).cache.Close.storage, b.values = [] :=
  ⟨⟨2, 1, 60, 1, false, smallCache, [.set "a" (some 7) 5 100, .close], by decide, by decide,
      rfl⟩,
    by decide,
    ((C14_close_idempotent String.length).2
      ((System.start smallCache).run String.length [.set "a" (some 7) 5 100, .close])
      ⟨2, 1, 60, 1, false, smallCache, [.set "a" (some 7) 5 100, .close], by decide, by decide,
        rfl⟩).1⟩

/-- C15 fails on the code. On the cache `New 2 1 60 1 false`, `Add("a", 7, 5ns)`
at clock reading 100 and, once that entry has expired, `Add("a", 9, 5ns)` at
clock reading 200 both return nil; the cache is open, one entry is stored and
`Size()` is 2. With `Set` in place of the second `Add`, `Size()` is 1. -/
theorem C15_add_over_expired_overcounts :
    New 2 1 60 1 false = some smallCache ∧
    (smallCache.Add String.length "a" (some 7) 5 100).2 = none ∧
    ((smallCache.Add String.length "a" (some 7) 5 100).1.Add String.length "a" (some 9) 5 200).2 =
      none ∧
    ((System.start smallCache).run String.length
      [.add "a" (some 7) 5 100, .add "a" (some 9) 5 200]).cache.isClosed = false ∧
    ((System.start smallCache).run String.length
      [.add "a" (some 7) 5 100, .add "a" (some 9) 5 200]).cache.count = 1 ∧
    ((System.start smallCache).run String.length
      [.add "a" (some 7) 5 100, .add "a" (some 9) 5 200]).cache.Size = 2 ∧
    ((System.start smallCache).run String.length
      [.add "a" (some 7) 5 100, .set "a" (some 9) 5 200]).cache.Size = 1 := by
  decide

/-- C17, as stated, fails when `now + d` leaves the range of `int64`: with the
duration `2^63 - 1` at the clock reading `1700000000000000000` the result is
`-7523372036854775809`, not `now + d`. -/
theorem C17_counterexample :
    (0 : Int) < 2 ^ 63 - 1 ∧ isInt64 (2 ^ 63 - 1) ∧ isInt64 1700000000000000000 ∧
    smallCache.getExpiration (2 ^ 63 - 1) 1700000000000000000 = -7523372036854775809 ∧
    smallCache.getExpiration (2 ^ 63 - 1) 1700000000000000000 ≠
      1700000000000000000 + (2 ^ 63 - 1) := by
  decide

/-- C17, amended. With `d'` the default TTL when `d = 0` and `d` otherwise,
`getExpiration d now` is `now + d'` wrapped to `int64` when `d' > 0` and 0
otherwise; it is `now + d'` itself whenever that sum is in the range of
`int64`. In particular `NoExpiration` and every negative `d` yield 0, `d > 0`
yields `now + d`, `DefaultExpiration` yields `now + D` when `D > 0`, both when
the sum is in the range of `int64`, and `DefaultExpiration` with `D ≤ 0`
yields 0. -/
theorem C17_getExpiration (c : Cache) (d now : Int) :
    c.getExpiration d now =
      (if (if d = 0 then c.defaultExpiration else d) > 0 then
        wrapInt64 (now + (if d = 0 then c.defaultExpiration else d)) else 0) ∧
    (isInt64 (now + (if d = 0 then c.defaultExpiration else d)) →
      c.getExpiration d now =
        (if (if d = 0 then c.defaultExpiration else d) > 0 then
          now + (if d = 0 then c.defaultExpiration else d) else 0)) ∧
    c.getExpiration NoExpiration now = 0 ∧
    (d < 0 → c.getExpiration d now = 0) ∧
    (0 < d → isInt64 (now + d) → c.getExpiration d now = now + d) ∧
    (0 < c.defaultExpiration → isInt64 (now + c.defaultExpiration) →
      c.getExpiration DefaultExpiration now = now + c.defaultExpiration) ∧
    (c.defaultExpiration ≤ 0 → c.getExpiration DefaultExpiration now = 0) := by
  have h0 : c.getExpiration d now =
      (if (if d = 0 then c.defaultExpiration else d) > 0 then
        wrapInt64 (now + (if d = 0 then c.defaultExpiration else d)) else 0) := rfl
  refine ⟨h0, ?_, getExpiration_NoExpiration c now, ?_, ?_, ?_, ?_⟩
  · intro hr
    rw [h0, wrapInt64_of_isInt64 hr]
  · intro hd
    have h1 : d ≠ 0 := by omega
    have h2 : ¬ d > 0 := by omega
    rw [h0]
    simp [h1, h2]
  · intro hd hr
    rw [getExpiration_of_pos hd, wrapInt64_of_isInt64 hr]
  · intro hD hr
    unfold Cache.getExpiration
    simp [hD, wrapInt64_of_isInt64 hr]
  · intro hD
    unfold Cache.getExpiration
    have : ¬ c.defaultExpiration > 0 := by omega
    simp [this]

theorem C17_getExpiration_witness :
    isInt64 (100 + (if (5 : Int) = 0 then smallCache.defaultExpiration else 5)) ∧
    smallCache.getExpiration 5 100 = 105 ∧
    smallCache.getExpiration DefaultExpiration 100 = 160 :=
  ⟨by decide,
    ((C17_getExpiration smallCache 5 100).2.1 (by decide)).trans (by decide),
    ((C17_getExpiration smallCache 5 100).2.2.2.2.2.1 (by decide) (by decide)).trans
      (by decide)⟩

set_option maxRecDepth 4096 in
/-- C16 fails in the code: an expired entry is not evicted when the sweep finds
the eviction queue full. In `jammedSystem`, reached from `New 1 1 60 1 true`,
the shard 0 holds the entry of "bb" (fingerprint 2), expired at clock reading
300, and the queue of bound one holds an older event. The sweep tick of shard 0
at 300 does not enqueue the event `(0, 2)`: the send finds the queue full and
the worker blocks on its own queue; no later drain runs, and the entry stays
stored and counted. -/
theorem C16_sweep_blocks_before_enqueue :
    New 1 1 60 1 true = some tinyCache ∧
    jammedSystem.cache.isClosed = false ∧ jammedSystem.blocked = false ∧
    jammedSystem.bucketIdx = 0 ∧
    mapLookup (jammedSystem.cache.bucket 0).values 2 = some ⟨some 8, 207⟩ ∧
    (storedValue.mk (some 8) 207).isExpired 300 = true ∧
    (⟨0, 2⟩ : evictEvent) ∉ (jammedSystem.tick 300).cache.evictionCh.buf ∧
    (jammedSystem.tick 300).blocked = true ∧
    (jammedSystem.tick 300).drain = jammedSystem.tick 300 ∧
    (jammedSystem.tick 300).drain.cache.Size = 1 := by
  refine ⟨by decide, by decide, by decide, by decide, by decide, by decide, by decide,
    by decide, ?_, ?_⟩
  · exact drain_of_guard (by decide)
  · rw [drain_of_guard (by decide)]
    decide

/-- Background eviction when the send does not block. If the shard `i` that the
worker is about to sweep holds an entry for the fingerprint `h` that is
expired at `now`, and the queue has room
for the events of the expired entries of that shard, then the sweep tick at
`now` appends those events, among them `(i, h)`, does not block and changes no
shard map and not the size counter. Draining that event, in any open state in
which it is the oldest pending event and the entry is still present, removes
the entry and decrements the `int32` size counter once, which lowers it by
exactly one unless it sits at the least `int32`; every other slot of every
shard is untouched, and `Get` of a key with that fingerprint returns
`NotFoundError` afterwards. -/
theorem sweep_and_drain_of_room (Hash64 : String → Nat) (s : System)
    (ho : s.cache.isClosed = false) (hb : s.blocked = false)
    (now : Int) (h : Nat) (item : storedValue)
    (hf : mapLookup (s.cache.bucket s.bucketIdx).values h = some item)
    (hexp : item.isExpired now = true)
    (hroom : (s.cache.evictionCh.buf.length : Int) +
      (expiredEvents s.bucketIdx now (s.cache.bucket s.bucketIdx).values).length ≤
        s.cache.evictionCh.bound) :
    ((s.tick now).cache.evictionCh.buf =
        s.cache.evictionCh.buf ++
          expiredEvents s.bucketIdx now (s.cache.bucket s.bucketIdx).values ∧
      (⟨s.bucketIdx, h⟩ : evictEvent) ∈ (s.tick now).cache.evictionCh.buf ∧
      (s.tick now).blocked = false ∧
      (s.tick now).cache.storage = s.cache.storage ∧
      (s.tick now).cache.size = s.cache.size) ∧
    ∀ (s2 : System) (rest : List evictEvent) (item2 : storedValue),
      s2.cache.WF → s2.cache.isClosed = false → s2.blocked = false →
      s2.cache.evictionCh.buf = ⟨s.bucketIdx, h⟩ :: rest →
      mapLookup (s2.cache.bucket s.bucketIdx).values h = some item2 →
      mapLookup (s2.drain.cache.bucket s.bucketIdx).values h = none ∧
      s2.drain.cache.size = wrapInt32 (s2.cache.size - 1) ∧
      (-2 ^ 31 < s2.cache.size → s2.cache.size < 2 ^ 31 →
        s2.drain.cache.size = s2.cache.size - 1) ∧
      (∀ j k : Nat, ¬ (j = s.bucketIdx ∧ k = h) →
        mapLookup (s2.drain.cache.bucket j).values k =
          mapLookup (s2.cache.bucket j).values k) ∧
      s2.drain.cache.evictionCh.buf = rest ∧
      (∀ (key : String) (t : Int), fingerprint Hash64 key = h →
        h % toUint64 s2.cache.numBuckets = s.bucketIdx →
        s2.drain.cache.Get Hash64 key t = (s2.drain.cache, none, some .NotFoundError)) := by
  refine ⟨?_, ?_⟩
  · rw [tick_of_room ho hb now hroom]
    refine ⟨rfl, ?_, hb, rfl, rfl⟩
    exact List.mem_append_right _ (mem_expiredEvents (mapLookup_some_mem hf) hexp)
  · intro s2 rest item2 hc2 ho2 hb2 hq2 hf2
    have hidx : s.bucketIdx < s2.cache.storage.length := idx_lt_of_lookup hf2
    have hq2' : s2.cache.evictionCh.buf = (⟨s.bucketIdx, h⟩ : evictEvent) :: rest := hq2
    rw [@drain_of_present s2 ho2 hb2 ⟨s.bucketIdx, h⟩ rest item2 hq2' hf2]
    have hlk : ∀ j k : Nat,
        mapLookup ((((s2.cache.setQueue ⟨rest, s2.cache.evictionCh.closed, s2.cache.evictionCh.bound⟩).decSize).remove
          s.bucketIdx h).bucket j).values k =
        if j = s.bucketIdx ∧ k = h then none else mapLookup (s2.cache.bucket j).values k :=
      fun j k => lookup_remove _ _ _ hidx j k
    refine ⟨?_, rfl, ?_, ?_, rfl, ?_⟩
    · have := hlk s.bucketIdx h
      simpa using this
    · intro h1 h2
      show wrapInt32 (s2.cache.size - 1) = s2.cache.size - 1
      exact wrapInt32_of_range (by omega) (by omega)
    · intro j k hne
      have := hlk j k
      simpa [hne] using this
    · intro key t hkey hshard
      apply Get_of_find_none
      · exact ho2
      · show mapLookup ((((s2.cache.setQueue ⟨rest, s2.cache.evictionCh.closed, s2.cache.evictionCh.bound⟩).decSize).remove
          s.bucketIdx h).bucket (fingerprint Hash64 key % toUint64 s2.cache.numBuckets)).values
            (fingerprint Hash64 key) = none
        rw [hkey, hshard]
        have := hlk s.bucketIdx h
        simpa using this

theorem sweep_and_drain_of_room_example :
    pairSystem.cache.isClosed = false ∧ pairSystem.blocked = false ∧
    mapLookup (pairSystem.cache.bucket pairSystem.bucketIdx).values 1 = some ⟨some 7, 105⟩ ∧
    (storedValue.mk (some 7) 105).isExpired 200 = true ∧
    (⟨pairSystem.bucketIdx, 1⟩ : evictEvent) ∈ (pairSystem.tick 200).cache.evictionCh.buf ∧
    (pairSystem.tick 200).drain.cache.size = (pairSystem.tick 200).cache.size - 1 ∧
    (pairSystem.tick 200).drain.cache.Get String.length "a" 200 =
      ((pairSystem.tick 200).drain.cache, none, some .NotFoundError) :=
  ⟨by decide, by decide, by decide, by decide,
    (sweep_and_drain_of_room String.length pairSystem (by decide) (by decide) 200 1
      ⟨some 7, 105⟩ (by decide) (by decide) (by decide)).1.2.1,
    ((sweep_and_drain_of_room String.length pairSystem (by decide) (by decide) 200 1
      ⟨some 7, 105⟩ (by decide) (by decide) (by decide)).2 (pairSystem.tick 200) []
      ⟨some 7, 105⟩ (by decide) (by decide) (by decide) (by decide) (by decide)).2.2.1
      (by decide) (by decide),
    ((sweep_and_drain_of_room String.length pairSystem (by decide) (by decide) 200 1
      ⟨some 7, 105⟩ (by decide) (by decide) (by decide)).2 (pairSystem.tick 200) []
      ⟨some 7, 105⟩ (by decide) (by decide) (by decide) (by decide) (by decide)).2.2.2.2.2
      "a" 200 (by decide) (by decide)⟩

/-- C18: a never-expiring entry survives the scheduler. Take a cache freshly
built by `New`, any sweep ticks and queue drains of its worker, then a
`Set(k, v, NoExpiration)` that returns no error, then any further sweep ticks
and queue drains at any clock readings. The cache is then as the `Set` left it
and no handler has been launched; so at every clock reading `Get(k)` returns
`(v, nil)`, the slot of `k` holds `(v, 0)` and `Size()` is 1. -/
theorem C18_never_expiring_entry_survives (Hash64 : String → Nat) (C nb D iv : Int) (oe : Bool)
    (c0 : Cache) (hnb : nb < 2 ^ 63) (hnew : New C nb D iv oe = some c0)
    (k : String) (v : Option Session) (t0 : Int)
    (hset : (c0.Set Hash64 k v NoExpiration t0).2.2 = none)
    (before after : List Op) (hw1 : ∀ op ∈ before, op.isWorker = true)
    (hw2 : ∀ op ∈ after, op.isWorker = true) (t : Int) :
    ((System.start c0).run Hash64 (before ++ .set k v NoExpiration t0 :: after)).cache =
      (c0.Set Hash64 k v NoExpiration t0).1 ∧
    ((System.start c0).run Hash64 (before ++ .set k v NoExpiration t0 :: after)).evicted = [] ∧
    ((System.start c0).run Hash64 (before ++ .set k v NoExpiration t0 :: after)).cache.Get
        Hash64 k t =
      (((System.start c0).run Hash64 (before ++ .set k v NoExpiration t0 :: after)).cache,
        v, none) ∧
    ((System.start c0).run Hash64 (before ++ .set k v NoExpiration t0 :: after)).cache.find
      (fingerprint Hash64 k) = some ⟨v, 0⟩ ∧
    ((System.start c0).run Hash64 (before ++ .set k v NoExpiration t0 :: after)).cache.Size =
      1 := by
  obtain ⟨hWF, ho, hsz, _, _, hemp⟩ := New_spec hnb hnew
  obtain ⟨hq, _, _, hbk⟩ := New_fresh hnew
  obtain ⟨_, ho1, _, hf1⟩ := Set_ok hWF hset
  rw [getExpiration_NoExpiration] at hf1
  have hs : c0.cacheSize ≠ c0.size := by
    intro hs
    rw [Set_eq, ho, hemp] at hset
    simp [hs] at hset
  have hc1 : (c0.Set Hash64 k v NoExpiration t0).1 =
      c0.incSize.store (fingerprint Hash64 k % toUint64 c0.numBuckets) (fingerprint Hash64 k)
        ⟨v, 0⟩ := by
    rw [Set_eq, ho, hemp, getExpiration_NoExpiration]
    simp [hs]
  obtain ⟨b1, b2, b3⟩ := run_worker_quiet Hash64 before hw1 (System.start c0) ho rfl
    (congrArg Chan.buf hq)
    (by
      intro j p hp
      have hp' : p ∈ (c0.bucket j).values := hp
      rw [hbk j] at hp'
      simp at hp')
  have b1' : ((System.start c0).run Hash64 before).cache = c0 := b1
  have b2' : ((System.start c0).run Hash64 before).evicted = [] := b2
  have hsplit : (System.start c0).run Hash64 (before ++ .set k v NoExpiration t0 :: after) =
      System.run Hash64
        { (System.start c0).run Hash64 before with
          cache := (((System.start c0).run Hash64 before).cache.Set Hash64 k v
            NoExpiration t0).1 } after := by
    simp only [System.run, List.foldl_append, List.foldl_cons]
    rfl
  rw [hsplit, b1']
  obtain ⟨e1, e2, _⟩ := run_worker_quiet Hash64 after hw2
    { (System.start c0).run Hash64 before with cache := (c0.Set Hash64 k v NoExpiration t0).1 }
    ho1 b3
    (by
      show (c0.Set Hash64 k v NoExpiration t0).1.evictionCh.buf = []
      rw [hc1]
      exact congrArg Chan.buf hq)
    (by
      intro j p hp
      have hp' : p ∈ ((c0.Set Hash64 k v NoExpiration t0).1.bucket j).values := hp
      rw [hc1] at hp'
      have hst := bucket_store c0.incSize (fingerprint Hash64 k % toUint64 c0.numBuckets)
        (fingerprint Hash64 k) ⟨v, 0⟩ (idx_lt_of_WF (incSize_WF hWF) _) j
      rw [hst] at hp'
      have hb0 : c0.incSize.bucket (fingerprint Hash64 k % toUint64 c0.numBuckets) = ⟨[]⟩ :=
        hbk _
      have hbj : c0.incSize.bucket j = ⟨[]⟩ := hbk j
      split_ifs at hp'
      · rw [hb0] at hp'
        simp only [mapInsert, List.mem_singleton] at hp'
        rw [hp']
      · rw [hbj] at hp'
        simp at hp')
  have e1' : (System.run Hash64
      { (System.start c0).run Hash64 before with
        cache := (c0.Set Hash64 k v NoExpiration t0).1 } after).cache =
      (c0.Set Hash64 k v NoExpiration t0).1 := e1
  have e2' : (System.run Hash64
      { (System.start c0).run Hash64 before with
        cache := (c0.Set Hash64 k v NoExpiration t0).1 } after).evicted = [] := by
    rw [e2]
    exact b2'
  rw [e1']
  refine ⟨rfl, e2', ?_, hf1, ?_⟩
  · have := @Get_of_find Hash64 _ k t _ ho1 hf1 (Or.inl (le_refl _))
    simpa using this
  · rw [Size_of_open ho1, hc1]
    show wrapInt32 (c0.size + 1) = 1
    rw [hsz]
    decide

theorem C18_never_expiring_entry_survives_witness :
    (1 : Int) < 2 ^ 63 ∧ New 2 1 60 1 false = some smallCache ∧
    (smallCache.Set String.length "a" (some 7) NoExpiration 100).2.2 = none ∧
    ((System.start smallCache).run String.length
      ([.tick 50, .drain] ++ .set "a" (some 7) NoExpiration 100 ::
        [.tick 200, .drain, .tick 300, .tick 400])).cache.Get String.length "a"
        1000000000000 =
      (((System.start smallCache).run String.length
        ([.tick 50, .drain] ++ .set "a" (some 7) NoExpiration 100 ::
          [.tick 200, .drain, .tick 300, .tick 400])).cache, some 7, none) :=
  ⟨by decide, by decide, by decide,
    (C18_never_expiring_entry_survives String.length 2 1 60 1 false smallCache (by decide)
      (by decide) "a" (some 7) 100 (by decide) [.tick 50, .drain]
      [.tick 200, .drain, .tick 300, .tick 400] (by decide) (by decide) 1000000000000).2.2.1⟩

/-- C19: the eviction callback. When the worker drains an event and the slot it
names holds an entry, then with a handler configured exactly one call of
`onEvict` is launched, with the value that entry held, and without a handler
none is; in both cases the entry is removed. -/
theorem C19_eviction_callback (s : System) (ho : s.cache.isClosed = false)
    (hb : s.blocked = false) (e : evictEvent) (rest : List evictEvent) (item : storedValue)
    (hq : s.cache.evictionCh.buf = e :: rest)
    (hf : mapLookup (s.cache.bucket e.bucketIdx).values e.hash = some item) :
    (s.cache.onEvict = true → s.drain.evicted = s.evicted ++ [item.object]) ∧
    (s.cache.onEvict = false → s.drain.evicted = s.evicted) ∧
    mapLookup (s.drain.cache.bucket e.bucketIdx).values e.hash = none := by
  rw [drain_of_present ho hb hq hf]
  refine ⟨?_, ?_, ?_⟩
  · intro h
    simp [h]
  · intro h
    simp [h]
  · have := lookup_remove ((s.cache.setQueue ⟨rest, s.cache.evictionCh.closed, s.cache.evictionCh.bound⟩).decSize)
      e.bucketIdx e.hash (idx_lt_of_lookup hf) e.bucketIdx e.hash
    simpa using this

theorem C19_eviction_callback_witness :
    resurrectedSystem.cache.isClosed = false ∧ resurrectedSystem.blocked = false ∧
    resurrectedSystem.cache.evictionCh.buf = [⟨0, 1⟩] ∧
    mapLookup (resurrectedSystem.cache.bucket 0).values 1 = some ⟨some 9, 0⟩ ∧
    resurrectedSystem.cache.onEvict = true ∧
    resurrectedSystem.drain.evicted = resurrectedSystem.evicted ++ [some 9] ∧
    mapLookup ((pairSystem.tick 200).drain.cache.bucket 0).values 1 = none ∧
    (pairSystem.tick 200).drain.evicted = [] :=
  ⟨by decide, by decide, by decide, by decide, by decide,
    (C19_eviction_callback resurrectedSystem (by decide) (by decide) ⟨0, 1⟩ [] ⟨some 9, 0⟩
      (by decide) (by decide)).1 (by decide),
    by decide,
    ((C19_eviction_callback (pairSystem.tick 200) (by decide) (by decide) ⟨0, 1⟩ []
      ⟨some 7, 105⟩ (by decide) (by decide)).2.1 (by decide)).trans (by decide)⟩

/-- C20 fails on the code. In `resurrectedSystem` the event of the expired
entry of "a" is pending while the slot has been rewritten by
`Set("a", 9, NoExpiration)`; the entry `(9, 0)` is not expired at any clock
reading. The drain nonetheless deletes it, lowers the size counter from 1 to 0
and launches `onEvict` with its value; `Get("a")` then returns
`NotFoundError`. -/
theorem C20_drain_evicts_resurrected_key :
    New 1 1 60 1 true = some tinyCache ∧
    resurrectedSystem.cache.evictionCh.buf = [⟨0, 1⟩] ∧
    resurrectedSystem.cache.find (fingerprint String.length "a") = some ⟨some 9, 0⟩ ∧
    (∀ t : Int, (storedValue.mk (some 9) 0).isExpired t = false) ∧
    resurrectedSystem.cache.size = 1 ∧ resurrectedSystem.evicted = [] ∧
    resurrectedSystem.drain.cache.find (fingerprint String.length "a") = none ∧
    resurrectedSystem.drain.cache.size = 0 ∧
    resurrectedSystem.drain.evicted = [some 9] ∧
    (resurrectedSystem.drain.cache.Get String.length "a" 202).2 =
      (none, some .NotFoundError) := by
  refine ⟨by decide, by decide, by decide, ?_, by decide, by decide, by decide, by decide,
    by decide, by decide⟩
  intro t
  exact (isExpired_eq_false_iff _ _).2 (Or.inl (le_refl _))

/-- C21: constructor defaults. With a positive cleanup interval, `New` returns a
cache whose capacity is 1000000 when `cacheSize ≤ 0` and `cacheSize` otherwise,
whose shard count is 100 when `numBuckets ≤ 0` and `numBuckets` otherwise,
whose eviction queue is empty, open and bounded by that capacity, and which
has exactly as many shards as its shard count, all of them empty, the size
counter 0 and the closed flag unset, so that `Size()` is 0. -/
theorem C21_constructor_defaults (cacheSize numBuckets defaultExpiration cleanupInterval : Int)
    (onEvict : Bool) (hiv : 0 < cleanupInterval) :
    ∃ c : Cache,
      New cacheSize numBuckets defaultExpiration cleanupInterval onEvict = some c ∧
      c.cacheSize = (if cacheSize ≤ 0 then 1000000 else cacheSize) ∧
      c.numBuckets = (if numBuckets ≤ 0 then 100 else numBuckets) ∧
      c.evictionCh.bound = c.cacheSize ∧ c.evictionCh.buf = [] ∧
      c.evictionCh.closed = false ∧
      (c.storage.length : Int) = c.numBuckets ∧ (∀ b ∈ c.storage, b.values = []) ∧
      c.size = 0 ∧ c.closed = 0 ∧ c.isClosed = false ∧ c.Size = 0 ∧
      c.defaultExpiration = defaultExpiration ∧ c.onEvict = onEvict := by
  have hiv' : ¬ cleanupInterval ≤ 0 := by omega
  refine ⟨
    { cacheSize := if cacheSize ≤ 0 then DefaultCacheSize else cacheSize
      numBuckets := if numBuckets ≤ 0 then DefaultNumBuckets else numBuckets
      defaultExpiration := defaultExpiration
      evictionCh := ⟨[], false, if cacheSize ≤ 0 then DefaultCacheSize else cacheSize⟩
      size := 0
      closed := 0
      storage :=
        List.replicate (if numBuckets ≤ 0 then DefaultNumBuckets else numBuckets).toNat ⟨[]⟩
      onEvict := onEvict },
    by simp only [New, hiv', if_false], rfl, rfl, rfl, rfl, rfl, ?_, ?_, rfl, rfl, rfl,
    rfl, rfl, rfl⟩
  · simp only [List.length_replicate]
    rw [Int.toNat_of_nonneg]
    unfold DefaultNumBuckets
    split_ifs <;> omega
  · intro b hb
    rw [List.eq_of_mem_replicate hb]

theorem C21_constructor_defaults_witness :
    (0 : Int) < 1 ∧ New 0 (-3) 60 1 false = some defaultCache ∧
    ∃ c : Cache, New 0 (-3) 60 1 false = some c ∧ c.cacheSize = 1000000 ∧ c.numBuckets = 100 :=
  ⟨by decide, by decide,
    (C21_constructor_defaults 0 (-3) 60 1 false (by decide)).imp
      (fun _ h => ⟨h.1, h.2.1, h.2.2.1⟩)⟩

/-- C22: shard routing is in range. In every reachable state of the system,
so for every cache built by `New` from any `cacheSize` and `numBuckets`,
`getBucketIdx` returns the 64-bit fingerprint of the key and that fingerprint
modulo the shard count; the shard count is positive, so the modulo does not
divide by zero, and it is the length of the shard array, so the index is
within the array. The index of the worker and the shard indices of the
pending events are within the array as well. -/
theorem C22_shard_routing_in_range (Hash64 : String → Nat) (s : System)
    (hr : s.Reachable Hash64) (key : String) :
    (s.cache.getBucketIdx Hash64 key).1 = fingerprint Hash64 key ∧
    (s.cache.getBucketIdx Hash64 key).1 < 2 ^ 64 ∧
    0 < s.cache.numBuckets ∧ toUint64 s.cache.numBuckets ≠ 0 ∧
    (toUint64 s.cache.numBuckets : Int) = s.cache.numBuckets ∧
    ((s.cache.getBucketIdx Hash64 key).2 : Int) =
      ((s.cache.getBucketIdx Hash64 key).1 : Int) % s.cache.numBuckets ∧
    (s.cache.storage.length : Int) = s.cache.numBuckets ∧
    (s.cache.getBucketIdx Hash64 key).2 < s.cache.storage.length ∧
    s.bucketIdx < s.cache.storage.length ∧
    (∀ e ∈ s.cache.evictionCh.buf, e.bucketIdx < s.cache.storage.length) := by
  obtain ⟨hWF, _, _, g4, g5, _⟩ := Reachable.Good hr
  have hu := toUint64_of_WF hWF
  have hcast : ((s.cache.numBuckets.toNat : Nat) : Int) = s.cache.numBuckets :=
    Int.toNat_of_nonneg (le_of_lt hWF.1)
  refine ⟨rfl, ?_, hWF.1, ?_, ?_, ?_, ?_, idx_lt_of_WF hWF _, g4, g5⟩
  · exact Nat.mod_lt _ (by norm_num)
  · rw [hu]
    have := hWF.1
    omega
  · rw [hu, hcast]
  · show ((Hash64 key % 2 ^ 64 % toUint64 s.cache.numBuckets : Nat) : Int) =
      ((Hash64 key % 2 ^ 64 : Nat) : Int) % s.cache.numBuckets
    rw [hu, Int.natCast_mod, hcast]
  · rw [hWF.2.2, hcast]

theorem C22_shard_routing_in_range_witness :
    System.Reachable String.length (System.start defaultCache) ∧
    (defaultCache.getBucketIdx String.length "abc").2 < defaultCache.storage.length ∧
    defaultCache.getBucketIdx String.length "abc" = (3, 3) :=
  ⟨⟨0, -3, 60, 1, false, defaultCache, [], by decide, by decide, rfl⟩,
    (C22_shard_routing_in_range String.length (System.start defaultCache)
      ⟨0, -3, 60, 1, false, defaultCache, [], by decide, by decide, rfl⟩ "abc").2.2.2.2.2.2.2.1,
    by decide⟩

/-- C26: `Get` is read-only. For every cache state, key and clock reading, the
cache after `Get` is the cache before it: the shard maps, the size counter,
the eviction queue and the closed flag are unchanged, and so is `Size()`. In
particular a `Get` on an open cache that finds an expired entry returns
`NotFoundError` and the entry is still stored afterwards. -/
theorem C26_get_read_only (Hash64 : String → Nat) (c : Cache) (key : String) (now : Int) :
    (c.Get Hash64 key now).1 = c ∧
    (c.Get Hash64 key now).1.storage = c.storage ∧
    (c.Get Hash64 key now).1.size = c.size ∧
    (c.Get Hash64 key now).1.evictionCh = c.evictionCh ∧
    (c.Get Hash64 key now).1.closed = c.closed ∧
    (c.Get Hash64 key now).1.Size = c.Size ∧
    (∀ item : storedValue, c.isClosed = false →
      c.find (fingerprint Hash64 key) = some item → item.isExpired now = true →
      (c.Get Hash64 key now).2 = (none, some .NotFoundError) ∧
      (c.Get Hash64 key now).1.find (fingerprint Hash64 key) = some item ∧
      (c.Get Hash64 key now).1.count = c.count) := by
  have h := Get_state Hash64 c key now
  refine ⟨h, by rw [h], by rw [h], by rw [h], by rw [h], by rw [h], ?_⟩
  intro item ho hf hx
  rw [Get_of_find_expired ho hf ((isExpired_eq_true_iff item now).1 hx)]
  exact ⟨rfl, hf, rfl⟩

theorem C26_get_read_only_witness :
    halfCache.isClosed = false ∧
    halfCache.find (fingerprint String.length "a") = some ⟨some 7, 105⟩ ∧
    (halfCache.Get String.length "a" 106).2 = (none, some .NotFoundError) ∧
    (halfCache.Get String.length "a" 106).1.find (fingerprint String.length "a") =
      some ⟨some 7, 105⟩ ∧
    (halfCache.Get String.length "a" 106).1.count = halfCache.count :=
  ⟨by decide, by decide,
    (C26_get_read_only String.length halfCache "a" 106).2.2.2.2.2.2 ⟨some 7, 105⟩ (by decide)
      (by decide) (by decide)⟩

/-- C27: keys are identified only by their fingerprint. For two keys with the
same 64-bit fingerprint and any cache state, `Set`, `Get`, `Delete` and
`KeepAlive` return the same state, value and error for either key; `Add` and
`Replace` return the same state and value and succeed for one key exactly
when they succeed for the other, their errors being equal or else the
messages that quote the key. In particular, after a successful
`Set(k1, v, NoExpiration)` on a well-formed cache, `Get(k2)` returns `(v, nil)`
at every later clock reading. -/
theorem C27_keys_identified_by_fingerprint (Hash64 : String → Nat) (c : Cache)
    (k1 k2 : String) (hfp : fingerprint Hash64 k1 = fingerprint Hash64 k2)
    (value : Option Session) (d now : Int) :
    c.Set Hash64 k1 value d now = c.Set Hash64 k2 value d now ∧
    c.Get Hash64 k1 now = c.Get Hash64 k2 now ∧
    c.Delete Hash64 k1 now = c.Delete Hash64 k2 now ∧
    c.KeepAlive Hash64 k1 d now = c.KeepAlive Hash64 k2 d now ∧
    (c.Add Hash64 k1 value d now).1 = (c.Add Hash64 k2 value d now).1 ∧
    ((c.Add Hash64 k1 value d now).2 = none ↔ (c.Add Hash64 k2 value d now).2 = none) ∧
    ((c.Add Hash64 k1 value d now).2 = (c.Add Hash64 k2 value d now).2 ∨
      ((c.Add Hash64 k1 value d now).2 =
          some (.errorsNew ("item '" ++ k1 ++ "' already exists")) ∧
        (c.Add Hash64 k2 value d now).2 =
          some (.errorsNew ("item '" ++ k2 ++ "' already exists")))) ∧
    (c.Replace Hash64 k1 value d now).1 = (c.Replace Hash64 k2 value d now).1 ∧
    (c.Replace Hash64 k1 value d now).2.1 = (c.Replace Hash64 k2 value d now).2.1 ∧
    ((c.Replace Hash64 k1 value d now).2.2 = none ↔
      (c.Replace Hash64 k2 value d now).2.2 = none) ∧
    ((c.Replace Hash64 k1 value d now).2.2 = (c.Replace Hash64 k2 value d now).2.2 ∨
      ((c.Replace Hash64 k1 value d now).2.2 =
          some (.errorsNew ("item '" ++ k1 ++ "' doesn't exist")) ∧
        (c.Replace Hash64 k2 value d now).2.2 =
          some (.errorsNew ("item '" ++ k2 ++ "' doesn't exist")))) ∧
    (c.WF → (c.Set Hash64 k1 value NoExpiration now).2.2 = none → ∀ later : Int,
      ((c.Set Hash64 k1 value NoExpiration now).1.Get Hash64 k2 later).2 = (value, none)) := by
  refine ⟨by rw [Set_eq, Set_eq, hfp], by rw [Get_eq, Get_eq, hfp],
    by rw [Delete_eq, Delete_eq, hfp], by rw [KeepAlive_eq, KeepAlive_eq, hfp],
    ?_, ?_, ?_, ?_, ?_, ?_, ?_, ?_⟩
  · rw [Add_eq, Add_eq, hfp]
    split_ifs <;> try rfl
    cases c.find (fingerprint Hash64 k2) with
    | none => rfl
    | some item =>
      dsimp only
      cases item.isExpired now <;> rfl
  · rw [Add_eq, Add_eq, hfp]
    split_ifs <;> try rfl
    cases c.find (fingerprint Hash64 k2) with
    | none => rfl
    | some item =>
      dsimp only
      cases item.isExpired now <;> simp
  · rw [Add_eq, Add_eq, hfp]
    split_ifs <;> try exact Or.inl rfl
    cases c.find (fingerprint Hash64 k2) with
    | none => exact Or.inl rfl
    | some item =>
      dsimp only
      cases item.isExpired now
      · exact Or.inr ⟨rfl, rfl⟩
      · exact Or.inl rfl
  · rw [Replace_eq, Replace_eq, hfp]
    split_ifs <;> try rfl
    cases c.find (fingerprint Hash64 k2) with
    | none => rfl
    | some item =>
      dsimp only
      cases item.isExpired now <;> rfl
  · rw [Replace_eq, Replace_eq, hfp]
    split_ifs <;> try rfl
    cases c.find (fingerprint Hash64 k2) with
    | none => rfl
    | some item =>
      dsimp only
      cases item.isExpired now <;> rfl
  · rw [Replace_eq, Replace_eq, hfp]
    split_ifs <;> try rfl
    cases c.find (fingerprint Hash64 k2) with
    | none => simp
    | some item =>
      dsimp only
      cases item.isExpired now <;> simp
  · rw [Replace_eq, Replace_eq, hfp]
    split_ifs <;> try exact Or.inl rfl
    cases c.find (fingerprint Hash64 k2) with
    | none => exact Or.inr ⟨rfl, rfl⟩
    | some item =>
      dsimp only
      cases item.isExpired now
      · exact Or.inl rfl
      · exact Or.inr ⟨rfl, rfl⟩
  · intro hc hset later
    obtain ⟨_, ho1, _, hf1⟩ := Set_ok hc hset
    rw [getExpiration_NoExpiration, hfp] at hf1
    rw [Get_of_find ho1 hf1 (Or.inl (le_refl _))]

theorem C27_keys_identified_by_fingerprint_witness :
    fingerprint String.length "a" = fingerprint String.length "b" ∧
    smallCache.Set String.length "a" (some 7) NoExpiration 100 =
      smallCache.Set String.length "b" (some 7) NoExpiration 100 ∧
    ((smallCache.Set String.length "a" (some 7) NoExpiration 100).1.Get String.length "b"
      500).2 = (some 7, none) :=
  ⟨by decide,
    (C27_keys_identified_by_fingerprint String.length smallCache "a" "b" (by decide) (some 7)
      NoExpiration 100).1,
    (C27_keys_identified_by_fingerprint String.length smallCache "a" "b" (by decide) (some 7)
      NoExpiration 100).2.2.2.2.2.2.2.2.2.2.2 (by decide) (by decide) 500⟩

/-- C29: operations touch only their own slot. For every well-formed cache
state, open or closed, every call of `Set`, `Add`, `Replace`, `Delete` or
`KeepAlive` on a key, every shard index and every fingerprint other than the
fingerprint of the key, the slot of that fingerprint in that shard (absent, or
present with its value and expiration) is the same after the call as before
it, whatever the call returns. -/
theorem C29_operations_touch_only_own_slot (Hash64 : String → Nat) (c : Cache) (hc : c.WF)
    (key : String) (value : Option Session) (d now : Int) (i h' : Nat)
    (hne : h' ≠ fingerprint Hash64 key) :
    mapLookup ((c.Set Hash64 key value d now).1.bucket i).values h' =
      mapLookup (c.bucket i).values h' ∧
    mapLookup ((c.Add Hash64 key value d now).1.bucket i).values h' =
      mapLookup (c.bucket i).values h' ∧
    mapLookup ((c.Replace Hash64 key value d now).1.bucket i).values h' =
      mapLookup (c.bucket i).values h' ∧
    mapLookup ((c.Delete Hash64 key now).1.bucket i).values h' =
      mapLookup (c.bucket i).values h' ∧
    mapLookup ((c.KeepAlive Hash64 key d now).1.bucket i).values h' =
      mapLookup (c.bucket i).values h' :=
  ⟨effect_lookup (Set_effect Hash64 c key value d now) hc i h' hne,
    effect_lookup (Add_effect Hash64 c key value d now) hc i h' hne,
    effect_lookup (Replace_effect Hash64 c key value d now) hc i h' hne,
    effect_lookup (Delete_effect Hash64 c key now) hc i h' hne,
    effect_lookup (KeepAlive_effect Hash64 c key d now) hc i h' hne⟩

theorem C29_operations_touch_only_own_slot_witness :
    halfCache.WF ∧ (1 : Nat) ≠ fingerprint String.length "bb" ∧
    mapLookup (halfCache.bucket 0).values 1 = some ⟨some 7, 105⟩ ∧
    mapLookup ((halfCache.Set String.length "bb" (some 8) 5 101).1.bucket 0).values 1 =
      mapLookup (halfCache.bucket 0).values 1 :=
  ⟨by decide, by decide, by decide,
    (C29_operations_touch_only_own_slot String.length halfCache (by decide) "bb" (some 8) 5 101
      0 1 (by decide)).1⟩

/-- C30: only a queue drain fires the eviction callback. A step that is not a
queue drain (`Set`, `Add`, `Replace`, `Get`, `Delete`, `KeepAlive`, `Close` or
a sweep tick) leaves the log of the values handed to `onEvict` as it was, and
so does every run of such steps, whatever values they overwrite, delete or
clear. A queue drain either leaves the log as it was or appends one value,
the value stored at that moment in the slot the drained event names, and it
does so only for an open cache with a handler. -/
theorem C30_only_drain_fires_callback (Hash64 : String → Nat) (s : System) :
    (∀ op : Op, op.isDrain = false → (s.apply Hash64 op).evicted = s.evicted) ∧
    (∀ ops : List Op, (∀ op ∈ ops, op.isDrain = false) →
      (s.run Hash64 ops).evicted = s.evicted) ∧
    (s.drain.evicted = s.evicted ∨
      ∃ (e : evictEvent) (rest : List evictEvent) (item : storedValue),
        s.cache.onEvict = true ∧ s.cache.isClosed = false ∧
        s.cache.evictionCh.buf = e :: rest ∧
        mapLookup (s.cache.bucket e.bucketIdx).values e.hash = some item ∧
        s.drain.evicted = s.evicted ++ [item.object]) := by
  refine ⟨fun op hop => apply_evicted Hash64 s hop, fun ops h => run_evicted Hash64 ops s h, ?_⟩
  rcases drain_cases s with h | ⟨e, rest, _, _, _, _, h⟩ | ⟨e, rest, item, ho, _, hq, hf, h⟩
  · exact Or.inl (by rw [h])
  · exact Or.inl (by rw [h])
  · cases hoe : s.cache.onEvict with
    | false =>
      refine Or.inl ?_
      rw [h]
      simp [hoe]
    | true =>
      refine Or.inr ⟨e, rest, item, rfl, ho, hq, hf, ?_⟩
      rw [h]
      simp [hoe]

theorem C30_only_drain_fires_callback_witness :
    (System.start tinyCache).cache.onEvict = true ∧
    (∀ op ∈ [Op.set "a" (some 7) 5 100, .set "a" (some 9) 5 200, .add "a" (some 3) 5 300,
        .delete "a" 400, .set "bb" (some 8) 5 500, .tick 600, .close], op.isDrain = false) ∧
    ((System.start tinyCache).run String.length
      [.set "a" (some 7) 5 100, .set "a" (some 9) 5 200, .add "a" (some 3) 5 300,
        .delete "a" 400, .set "bb" (some 8) 5 500, .tick 600, .close]).evicted = [] :=
  ⟨by decide, by decide,
    (C30_only_drain_fires_callback String.length (System.start tinyCache)).2.1 _ (by decide)⟩

/-- C28: counter bounds. For a cache built by `New` whose capacity is at most
`2^31 - 1`, after every run of calls of `Set`, `Add`, `Replace`, `Get`,
`Delete`, `KeepAlive` and `Close`, sweep ticks and queue drains, the number of
entries stored across all shards is at most the size counter and the size
counter is at most the capacity, which is still the one `New` set; so the
counter is not negative, and no shard holds more entries than the capacity. -/
theorem C28_counter_bounds (Hash64 : String → Nat) (C nb D iv : Int) (oe : Bool) (c0 : Cache)
    (hnb : nb < 2 ^ 63) (hnew : New C nb D iv oe = some c0)
    (hC : c0.cacheSize ≤ 2 ^ 31 - 1) (ops : List Op) :
    (0 : Int) ≤ ((System.start c0).run Hash64 ops).cache.count ∧
    (((System.start c0).run Hash64 ops).cache.count : Int) ≤
      ((System.start c0).run Hash64 ops).cache.size ∧
    ((System.start c0).run Hash64 ops).cache.size ≤ c0.cacheSize ∧
    ((System.start c0).run Hash64 ops).cache.cacheSize = c0.cacheSize ∧
    0 ≤ ((System.start c0).run Hash64 ops).cache.size ∧
    0 ≤ ((System.start c0).run Hash64 ops).cache.Size ∧
    ((System.start c0).run Hash64 ops).cache.Size ≤ c0.cacheSize ∧
    (∀ b ∈ ((System.start c0).run Hash64 ops).cache.storage,
      (b.values.length : Int) ≤ c0.cacheSize) := by
  have hg := start_Good hnb hnew
  have hi : (System.start c0).cache.Inv :=
    @Reachable.Inv Hash64 _ ⟨C, nb, D, iv, oe, c0, [], hnb, hnew, rfl⟩
  obtain ⟨⟨h1, h2⟩, h3⟩ :=
    run_Bounded Hash64 ops (System.start c0) hg hi hC (start_Bounded hnb hnew)
  have h3' : ((System.start c0).run Hash64 ops).cache.cacheSize = c0.cacheSize := h3
  rw [h3'] at h2
  have h0 : (0 : Int) ≤ ((System.start c0).run Hash64 ops).cache.count := Int.natCast_nonneg _
  have hS : 0 ≤ ((System.start c0).run Hash64 ops).cache.Size ∧
      ((System.start c0).run Hash64 ops).cache.Size ≤ c0.cacheSize := by
    unfold Cache.Size Cache.getSize
    split_ifs
    · exact ⟨le_refl _, le_of_lt hg.2.1⟩
    · exact ⟨le_trans h0 h1, h2⟩
  refine ⟨h0, h1, h2, h3', le_trans h0 h1, hS.1, hS.2, ?_⟩
  intro b hb
  have := length_le_count _ hb
  omega

theorem C28_counter_bounds_witness :
    New 1 1 60 1 true = some tinyCache ∧ tinyCache.cacheSize ≤ 2 ^ 31 - 1 ∧
    ((System.start tinyCache).run String.length
      [.set "a" (some 7) 5 100, .add "a" (some 9) 5 200, .delete "a" 300, .drain]).cache.size ≤
        tinyCache.cacheSize ∧
    0 ≤ ((System.start tinyCache).run String.length
      [.set "a" (some 7) 5 100, .add "a" (some 9) 5 200, .delete "a" 300, .drain]).cache.size :=
  ⟨by decide, by decide,
    (C28_counter_bounds String.length 1 1 60 1 true tinyCache (by decide) (by decide)
      (by decide) [.set "a" (some 7) 5 100, .add "a" (some 9) 5 200, .delete "a" 300,
        .drain]).2.2.1,
    (C28_counter_bounds String.length 1 1 60 1 true tinyCache (by decide) (by decide)
      (by decide) [.set "a" (some 7) 5 100, .add "a" (some 9) 5 200, .delete "a" 300,
        .drain]).2.2.2.2.1⟩

/-- C24: no double eviction. Draining an event whose slot holds no entry only
takes the event off the queue: the shard maps, the size counter and the log
of the eviction handler are unchanged. Hence, when the queue of an open
system starts with `n + 1` copies of an event whose slot holds an entry,
draining them all removes that entry, lowers the size counter once, hands the
stored value to the handler once (if there is a handler), and leaves every
other slot of every shard as it was. -/
theorem C24_no_double_eviction (Hash64 : String → Nat) (s : System)
    (ho : s.cache.isClosed = false) (hb : s.blocked = false) (e : evictEvent)
    (rest : List evictEvent) :
    (s.cache.evictionCh.buf = e :: rest →
      mapLookup (s.cache.bucket e.bucketIdx).values e.hash = none →
      s.drain.cache.storage = s.cache.storage ∧ s.drain.cache.size = s.cache.size ∧
      s.drain.evicted = s.evicted ∧ s.drain.cache.evictionCh.buf = rest) ∧
    (∀ (n : Nat) (item : storedValue),
      s.cache.evictionCh.buf = List.replicate (n + 1) e ++ rest →
      mapLookup (s.cache.bucket e.bucketIdx).values e.hash = some item →
      (s.run Hash64 (List.replicate (n + 1) .drain)).cache =
        ((s.cache.setQueue
          ⟨rest, s.cache.evictionCh.closed, s.cache.evictionCh.bound⟩).decSize).remove
          e.bucketIdx e.hash ∧
      (s.run Hash64 (List.replicate (n + 1) .drain)).cache.size =
        wrapInt32 (s.cache.size - 1) ∧
      (s.run Hash64 (List.replicate (n + 1) .drain)).evicted =
        (if s.cache.onEvict then s.evicted ++ [item.object] else s.evicted) ∧
      (s.run Hash64 (List.replicate (n + 1) .drain)).cache.evictionCh.buf = rest ∧
      (∀ j k : Nat,
        mapLookup ((s.run Hash64 (List.replicate (n + 1) .drain)).cache.bucket j).values k =
          if j = e.bucketIdx ∧ k = e.hash then none
          else mapLookup (s.cache.bucket j).values k)) := by
  constructor
  · intro hq hf
    rw [drain_of_absent ho hb hq hf]
    exact ⟨rfl, rfl, rfl, rfl⟩
  · intro n item hq hf
    have hq' : s.cache.evictionCh.buf = e :: (List.replicate n e ++ rest) := by
      rw [hq]
      rfl
    have hi := idx_lt_of_lookup hf
    have hrun : s.run Hash64 (List.replicate (n + 1) .drain) =
        { s with
          cache :=
            ((s.cache.setQueue
              ⟨rest, s.cache.evictionCh.closed, s.cache.evictionCh.bound⟩).decSize).remove
              e.bucketIdx e.hash
          evicted := if s.cache.onEvict then s.evicted ++ [item.object] else s.evicted } := by
      show (s.drain).run Hash64 (List.replicate n .drain) = _
      rw [drain_of_present ho hb hq' hf]
      refine (drains_absent Hash64 e rest n
        { s with
          cache :=
            ((s.cache.setQueue ⟨List.replicate n e ++ rest, s.cache.evictionCh.closed,
              s.cache.evictionCh.bound⟩).decSize).remove e.bucketIdx e.hash
          evicted := if s.cache.onEvict then s.evicted ++ [item.object] else s.evicted }
        ho hb rfl ?_).trans rfl
      have := lookup_remove ((s.cache.setQueue ⟨List.replicate n e ++ rest,
        s.cache.evictionCh.closed, s.cache.evictionCh.bound⟩).decSize)
        e.bucketIdx e.hash hi e.bucketIdx e.hash
      simpa using this
    rw [hrun]
    refine ⟨rfl, rfl, rfl, rfl, ?_⟩
    intro j k
    exact lookup_remove ((s.cache.setQueue
      ⟨rest, s.cache.evictionCh.closed, s.cache.evictionCh.bound⟩).decSize)
      e.bucketIdx e.hash hi j k

set_option maxRecDepth 4096 in
theorem C24_no_double_eviction_witness :
    New 2 1 60 1 true = some handlerCache ∧
    twiceQueuedSystem.cache.isClosed = false ∧ twiceQueuedSystem.blocked = false ∧
    twiceQueuedSystem.cache.evictionCh.buf = [⟨0, 1⟩, ⟨0, 1⟩] ∧
    mapLookup (twiceQueuedSystem.cache.bucket 0).values 1 = some ⟨some 7, 105⟩ ∧
    twiceQueuedSystem.cache.size = 1 ∧
    (twiceQueuedSystem.run String.length [.drain, .drain]).cache.size = wrapInt32 (1 - 1) ∧
    (twiceQueuedSystem.run String.length [.drain, .drain]).evicted = [some 7] ∧
    (twiceQueuedSystem.run String.length [.drain, .drain]).cache.evictionCh.buf = [] :=
  ⟨by decide, by decide, by decide, by decide, by decide, by decide,
    ((C24_no_double_eviction String.length twiceQueuedSystem (by decide) (by decide) ⟨0, 1⟩
      []).2 1 ⟨some 7, 105⟩ (by decide) (by decide)).2.1,
    ((C24_no_double_eviction String.length twiceQueuedSystem (by decide) (by decide) ⟨0, 1⟩
      []).2 1 ⟨some 7, 105⟩ (by decide) (by decide)).2.2.1,
    ((C24_no_double_eviction String.length twiceQueuedSystem (by decide) (by decide) ⟨0, 1⟩
      []).2 1 ⟨some 7, 105⟩ (by decide) (by decide)).2.2.2.1⟩

set_option maxRecDepth 4096 in
/-- C25 fails in the code: the eviction queue can be full when a sweep
enqueues. In the cache `New 1 1 60 1 true` the bound of the queue is the
capacity, one. After `Set("a", 7, 5ns)` at clock reading 100 and a sweep tick
at 200 the queue holds one event and the expired entry is still stored. A
second sweep tick at 201, before any drain, finds the same expired entry, the
send finds the queue full and the worker blocks on its own queue; from then
on neither a drain nor a tick changes the state, and the entry is never
evicted. -/
theorem C25_sweep_blocks_on_full_queue :
    New 1 1 60 1 true = some tinyCache ∧
    tinyCache.evictionCh.bound = tinyCache.cacheSize ∧
    queuedSystem.cache.isClosed = false ∧ queuedSystem.blocked = false ∧
    queuedSystem.cache.evictionCh.buf = [⟨0, 1⟩] ∧
    (queuedSystem.cache.evictionCh.buf.length : Int) = queuedSystem.cache.cacheSize ∧
    mapLookup (queuedSystem.cache.bucket 0).values 1 = some ⟨some 7, 105⟩ ∧
    Chan.send queuedSystem.cache.evictionCh ⟨0, 1⟩ = none ∧
    (sweep queuedSystem.bucketIdx 201 (queuedSystem.cache.bucket queuedSystem.bucketIdx).values
      queuedSystem.cache.evictionCh).2 = true ∧
    (queuedSystem.tick 201).blocked = true ∧
    (queuedSystem.tick 201).run String.length [.drain, .tick 300, .drain] =
      queuedSystem.tick 201 ∧
    mapLookup (((queuedSystem.tick 201).run String.length
      [.drain, .tick 300, .drain]).cache.bucket 0).values 1 = some ⟨some 7, 105⟩ ∧
    ((queuedSystem.tick 201).run String.length [.drain, .tick 300, .drain]).evicted = [] := by
  decide

set_option maxRecDepth 4096 in
/-- C23 fails in the code: a sweep tick that finds the eviction queue full
neither enqueues the expired entries nor advances the index. In the cache
`New 1 2 60 1 false`, after `Set("bb", 8, 5ns)` at clock reading 100, a sweep
tick of shard 0 at 200 and a sweep tick of shard 1 at 201, the worker is open
and running with index 0, the queue of bound one holds the event of "bb" and
shard 0 still holds the entry of "bb", expired at 202. The sweep tick at 202
appends no event for that entry and leaves the index at 0 instead of 1: the
send finds the queue full and the worker blocks on its own queue. The same
happens with a single shard, whatever the fingerprints are: in the cache
`New 2 1 60 1 true`, after `Set("a", 7, 5ns)` at 100 and sweep ticks at 200
and at 201, the sweep tick at 202 appends no event for the expired entry. -/
theorem C23_sweep_tick_blocks :
    New 2 1 60 1 true = some handlerCache ∧
    twiceQueuedSystem.cache.isClosed = false ∧ twiceQueuedSystem.blocked = false ∧
    twiceQueuedSystem.bucketIdx = 0 ∧
    mapLookup (twiceQueuedSystem.cache.bucket 0).values 1 = some ⟨some 7, 105⟩ ∧
    storedValue.isExpired ⟨some 7, 105⟩ 202 = true ∧
    twiceQueuedSystem.cache.evictionCh.buf = [⟨0, 1⟩, ⟨0, 1⟩] ∧
    (twiceQueuedSystem.tick 202).cache.evictionCh.buf = [⟨0, 1⟩, ⟨0, 1⟩] ∧
    (twiceQueuedSystem.tick 202).blocked = true ∧
    New 1 2 60 1 false = some twoShardCache ∧
    stalledSystem.cache.isClosed = false ∧ stalledSystem.blocked = false ∧
    stalledSystem.bucketIdx = 0 ∧ stalledSystem.cache.storage.length = 2 ∧
    stalledSystem.cache.evictionCh.buf = [⟨0, 2⟩] ∧
    mapLookup (stalledSystem.cache.bucket 0).values 2 = some ⟨some 8, 105⟩ ∧
    storedValue.isExpired ⟨some 8, 105⟩ 202 = true ∧
    (stalledSystem.tick 202).cache.evictionCh.buf = [⟨0, 2⟩] ∧
    (stalledSystem.tick 202).cache.evictionCh.buf ≠
      stalledSystem.cache.evictionCh.buf ++ [⟨0, 2⟩] ∧
    (stalledSystem.tick 202).bucketIdx = 0 ∧
    (stalledSystem.tick 202).bucketIdx ≠ (stalledSystem.bucketIdx + 1) % 2 ∧
    (stalledSystem.tick 202).blocked = true := by
  decide

/-- The postcondition of a sweep tick whose sends do not block. Let the system
be reached from a cache built by `New` by a run `ops`,
open and with the worker running, and let the queue have room for the expired
entries of the shard at the index of the worker. Then the tick at `now`
appends to the queue the events of that shard: a list without repetition that
holds an event exactly when the event names that shard and a fingerprint whose
entry in it is expired at `now`. It leaves the shard maps and the size counter
as they were, keeps the worker running, and moves the index to the next one
modulo the number of shards. The index before the tick is the number of sweep
ticks in `ops` modulo the number of shards, and as many consecutive indices as
there are shards are, modulo that number, every shard index once. -/
theorem sweep_tick_of_room (Hash64 : String → Nat) (C nb D iv : Int) (oe : Bool) (c0 : Cache)
    (hnb : nb < 2 ^ 63) (hnew : New C nb D iv oe = some c0) (ops : List Op) (s : System)
    (hs : s = (System.start c0).run Hash64 ops) (ho : s.cache.isClosed = false)
    (hb : s.blocked = false) (now : Int)
    (hroom : (s.cache.evictionCh.buf.length : Int) +
      (expiredEvents s.bucketIdx now (s.cache.bucket s.bucketIdx).values).length ≤
        s.cache.evictionCh.bound) :
    (s.tick now).cache.evictionCh.buf =
      s.cache.evictionCh.buf ++
        expiredEvents s.bucketIdx now (s.cache.bucket s.bucketIdx).values ∧
    (expiredEvents s.bucketIdx now (s.cache.bucket s.bucketIdx).values).Nodup ∧
    (∀ e : evictEvent,
      e ∈ expiredEvents s.bucketIdx now (s.cache.bucket s.bucketIdx).values ↔
        e.bucketIdx = s.bucketIdx ∧
          ∃ v : storedValue, mapLookup (s.cache.bucket s.bucketIdx).values e.hash = some v ∧
            v.isExpired now = true) ∧
    (s.tick now).cache.storage = s.cache.storage ∧
    (s.tick now).cache.size = s.cache.size ∧
    (s.tick now).blocked = false ∧
    (s.cache.storage.length : Int) = s.cache.numBuckets ∧
    (s.tick now).bucketIdx = (s.bucketIdx + 1) % s.cache.storage.length ∧
    s.bucketIdx = countTicks ops % s.cache.storage.length ∧
    (∀ k : Nat,
      ((List.range s.cache.storage.length).map
        (fun j => (k + j) % s.cache.storage.length)).Perm
          (List.range s.cache.storage.length)) := by
  have hg0 := start_Good hnb hnew
  have hi0 : (System.start c0).cache.Inv :=
    @Reachable.Inv Hash64 _ ⟨C, nb, D, iv, oe, c0, [], hnb, hnew, rfl⟩
  have hg : s.Good :=
    @Reachable.Good Hash64 _ ⟨C, nb, D, iv, oe, c0, ops, hnb, hnew, hs⟩
  have hn : (mapKeys (s.cache.bucket s.bucketIdx).values).Nodup :=
    hg.2.2.2.2.2 _ (bucket_mem _ _ hg.2.2.2.1)
  have hidx : s.bucketIdx = countTicks ops % s.cache.storage.length := by
    have ho' := ho
    have hb' := hb
    rw [hs] at ho' hb'
    obtain ⟨i1, i2⟩ := run_bucketIdx Hash64 ops (System.start c0) hg0 hi0 ho' hb'
    rw [hs, i1, i2]
    show (0 + countTicks ops) % _ = _
    rw [Nat.zero_add]
  have hlen : (s.cache.storage.length : Int) = s.cache.numBuckets := by
    rw [hg.1.2.2, Int.toNat_of_nonneg (le_of_lt hg.1.1)]
  rw [tick_of_room ho hb now hroom]
  exact ⟨rfl, expiredEvents_nodup _ _ hn, mem_expiredEvents_iff _ _ hn, rfl, rfl, hb, hlen,
    next_index hg.1 hg.2.2.2.1, hidx, fun k => range_shift_perm _ k⟩

set_option maxRecDepth 4096 in
theorem sweep_tick_of_room_example :
    New 1 2 60 1 false = some twoShardCache ∧
    expiredEvents 0 200 (((System.start twoShardCache).run String.length
      [.set "bb" (some 8) 5 100]).cache.bucket 0).values = [⟨0, 2⟩] ∧
    ((System.start twoShardCache).run String.length
      [.set "bb" (some 8) 5 100, .tick 200]).cache.evictionCh.buf = [⟨0, 2⟩] ∧
    (((System.start twoShardCache).run String.length [.set "bb" (some 8) 5 100]).tick
        200).cache.evictionCh.buf =
      ((System.start twoShardCache).run String.length
          [.set "bb" (some 8) 5 100]).cache.evictionCh.buf ++
        expiredEvents ((System.start twoShardCache).run String.length
            [.set "bb" (some 8) 5 100]).bucketIdx 200
          ((((System.start twoShardCache).run String.length
            [.set "bb" (some 8) 5 100]).cache.bucket
              ((System.start twoShardCache).run String.length
                [.set "bb" (some 8) 5 100]).bucketIdx).values) ∧
    (((System.start twoShardCache).run String.length [.set "bb" (some 8) 5 100]).tick
        200).bucketIdx =
      (((System.start twoShardCache).run String.length
          [.set "bb" (some 8) 5 100]).bucketIdx + 1) %
        ((System.start twoShardCache).run String.length
          [.set "bb" (some 8) 5 100]).cache.storage.length :=
  ⟨by decide, by decide, by decide,
    (sweep_tick_of_room String.length 1 2 60 1 false twoShardCache (by decide) (by decide)
      [.set "bb" (some 8) 5 100] _ rfl (by decide) (by decide) 200 (by decide)).1,
    (sweep_tick_of_room String.length 1 2 60 1 false twoShardCache (by decide) (by decide)
      [.set "bb" (some 8) 5 100] _ rfl (by decide) (by decide) 200
      (by decide)).2.2.2.2.2.2.2.1⟩

end cache
